import Mathlib

/-!
# Verification of the `network-data` graph library

A shallow embedding of the core of the repository: the node/edge/network data
model, the mutation operations (`addNode`, `addEdge`, `removeEdge`), streaming
ingestion (`makeNetwork` with its aggregation strategies), the `spread`
traversal engine, degree-threshold selection (`branchThresholdNodes`) and
network fragmentation (`fragmentNetwork`).

JavaScript object identity is modelled with explicit heaps: node objects and
edge objects live in lists indexed by natural-number references, so that the
source's pervasive aliasing (an edge is simultaneously referenced from the
network's edge list, both endpoints' adjacency lists and the `inToOutMap`) is
represented faithfully.  JS `Map`s are insertion-ordered association lists
(`Map.set` updates in place, keeping the original position), JS `Set`s are
insertion-ordered duplicate-free lists.
-/

namespace NetData

/-- JS `Identifier = number | string` (src/ui/types.ts). -/
inductive Ident where
  | num (n : Int)
  | str (s : String)
deriving DecidableEq

/-- JS truthiness of an identifier: the number 0 and the empty string are
falsy (this is what `!edge.id` tests in make-network.ts). -/
def Ident.truthy : Ident → Bool
  | .num n => n != 0
  | .str s => s != ""

/-- JS `Weights = number | number[]`; a list may contain `undefined` holes
(`new Array(n)` in the OVERRIDE aggregation produces such holes). -/
inductive Weights where
  | num (n : Int)
  | list (l : List (Option Int))
deriving DecidableEq

/-- src/ui/types.ts `isWeightNumber`: tests for the presence of `toFixed`,
i.e. whether the value is a single number. -/
def isWeightNumber : Weights → Bool
  | .num _ => true
  | .list _ => false

/-- JS `[x].concat(y)` / `x.concat(y)` flattening: an array argument spreads
its elements, a number argument is appended as one element. -/
def weightsToList : Weights → List (Option Int)
  | .num n => [some n]
  | .list l => l

/-- JS truthiness of a `Weights` value: `0` is falsy, every array is truthy
(this is what `edge.inOutFlow || []` tests in make-network.ts). -/
def Weights.truthy : Weights → Bool
  | .num n => n != 0
  | .list _ => true

/-- Opaque `meta` payload carried by nodes and edges.  The core never
inspects it, so it is represented by an atomic token. -/
abbrev MetaTok := Nat

/-! ## JS `Map` as an insertion-ordered association list -/

/-- JS `Map.get`. -/
def mapGet {κ β : Type} [DecidableEq κ] : List (κ × β) → κ → Option β
  | [], _ => none
  | (k, v) :: rest, key => if k = key then some v else mapGet rest key

/-- JS `Map.set`: replaces in place when the key is present (keeping the
entry's position), appends at the end otherwise. -/
def mapSet {κ β : Type} [DecidableEq κ] : List (κ × β) → κ → β → List (κ × β)
  | [], key, v => [(key, v)]
  | (k, w) :: rest, key, v =>
    if k = key then (key, v) :: rest else (k, w) :: mapSet rest key v

/-- JS `Map.delete`: returns whether the key was present together with the
map without that entry. -/
def mapDel {κ β : Type} [DecidableEq κ] : List (κ × β) → κ → Bool × List (κ × β)
  | [], _ => (false, [])
  | (k, w) :: rest, key =>
    if k = key then (true, rest)
    else
      let r := mapDel rest key
      (r.1, (k, w) :: r.2)

/-- JS `Map.has`. -/
def mapHas {κ β : Type} [DecidableEq κ] (m : List (κ × β)) (k : κ) : Bool :=
  (mapGet m k).isSome

/-! ## JS `Set` as an insertion-ordered duplicate-free list -/

/-- JS `Set.has`. -/
def setHas {α : Type} [DecidableEq α] (s : List α) (x : α) : Bool :=
  decide (x ∈ s)

/-- JS `Set.add`: appends only when the element is not present. -/
def setAdd {α : Type} [DecidableEq α] (s : List α) (x : α) : List α :=
  if x ∈ s then s else s ++ [x]

/-- JS `array.indexOf(x)` followed by `splice(i, 1)`: removes the first
occurrence when present. -/
def eraseFirst {α : Type} [DecidableEq α] : List α → α → List α
  | [], _ => []
  | y :: rest, x => if y = x then rest else y :: eraseFirst rest x

/-! ## Map of maps (src/ui/util/map-of-maps.ts) -/

/-- `getFromMapOfMaps` without a default value. -/
def momGet {γ : Type} (m : List (Nat × List (Nat × γ))) (a b : Nat) : Option γ :=
  (mapGet m a).bind fun inner => mapGet inner b

/-- `addToMapOfMaps`. -/
def momAdd {γ : Type} (m : List (Nat × List (Nat × γ))) (a b : Nat) (v : γ) :
    List (Nat × List (Nat × γ)) :=
  match mapGet m a with
  | none => mapSet m a (mapSet [] b v)
  | some inner => mapSet m a (mapSet inner b v)

/-- `removeFromMapOfMaps` (the deleted flag is unused by all callers). -/
def momDel {γ : Type} (m : List (Nat × List (Nat × γ))) (a b : Nat) :
    List (Nat × List (Nat × γ)) :=
  match mapGet m a with
  | none => m
  | some inner => mapSet m a (mapDel inner b).2

/-- `getFromMapOfMaps(m, a, b, [])` followed by `list.push(v)`: the default
empty list is inserted and the pushed element lands in the stored list. -/
def momPush {γ : Type} (m : List (Nat × List (Nat × List γ))) (a b : Nat) (v : γ) :
    List (Nat × List (Nat × List γ)) :=
  momAdd m a b (((momGet m a b).getD []) ++ [v])

/-! ## The data model (src/ui/types.ts) -/

/-- `INode`: adjacency lists hold edge references (heap indices). -/
structure NodeObj where
  id : Ident
  inE : List Nat
  outE : List Nat
  value : Weights
  meta : Option MetaTok
deriving DecidableEq

instance : Inhabited NodeObj := ⟨⟨.num 0, [], [], .num 0, none⟩⟩

/-- `IEdge`: endpoint fields hold node references (heap indices). -/
structure EdgeObj where
  id : Ident
  inN : Nat
  outN : Nat
  inOutFlow : Weights
  outInFlow : Weights
  meta : Option MetaTok
deriving DecidableEq

instance : Inhabited EdgeObj := ⟨⟨.num 0, 0, 0, .num 0, .num 0, none⟩⟩

/-- The object heaps giving nodes and edges their identity. -/
structure World where
  nodeHeap : List NodeObj
  edgeHeap : List EdgeObj
deriving DecidableEq

/-- Dereference a node. -/
def World.node (w : World) (r : Nat) : NodeObj :=
  w.nodeHeap.getD r default

/-- Dereference an edge. -/
def World.edge (w : World) (r : Nat) : EdgeObj :=
  w.edgeHeap.getD r default

/-- Overwrite a node object in place. -/
def World.setNode (w : World) (r : Nat) (o : NodeObj) : World :=
  { w with nodeHeap := w.nodeHeap.set r o }

/-- Overwrite an edge object in place. -/
def World.setEdge (w : World) (r : Nat) (o : EdgeObj) : World :=
  { w with edgeHeap := w.edgeHeap.set r o }

/-- Allocate a fresh node object, returning its reference. -/
def World.allocNode (w : World) (o : NodeObj) : World × Nat :=
  ({ w with nodeHeap := w.nodeHeap ++ [o] }, w.nodeHeap.length)

/-- Allocate a fresh edge object, returning its reference. -/
def World.allocEdge (w : World) (o : EdgeObj) : World × Nat :=
  ({ w with edgeHeap := w.edgeHeap ++ [o] }, w.edgeHeap.length)

/-- `INetworkData`: the containers hold references into the heaps. -/
structure Network where
  nodes : List Nat
  edges : List Nat
  nodeMap : List (Ident × Nat)
  edgeMap : List (Ident × Nat)
  inToOutMap : List (Nat × List (Nat × Nat))
deriving DecidableEq

/-! ## src/ui/selection/branch-threshold-nodes.ts -/

/-- `Number.MAX_SAFE_INTEGER`, the default for the `max` option. -/
def MAX_SAFE_INTEGER : Nat := 9007199254740991

/-- `branchThresholdNodes(network, {min, max})`: collects into a `Set` the
nodes whose branch count (`in.length + out.length`) passes the check.  The
inclusion check requires `min < max`; otherwise the source runs its
"exclusion check" loop with the condition `check >= min || check <= max`. -/
def branchThresholdNodes (w : World) (net : Network) (minO maxO : Option Nat) :
    List Nat :=
  let mn := minO.getD 0
  let mx := maxO.getD MAX_SAFE_INTEGER
  if mn < mx then
    net.nodes.foldl
      (fun roots r =>
        let check := (w.node r).inE.length + (w.node r).outE.length
        if mn ≤ check ∧ check ≤ mx then setAdd roots r else roots)
      []
  else
    net.nodes.foldl
      (fun roots r =>
        let check := (w.node r).inE.length + (w.node r).outE.length
        if check ≥ mn ∨ check ≤ mx then setAdd roots r else roots)
      []

/-! ## Aggregation strategies (src/ui/data/make-network.ts) -/

/-- `MakeNetworkAggregateValueMode`. -/
inductive AggMode where
  | NONE
  | OVERRIDE
  | CONCAT
deriving DecidableEq

/-- The NONE strategy's body: the most recent defined value wins. -/
def aggregateNone (oldVal newVal : Option Weights) : Option Weights :=
  match newVal with
  | none => oldVal
  | some _ => newVal

/-- `aggregateValue`.  In the CONCAT case the source's list branch evaluates
`oldVal.concat(newVal).filter(isDefined)` without returning it, so the JS
`switch` falls through into the NONE case; the embedding reproduces that
fall-through by delegating to the NONE body there. -/
def aggregateValue (mode : AggMode) (oldVal newVal : Option Weights) :
    Option Weights :=
  match mode with
  | .CONCAT =>
    match oldVal, newVal with
    | none, _ => newVal
    | some _, none => oldVal
    | some o, some n =>
      if isWeightNumber o then
        some (.list (weightsToList o ++ weightsToList n))
      else
        aggregateNone oldVal newVal
  | .NONE => aggregateNone oldVal newVal
  | .OVERRIDE =>
    match oldVal, newVal with
    | none, _ => newVal
    | some _, none => oldVal
    | some o, some n =>
      if isWeightNumber o || isWeightNumber n then some n
      else
        let ol := weightsToList o
        let nl := weightsToList n
        let len := max nl.length ol.length
        some (.list ((List.range len).map fun i =>
          if i < nl.length then
            match (nl.get? i).join with
            | some v => some v
            | none => (ol.get? i).join
          else none))

/-! ## Mutable JS arrays

`addNode` mutates its working array in place (it appends transitively
discovered endpoint nodes while iterating), so the arrays flowing through it
are modelled by reference: an array store indexed by array references.  This
makes the claim that the caller's array is protected by the `makeList` copy a
real statement instead of a tautology. -/

/-- The array store: array references are indices. -/
abbrev ArrStore := List (List Nat)

/-- Allocate a fresh array, returning its reference. -/
def arrAlloc (st : ArrStore) (l : List Nat) : ArrStore × Nat :=
  (st ++ [l], st.length)

/-- Read an array. -/
def arrGet (st : ArrStore) (r : Nat) : List Nat :=
  st.getD r []

/-- JS `array.push(x)` through a reference. -/
def arrPush (st : ArrStore) (r : Nat) (x : Nat) : ArrStore :=
  st.set r (arrGet st r ++ [x])

/-- The `nodes` argument of `addNode`: a single node, an array of nodes
(passed by reference) or a set of nodes (src/ui/util/make-list.ts). -/
inductive NodesInput where
  | arr (r : Nat)
  | single (n : Nat)
  | set (s : List Nat)
deriving DecidableEq

/-- `makeList(items)`: `Array.isArray(items) ? items.slice(0) : items
instanceof Set ? Array.from(items) : [items]` — an array input is copied
into a freshly allocated array. -/
def makeListNodes (st : ArrStore) (input : NodesInput) : ArrStore × Nat :=
  match input with
  | .arr r => arrAlloc st (arrGet st r)
  | .single n => arrAlloc st [n]
  | .set s => arrAlloc st s

/-! ## src/ui/data/add-edge.ts and add-node.ts -/

/-- The running state of the `addEdge` loop over its batch. -/
structure AEState where
  w : World
  net : Network
  addedNodes : List Nat
  addedEdges : List Nat
  edgeErrors : List Nat
  addNodes : List Nat
deriving DecidableEq

/-- One iteration of the `addEdge` batch loop: id collision → error unless
already added this batch; optional (in,out) collision check; otherwise the
edge is pushed into `edges`/`edgeMap`/`inToOutMap` and (unless `ignoreNodes`)
spliced into both endpoints' adjacency lists, scheduling unregistered
endpoints for `addNode`. -/
def addEdgeStep (preventCollisions ignoreNodes : Bool) (st : AEState) (e : Nat) :
    AEState :=
  if mapHas st.net.edgeMap (st.w.edge e).id then
    if e ∈ st.addedEdges then st
    else { st with edgeErrors := setAdd st.edgeErrors e }
  else if preventCollisions
      && (momGet st.net.inToOutMap (st.w.edge e).inN (st.w.edge e).outN).isSome then
    if e ∈ st.addedEdges then st
    else { st with edgeErrors := setAdd st.edgeErrors e }
  else
    -- push into `edges`/`edgeMap`/`inToOutMap` and track the edge as added
    let net' := { st.net with
      edges := st.net.edges ++ [e]
      edgeMap := mapSet st.net.edgeMap (st.w.edge e).id e
      inToOutMap := momAdd st.net.inToOutMap (st.w.edge e).inN (st.w.edge e).outN e }
    let addedEdges' := setAdd st.addedEdges e
    if ignoreNodes then { st with net := net', addedEdges := addedEdges' }
    else
      -- splice into both endpoints' adjacency lists when not already there
      let aRef := (st.w.edge e).inN
      let w1 :=
        if e ∈ (st.w.node aRef).outE then st.w
        else st.w.setNode aRef
          { st.w.node aRef with outE := (st.w.node aRef).outE ++ [e] }
      let bRef := (st.w.edge e).outN
      let w2 :=
        if e ∈ (w1.node bRef).inE then w1
        else w1.setNode bRef
          { w1.node bRef with inE := (w1.node bRef).inE ++ [e] }
      -- schedule endpoints that are not yet registered in the network
      let addNodes1 :=
        if mapHas st.net.nodeMap (w2.node aRef).id then st.addNodes
        else st.addNodes ++ [aRef]
      let addNodes2 :=
        if mapHas st.net.nodeMap (w2.node bRef).id then addNodes1
        else addNodes1 ++ [bRef]
      { st with w := w2, net := net', addedEdges := addedEdges', addNodes := addNodes2 }

/-- The running state of the `addNode` loop (the schedule array lives in the
array store under `schedRef`). -/
structure ANState where
  w : World
  net : Network
  arrs : ArrStore
  schedRef : Nat
  nodeSet : List Nat
  addedNodes : List Nat
  addedEdges : List Nat
  nodeErrors : List Nat
  addEdges : List Nat
deriving DecidableEq

/-- The body of the `addNode` loop over a new node's `out` list: the edge is
collected for the later `addEdge` call and an unregistered, unscheduled
target node is pushed onto the schedule. -/
def scheduleOutNeighbor (st : ANState) (e : Nat) : ANState :=
  let outNode := (st.w.edge e).outN
  let st := { st with addEdges := st.addEdges ++ [e] }
  if outNode ∈ st.nodeSet || mapHas st.net.nodeMap (st.w.node outNode).id then st
  else { st with
    arrs := arrPush st.arrs st.schedRef outNode
    nodeSet := setAdd st.nodeSet outNode }

/-- The body of the `addNode` loop over a new node's `in` list. -/
def scheduleInNeighbor (st : ANState) (e : Nat) : ANState :=
  let inNode := (st.w.edge e).inN
  let st := { st with addEdges := st.addEdges ++ [e] }
  if inNode ∈ st.nodeSet || mapHas st.net.nodeMap (st.w.node inNode).id then st
  else { st with
    arrs := arrPush st.arrs st.schedRef inNode
    nodeSet := setAdd st.nodeSet inNode }

/-- The self-growing `addNode` loop (`for (i = 0, iMax = nodes.length;
i < iMax; ++i)` with `iMax++` on every `nodes.push`): a registered id is an
error unless already added this batch; a new node is appended to
`nodes`/`nodeMap` and (unless `ignoreEdges`) its `out`/`in` edges are
collected for the later `addEdge` call while unregistered, unscheduled
endpoint nodes are pushed onto the schedule.  The fuel only bounds the
iteration count; running out of fuel stops early. -/
def addNodeLoop (ignoreEdges : Bool) : Nat → Nat → ANState → ANState
  | fuel, i, st =>
    if i ≥ (arrGet st.arrs st.schedRef).length then st
    else
      match fuel with
      | 0 => st
      | fuel + 1 =>
        let node := (arrGet st.arrs st.schedRef).getD i 0
        if mapHas st.net.nodeMap (st.w.node node).id then
          let st :=
            if node ∈ st.addedNodes then st
            else { st with nodeErrors := setAdd st.nodeErrors node }
          addNodeLoop ignoreEdges fuel (i + 1) st
        else
          let st := { st with
            net := { st.net with
              nodes := st.net.nodes ++ [node]
              nodeMap := mapSet st.net.nodeMap (st.w.node node).id node }
            addedNodes := setAdd st.addedNodes node }
          if ignoreEdges then addNodeLoop ignoreEdges fuel (i + 1) st
          else
            let st := (st.w.node node).outE.foldl scheduleOutNeighbor st
            let st := (st.w.node node).inE.foldl scheduleInNeighbor st
            addNodeLoop ignoreEdges fuel (i + 1) st

/-- The result of `addNode` (`IAddNodeResult` plus the final heaps). -/
structure AddNodeRes where
  w : World
  net : Network
  arrs : ArrStore
  addedNodes : List Nat
  addedEdges : List Nat
  nodeErrors : Option (List Nat)
  edgeErrors : Option (List Nat)
deriving DecidableEq

/-- The initial state of the `addNode` loop: the freshly copied schedule and
the `new Set(nodes)` quick lookup. -/
def anInit (w : World) (net : Network) (al : ArrStore × Nat)
    (addedNodes addedEdges : Option (List Nat)) : ANState :=
  { w := w, net := net, arrs := al.1, schedRef := al.2
    nodeSet := (arrGet al.1 al.2).foldl setAdd []
    addedNodes := addedNodes.getD [], addedEdges := addedEdges.getD []
    nodeErrors := [], addEdges := [] }

/-- `addNode(network, nodes, addedNodes?, addedEdges?,
preventEdgeCollisions?, ignoreEdges?)`: copies the input via `makeList`,
runs the schedule loop, then registers the collected edges through the edge
loop with `ignoreNodes = true` (the source's `addEdge(network, addEdges,
addedNodes, addedEdges, preventEdgeCollisions, true)` call). -/
def addNode (w : World) (net : Network) (arrs : ArrStore) (input : NodesInput)
    (addedNodes addedEdges : Option (List Nat))
    (preventEdgeCollisions ignoreEdges : Bool) (fuel : Nat) : AddNodeRes :=
  let st := addNodeLoop ignoreEdges fuel 0
    (anInit w net (makeListNodes arrs input) addedNodes addedEdges)
  if ignoreEdges then
    { w := st.w, net := st.net, arrs := st.arrs
      addedNodes := st.addedNodes, addedEdges := st.addedEdges
      nodeErrors := if st.nodeErrors.length > 0 then some st.nodeErrors else none
      edgeErrors := none }
  else
    let ae := st.addEdges.foldl (addEdgeStep preventEdgeCollisions true)
      { w := st.w, net := st.net, addedNodes := st.addedNodes
        addedEdges := st.addedEdges, edgeErrors := [], addNodes := [] }
    { w := ae.w, net := ae.net, arrs := st.arrs
      addedNodes := ae.addedNodes, addedEdges := ae.addedEdges
      nodeErrors := if st.nodeErrors.length > 0 then some st.nodeErrors else none
      edgeErrors := if ae.edgeErrors.length > 0 then some ae.edgeErrors else none }

/-- The result of `addEdge` (`IAddEdgeResult` plus the final heaps). -/
structure AddEdgeRes where
  w : World
  net : Network
  arrs : ArrStore
  nodes : List Nat
  edges : List Nat
  edgeErrors : Option (List Nat)
  nodeErrors : Option (List Nat)
deriving DecidableEq

/-- `addEdge(network, edges, addedNodes?, addedEdges?, preventCollisions?,
ignoreNodes?)`: runs the batch loop and, unless `ignoreNodes`, hands the
scheduled endpoint nodes to `addNode` (mutual recursion that is bounded
because that call passes `ignoreEdges = false` but its nested edge pass runs
with `ignoreNodes = true`).  `edges = makeList(edges)` copies the caller's
list and the loop only reads it, so the batch is passed by value. -/
def addEdge (w : World) (net : Network) (arrs : ArrStore) (edges : List Nat)
    (addedNodes addedEdges : Option (List Nat))
    (preventCollisions ignoreNodes : Bool) (fuel : Nat) : AddEdgeRes :=
  let st := edges.foldl (addEdgeStep preventCollisions ignoreNodes)
    { w := w, net := net, addedNodes := addedNodes.getD []
      addedEdges := addedEdges.getD [], edgeErrors := [], addNodes := [] }
  if ignoreNodes then
    { w := st.w, net := st.net, arrs := arrs
      nodes := st.addedNodes, edges := st.addedEdges
      edgeErrors := if st.edgeErrors.length > 0 then some st.edgeErrors else none
      nodeErrors := none }
  else
    let al := arrAlloc arrs st.addNodes
    let anr := addNode st.w st.net al.1 (.arr al.2) (some st.addedNodes)
      (some st.addedEdges) true false fuel
    { w := anr.w, net := anr.net, arrs := anr.arrs
      nodes := anr.addedNodes, edges := anr.addedEdges
      edgeErrors := if st.edgeErrors.length > 0 then some st.edgeErrors else none
      nodeErrors := anr.nodeErrors }

/-! ## src/ui/selection/neighbors.ts -/

/-- Result of the `neighbors` gather. -/
structure NeighborsRes where
  nodes : List Nat
  edges : List Nat
deriving DecidableEq

/-- `neighbors({node, exclude, includeEdgeToExcludedNode})`: walks the node's
`in` list (gathering each edge's `in` endpoint) then its `out` list
(gathering each edge's `out` endpoint), skipping excluded endpoints but
optionally still reporting the edge to them. -/
def neighbors (w : World) (node : Nat) (exclude : Option (List Nat))
    (includeEdgeToExcludedNode : Bool) : NeighborsRes :=
  match exclude with
  | some ex =>
    let s1 := (w.node node).inE.foldl
      (fun (acc : List Nat × List Nat) e =>
        if !(setHas ex (w.edge e).inN) then
          (acc.1 ++ [(w.edge e).inN], acc.2 ++ [e])
        else if includeEdgeToExcludedNode then (acc.1, acc.2 ++ [e])
        else acc)
      ([], [])
    let s2 := (w.node node).outE.foldl
      (fun (acc : List Nat × List Nat) e =>
        if !(setHas ex (w.edge e).outN) then
          (acc.1 ++ [(w.edge e).outN], acc.2 ++ [e])
        else if includeEdgeToExcludedNode then (acc.1, acc.2 ++ [e])
        else acc)
      s1
    ⟨s2.1, s2.2⟩
  | none =>
    let s1 := (w.node node).inE.foldl
      (fun (acc : List Nat × List Nat) e =>
        (acc.1 ++ [(w.edge e).inN], acc.2 ++ [e]))
      ([], [])
    let s2 := (w.node node).outE.foldl
      (fun (acc : List Nat × List Nat) e =>
        (acc.1 ++ [(w.edge e).outN], acc.2 ++ [e]))
      s1
    ⟨s2.1, s2.2⟩

/-! ## src/ui/selection/spread.ts

The engine's only suspension point is the per-wave `results` callback, so it
is embedded as a synchronous loop whose callback is a pure function of the
wave data returning whether the response requested `stop`.  The sequence of
callback invocations is recorded as `emits`; the outer wave loop carries fuel
(`final = none` means the fuel ran out before the operation resolved). -/

/-- A path entry: a single parent node, or a list of parents after a
collision between wavefronts. -/
abbrev PathEntry := Sum Nat (List Nat)

/-- The data handed to the `results` callback for one wave (`ISpreadResult`
minus the `util` helpers). -/
structure SpreadEmit where
  depth : Nat
  nodes : List Nat
  edges : List Nat
  collisions : Option (List Nat)
  path : Option (List (Nat × PathEntry))
deriving DecidableEq

/-- The mutable spread state (`ISpreadState` plus the engine's locals). -/
structure SpState where
  depth : Nat
  processedNodes : List Nat
  processedEdges : List Nat
  willProcess : List Nat
  path : List (Nat × PathEntry)
  edges : List Nat
  collisions : List Nat
deriving DecidableEq

/-- The inner `while (toProcess.length > 0)` loop of one wave.  The source
pops from the end of `toProcess`; the embedding receives the queue already
reversed so that popping is taking the head. -/
def processStack (w : World) (excludeSameDepthEdges : Bool) :
    List Nat → SpState → SpState
  | [], st => st
  | node :: rest, st =>
    if node ∈ st.processedNodes then processStack w excludeSameDepthEdges rest st
    else
      let st := { st with processedNodes := setAdd st.processedNodes node }
      let sib := neighbors w node (some st.processedNodes) (!excludeSameDepthEdges)
      let st := sib.nodes.foldl
        (fun st child =>
          match mapGet st.path child with
          | some (Sum.inr parents) =>
            { st with
              path := mapSet st.path child (Sum.inr (parents ++ [node]))
              collisions := setAdd st.collisions child
              willProcess := setAdd st.willProcess child }
          | some (Sum.inl p) =>
            { st with
              path := mapSet st.path child (Sum.inr [p, node])
              collisions := setAdd st.collisions child
              willProcess := setAdd st.willProcess child }
          | none =>
            { st with
              path := mapSet st.path child (Sum.inl node)
              willProcess := setAdd st.willProcess child })
        st
      let st := sib.edges.foldl
        (fun st e =>
          if e ∈ st.processedEdges then st
          else { st with
            processedEdges := setAdd st.processedEdges e
            edges := st.edges ++ [e] })
        st
      processStack w excludeSameDepthEdges rest st

/-- Result of a spread run: the recorded callback invocations and, when the
operation resolved within the fuel, the result it resolved with. -/
structure SpreadRes where
  emits : List SpreadEmit
  final : Option SpreadEmit
deriving DecidableEq

/-- Options of the spread operation (`ISpreadOptions` minus the callback). -/
structure SpreadOptions where
  excludeSameDepthEdges : Bool := false
  keepPath : Bool := false
  keepPreviousPath : Bool := false
  maxDepth : Option Nat := none
  startNodes : List Nat
deriving DecidableEq

/-- The `while (run)` loop of `exec`.  Each pass resets the wave's collision
set, drains `toProcess`, broadcasts the wave when it produced nodes, then
performs the state updates for the next wave and resolves when the queue is
empty.  Note that the loop never consults `maxDepth`: the only check of
`maxDepth` in the source happens once, inside `initExec`. -/
def waveLoop (w : World) (o : SpreadOptions) (cb : SpreadEmit → Bool) :
    Nat → List Nat → SpState → List SpreadEmit → SpreadRes
  | 0, _, _, emits => ⟨emits, none⟩
  | fuel + 1, toProcess, st, emits =>
    let savePath := o.keepPath || o.keepPreviousPath
    let st := { st with collisions := [] }
    let st := processStack w o.excludeSameDepthEdges toProcess.reverse st
    let results : SpreadEmit :=
      { depth := st.depth
        nodes := st.willProcess
        edges := st.edges
        collisions := if st.collisions.length > 0 then some st.collisions else none
        path := if savePath then some st.path else none }
    if st.willProcess.length > 0 then
      let stop := cb results
      let emits := emits ++ [results]
      if stop then ⟨emits, some results⟩
      else
        let st' := { st with
          depth := st.depth + 1
          path := if o.keepPath then st.path else []
          willProcess := []
          edges := [] }
        -- the new queue is the wave's node set, which is non-empty here,
        -- so the loop proceeds to the next wave
        waveLoop w o cb fuel st.willProcess st' emits
    else
      -- nothing to broadcast: the queue becomes empty and the loop resolves
      -- with this wave's (unemitted) result object
      ⟨emits, some results⟩

/-- `spread(options)`: `initExec` broadcasts the start nodes as the depth-0
wave, increments the depth, quits if `depth >= maxDepth` or the response
requested stop, and otherwise hands over to the wave loop. -/
def spread (w : World) (o : SpreadOptions) (cb : SpreadEmit → Bool)
    (fuel : Nat) : SpreadRes :=
  let maxDepth := o.maxDepth.getD MAX_SAFE_INTEGER
  let savePath := o.keepPath || o.keepPreviousPath
  let toProcess := o.startNodes
  let results0 : SpreadEmit :=
    { depth := 0
      nodes := toProcess
      edges := []
      collisions := none
      path := if savePath then some [] else none }
  let stop0 := cb results0
  let st0 : SpState :=
    { depth := 1, processedNodes := [], processedEdges := []
      willProcess := [], path := [], edges := [], collisions := [] }
  if 1 ≥ maxDepth then ⟨[results0], some results0⟩
  else if stop0 then ⟨[results0], some results0⟩
  else waveLoop w o cb fuel toProcess st0 [results0]

/-! ## src/ui/data/make-network.ts

Record sources are lazy streams of rows; each row only matters through the
results of its accessors (`access` with the `isIdentifier`, `isWeights` or
truthiness guards returns `null` when the accessor is missing or its value
fails the guard), so a row is embedded as the tuple of those guarded accessor
results.  The `isIdentifier` guard rejects arrays and all falsy values, so a
row contributes at most one identifier and an accessor can never produce the
identifier `0` or `""` itself — those only arise from the `nodeUID++` /
`edgeUID++` fallbacks. -/

/-- `MakeNetworkErrorType`. -/
inductive ErrType where
  | BAD_ID
  | NODE_NOT_FOUND
  | DUPLICATE_NODE_ID
  | DUPLICATE_EDGE_ID
  | UNKNOWN
deriving DecidableEq

/-- A node data row: guarded accessor results for id, weights and meta. -/
structure NodeRow where
  idA : Option Ident
  valueA : Option Weights
  metaA : Option MetaTok
deriving DecidableEq

/-- An edge data row: guarded accessor results for id, the two endpoint
identifiers, the `{inToOut, outToIn}` weights and meta. -/
structure EdgeRow where
  idA : Option Ident
  inA : Option Ident
  outA : Option Ident
  valuesA : Option (Weights × Weights)
  metaA : Option MetaTok
deriving DecidableEq

/-- A buffered partial edge (aggregation mode): endpoints and flows may still
be missing. -/
structure PEdge where
  id : Ident
  inN : Option Nat
  outN : Option Nat
  inOutFlow : Option Weights
  outInFlow : Option Weights
  meta : Option MetaTok
deriving DecidableEq

/-- The `makeNetwork` options that influence the embedded control flow. -/
structure MakeNetOptions where
  aggregateResults : Bool := false
  aggregateValueMode : AggMode := .NONE
  suppressErrors : List ErrType := []
deriving DecidableEq

/-- `makeError`: drops the error when its category is suppressed. -/
def makeError (suppress : List ErrType) (errors : List ErrType) (e : ErrType) :
    List ErrType :=
  if e ∈ suppress then errors else errors ++ [e]

/-- `Object.assign({}, previous.meta, meta)` on the opaque payload: the new
payload wins when defined.  (The source merges the two payloads field-wise;
payloads are atomic tokens here, which no settled claim distinguishes.) -/
def assignMeta (old new : Option MetaTok) : Option MetaTok :=
  match new with
  | some m => some m
  | none => old

/-- The guard on flow values before aggregating them:
`(Array.isArray(v) && v.length > 0) || v.toFixed`. -/
def flowCond : Weights → Bool
  | .list l => l.length > 0
  | .num _ => true

/-- `edge.inOutFlow || []` on an optional flow: an absent flow or the falsy
number 0 becomes the empty list. -/
def flowOrEmpty (o : Option Weights) : Weights :=
  match o with
  | some v => if v.truthy then v else .list []
  | none => .list []

/-- The running state of `makeNetwork`: the heaps, the network containers
being filled, the error list and the two UID fallback counters. -/
structure MNState where
  w : World
  nodes : List Nat
  edges : List Nat
  nodeMap : List (Ident × Nat)
  edgeMap : List (Ident × Nat)
  inToOutMap : List (Nat × List (Nat × Nat))
  errors : List ErrType
  nodeUID : Int
  edgeUID : Int
deriving DecidableEq

/-- Modelled from the spec: the ui layer's `removeEdge`, which
make-network.ts imports from "./remove-edge" but whose file is not among the
sources — "symmetric teardown — deletes from `edgeMap`, `edges`, both
endpoints' adjacency lists, and the `inToOutMap` entry".  Single-edge form,
as called by the duplicate-edge branch of `makeNetwork`. -/
def removeEdgeUI (st : MNState) (e : Nat) : MNState :=
  let d := mapDel st.edgeMap (st.w.edge e).id
  if !d.1 then { st with edgeMap := d.2 }
  else
    let a := (st.w.edge e).inN
    let b := (st.w.edge e).outN
    let st := { st with edgeMap := d.2 }
    let st := { st with
      w := st.w.setNode a { st.w.node a with outE := eraseFirst (st.w.node a).outE e } }
    let st := { st with
      w := st.w.setNode b { st.w.node b with inE := eraseFirst (st.w.node b).inE e } }
    { st with
      edges := eraseFirst st.edges e
      inToOutMap := momDel st.inToOutMap a b }

/-- Processing of one node row (`for await (const data of values(nodeData))`
body, for the single identifier the row contributes). -/
def nodeRowStep (o : MakeNetOptions) (st : MNState) (row : NodeRow) : MNState :=
  -- `let ids = access(data, nodeId, isIdentifier) || nodeUID++`
  let idst : Ident × MNState :=
    match row.idA with
    | some i => (i, st)
    | none => (Ident.num st.nodeUID, { st with nodeUID := st.nodeUID + 1 })
  let id := idst.1
  let st := idst.2
  let previous := mapGet st.nodeMap id
  let value := row.valueA.getD (.num 0)
  let meta := row.metaA
  if o.aggregateResults then
    match previous with
    | some p =>
      let obj := st.w.node p
      let obj := { obj with
        value := (aggregateValue o.aggregateValueMode (some obj.value)
            (some value)).getD (.num 0)
        meta := assignMeta obj.meta meta }
      { st with w := st.w.setNode p obj }
    | none =>
      let ar := st.w.allocNode { id := id, inE := [], outE := [], value := value, meta := meta }
      { st with w := ar.1, nodes := st.nodes ++ [ar.2], nodeMap := mapSet st.nodeMap id ar.2 }
  else
    let ar := st.w.allocNode { id := id, inE := [], outE := [], value := value, meta := meta }
    match previous with
    | some p =>
      { st with
        w := ar.1
        errors := makeError o.suppressErrors st.errors .DUPLICATE_NODE_ID
        nodes := eraseFirst st.nodes p ++ [ar.2]
        nodeMap := mapSet st.nodeMap id ar.2 }
    | none =>
      { st with w := ar.1, nodes := st.nodes ++ [ar.2], nodeMap := mapSet st.nodeMap id ar.2 }

/-- The node ingestion loop. -/
def nodePhase (o : MakeNetOptions) (st : MNState) (rows : List NodeRow) : MNState :=
  rows.foldl (nodeRowStep o) st

/-- The merge of one edge row into an existing partial edge:
`if (nodeIn) previous.in = nodeIn` (and symmetrically for the target), flow
aggregation behind the flow guards, and the meta merge. -/
def mergePEdge (o : MakeNetOptions) (p : PEdge) (nodeIn nodeOut : Option Nat)
    (values : Weights × Weights) (meta : Option MetaTok) : PEdge :=
  let p := { p with
    inN := match nodeIn with | some x => some x | none => p.inN
    outN := match nodeOut with | some x => some x | none => p.outN }
  let p := if flowCond values.1 then
      { p with inOutFlow := aggregateValue o.aggregateValueMode p.inOutFlow (some values.1) }
    else p
  let p := if flowCond values.2 then
      { p with outInFlow := aggregateValue o.aggregateValueMode p.outInFlow (some values.2) }
    else p
  { p with meta := assignMeta p.meta meta }

/-- Processing of one edge row in aggregation mode: merge into (or create)
the partial edge buffered under the row's id. -/
def edgeRowStepAgg (o : MakeNetOptions) (stp : MNState × List (Ident × PEdge))
    (row : EdgeRow) : MNState × List (Ident × PEdge) :=
  let st := stp.1
  let pmap := stp.2
  let idst : Ident × MNState :=
    match row.idA with
    | some i => (i, st)
    | none => (Ident.num st.edgeUID, { st with edgeUID := st.edgeUID + 1 })
  let id := idst.1
  let st := idst.2
  -- `const inId = access(data, edgeIn, isIdentifier) || ""`
  let inId := row.inA.getD (.str "")
  let outId := row.outA.getD (.str "")
  let nodeIn := mapGet st.nodeMap inId
  let nodeOut := mapGet st.nodeMap outId
  let values := row.valuesA.getD (.num 0, .num 0)
  let meta := row.metaA
  match mapGet pmap id with
  | some p =>
    (st, mapSet pmap id (mergePEdge o p nodeIn nodeOut values meta))
  | none =>
    (st, mapSet pmap id
      { id := id, inN := nodeIn, outN := nodeOut
        inOutFlow := some values.1, outInFlow := some values.2, meta := meta })

/-- The edge ingestion loop in aggregation mode, producing the final state of
the partial-edge buffer. -/
def edgePhaseAgg (o : MakeNetOptions) (st : MNState) (rows : List EdgeRow) :
    MNState × List (Ident × PEdge) :=
  rows.foldl (edgeRowStepAgg o) (st, [])

/-- The registration of a validated partial edge: build the real edge
object, push it into `edges`/`edgeMap`, both endpoints' adjacency lists and
the `inToOutMap` (the source sets the `edgeMap` entry a second time at the
end of the block). -/
def registerPEdge (st : MNState) (p : PEdge) (a b : Nat) : MNState :=
  let ar := st.w.allocEdge
    { id := p.id, inN := a, outN := b
      inOutFlow := flowOrEmpty p.inOutFlow
      outInFlow := flowOrEmpty p.outInFlow
      meta := p.meta }
  let st := { st with w := ar.1 }
  let r := ar.2
  let st := { st with
    edges := st.edges ++ [r]
    edgeMap := mapSet st.edgeMap p.id r }
  let st := { st with
    w := st.w.setNode a { st.w.node a with outE := (st.w.node a).outE ++ [r] } }
  let st := { st with
    w := st.w.setNode b { st.w.node b with inE := (st.w.node b).inE ++ [r] } }
  let st := { st with inToOutMap := momAdd st.inToOutMap a b r }
  { st with edgeMap := mapSet st.edgeMap p.id r }

/-- The end-of-stream validation of one buffered partial edge: falsy id →
`BAD_ID`; missing endpoint → `NODE_NOT_FOUND`; otherwise the edge is built
and registered in the network and both endpoints' adjacency lists. -/
def finishPEdge (o : MakeNetOptions) (st : MNState) (p : PEdge) : MNState :=
  if !p.id.truthy then
    { st with errors := makeError o.suppressErrors st.errors .BAD_ID }
  else
    match p.inN, p.outN with
    | some a, some b => registerPEdge st p a b
    | _, _ =>
      { st with errors := makeError o.suppressErrors st.errors .NODE_NOT_FOUND }

/-- The end-of-stream validation pass over the whole partial-edge buffer. -/
def finishAgg (o : MakeNetOptions) (stp : MNState × List (Ident × PEdge)) : MNState :=
  stp.2.foldl (fun s ip => finishPEdge o s ip.2) stp.1

/-- Processing of one edge row outside aggregation mode: missing endpoints
error immediately, a duplicate id errors and removes the previous edge, and
the new edge is registered right away. -/
def edgeRowStepNoAgg (o : MakeNetOptions) (st : MNState) (row : EdgeRow) : MNState :=
  let idst : Ident × MNState :=
    match row.idA with
    | some i => (i, st)
    | none => (Ident.num st.edgeUID, { st with edgeUID := st.edgeUID + 1 })
  let id := idst.1
  let st := idst.2
  let inId := row.inA.getD (.str "")
  let outId := row.outA.getD (.str "")
  let nodeIn := mapGet st.nodeMap inId
  let nodeOut := mapGet st.nodeMap outId
  let values := row.valuesA.getD (.num 0, .num 0)
  let meta := row.metaA
  let previous := mapGet st.edgeMap id
  match nodeIn, nodeOut with
  | some a, some b =>
    let ar := st.w.allocEdge
      { id := id, inN := a, outN := b
        inOutFlow := values.1, outInFlow := values.2, meta := meta }
    let st := { st with w := ar.1 }
    let r := ar.2
    let st :=
      match previous with
      | some prevRef =>
        let st := { st with
          errors := makeError o.suppressErrors st.errors .DUPLICATE_EDGE_ID }
        removeEdgeUI st prevRef
      | none => st
    let st := { st with
      edges := st.edges ++ [r]
      edgeMap := mapSet st.edgeMap id r }
    let st := { st with
      w := st.w.setNode a { st.w.node a with outE := (st.w.node a).outE ++ [r] } }
    let st := { st with
      w := st.w.setNode b { st.w.node b with inE := (st.w.node b).inE ++ [r] } }
    { st with inToOutMap := momAdd st.inToOutMap a b r }
  | _, _ =>
    { st with errors := makeError o.suppressErrors st.errors .NODE_NOT_FOUND }

/-- The result of `makeNetwork`: the heaps, the produced network and the
collected errors. -/
structure MakeNetworkResult where
  w : World
  net : Network
  errors : List ErrType
deriving DecidableEq

/-- The initial `makeNetwork` state over a given heap. -/
def mnInit (w : World) : MNState :=
  { w := w, nodes := [], edges := [], nodeMap := [], edgeMap := []
    inToOutMap := [], errors := [], nodeUID := 0, edgeUID := 0 }

/-- `makeNetwork(options)`: node rows first, then edge rows (buffered and
validated at end-of-stream in aggregation mode, registered immediately
otherwise). -/
def makeNetwork (w : World) (o : MakeNetOptions) (nodeRows : List NodeRow)
    (edgeRows : List EdgeRow) : MakeNetworkResult :=
  let st := nodePhase o (mnInit w) nodeRows
  let st :=
    if o.aggregateResults then finishAgg o (edgePhaseAgg o st edgeRows)
    else edgeRows.foldl (edgeRowStepNoAgg o) st
  { w := st.w
    net :=
      { nodes := st.nodes, edges := st.edges, nodeMap := st.nodeMap
        edgeMap := st.edgeMap, inToOutMap := st.inToOutMap }
    errors := st.errors }

/-! ## src/ui/data/fragment-network.ts

`fragmentNetwork(networks, networkSets)` receives each cluster twice: as an
array of nodes and as a `Set` with the same members (the set is only used for
membership tests and `findIndex` look-ups), so a cluster is embedded once as
a list of node references serving both roles.  `cloneNode`/`cloneEdge`
produce objects with the same field data (the `slice(0)` copies preserve list
contents), so a clone is a fresh heap allocation of the dereferenced
object. -/

/-- The state threaded through the whole fragmentation: the heap, the
`betweenNetworks` map of maps of edge lists, the `culledEdges` set and the
shared `edgeError.edges` set. -/
structure FragState where
  w : World
  between : List (Nat × List (Nat × List Nat))
  culled : List Nat
  errEdges : List Nat
deriving DecidableEq

/-- The body of the fragment loop over a cloned node's captured `in` list:
an edge crossing the cluster boundary is culled and recorded in
`betweenNetworks` (or in the error set when neither endpoint is found);
an internal edge already cloned is pushed into the clone's `in` list, and an
internal edge seen for the first time is cloned, registered in
`edges`/`edgeMap` and pushed into the clone's `in` list. -/
def fragInEdgeStep (parts : List (List Nat)) (fi : Nat) (part : List Nat)
    (nc : Nat) (p : FragState × Network) (e : Nat) : FragState × Network :=
  let fs := p.1
  let out := p.2
  let hasIn := setHas part (fs.w.edge e).inN
  let hasOut := setHas part (fs.w.edge e).outN
  let fs := if !hasIn || !hasOut then { fs with culled := setAdd fs.culled e }
    else fs
  if hasIn && hasOut then
    match mapGet out.edgeMap (fs.w.edge e).id with
    | some me =>
      let w2 := fs.w.setNode nc
        { fs.w.node nc with inE := (fs.w.node nc).inE ++ [me] }
      ({ fs with w := w2 }, out)
    | none =>
      let ar := fs.w.allocEdge (fs.w.edge e)
      let fs := { fs with w := ar.1 }
      let w2 := fs.w.setNode nc
        { fs.w.node nc with inE := (fs.w.node nc).inE ++ [ar.2] }
      ({ fs with w := w2 },
       { out with edges := out.edges ++ [ar.2]
                  edgeMap := mapSet out.edgeMap (fs.w.edge e).id ar.2 })
  else if hasIn then
    match parts.findIdx? (fun s => setHas s (fs.w.edge e).outN) with
    | some oi => ({ fs with between := momPush fs.between fi oi e }, out)
    | none => (fs, out)
  else if hasOut then
    match parts.findIdx? (fun s => setHas s (fs.w.edge e).inN) with
    | some ii => ({ fs with between := momPush fs.between ii fi e }, out)
    | none => (fs, out)
  else
    ({ fs with errEdges := setAdd fs.errEdges e }, out)

/-- The body of the fragment loop over a cloned node's captured `out` list.
It mirrors the `in` loop, except that the source's already-cloned branch
reads `node.in.push(mappedEdge)` — the mapped edge lands in the clone's `in`
list, not its `out` list. -/
def fragOutEdgeStep (parts : List (List Nat)) (fi : Nat) (part : List Nat)
    (nc : Nat) (p : FragState × Network) (e : Nat) : FragState × Network :=
  let fs := p.1
  let out := p.2
  let hasIn := setHas part (fs.w.edge e).inN
  let hasOut := setHas part (fs.w.edge e).outN
  let fs := if !hasIn || !hasOut then { fs with culled := setAdd fs.culled e }
    else fs
  if hasIn && hasOut then
    match mapGet out.edgeMap (fs.w.edge e).id with
    | some me =>
      let w2 := fs.w.setNode nc
        { fs.w.node nc with inE := (fs.w.node nc).inE ++ [me] }
      ({ fs with w := w2 }, out)
    | none =>
      let ar := fs.w.allocEdge (fs.w.edge e)
      let fs := { fs with w := ar.1 }
      let w2 := fs.w.setNode nc
        { fs.w.node nc with outE := (fs.w.node nc).outE ++ [ar.2] }
      ({ fs with w := w2 },
       { out with edges := out.edges ++ [ar.2]
                  edgeMap := mapSet out.edgeMap (fs.w.edge e).id ar.2 })
  else if hasIn then
    match parts.findIdx? (fun s => setHas s (fs.w.edge e).outN) with
    | some oi => ({ fs with between := momPush fs.between fi oi e }, out)
    | none => (fs, out)
  else if hasOut then
    match parts.findIdx? (fun s => setHas s (fs.w.edge e).inN) with
    | some ii => ({ fs with between := momPush fs.between ii fi e }, out)
    | none => (fs, out)
  else
    ({ fs with errEdges := setAdd fs.errEdges e }, out)

/-- The body of the fragment loop over one cluster node: the node is cloned
(even when it will be skipped), a clone with an already-registered id is
dropped, and otherwise the clone is registered, its captured `in` and `out`
lists are reset and rebuilt through the two edge loops. -/
def fragNodeStep (parts : List (List Nat)) (fi : Nat) (part : List Nat)
    (p : FragState × Network) (r : Nat) : FragState × Network :=
  let fs := p.1
  let out := p.2
  let ar := fs.w.allocNode (fs.w.node r)
  let fs := { fs with w := ar.1 }
  let nc := ar.2
  if mapHas out.nodeMap (fs.w.node nc).id then (fs, out)
  else
    let out := { out with
      nodeMap := mapSet out.nodeMap (fs.w.node nc).id nc
      nodes := out.nodes ++ [nc] }
    let inEdges := (fs.w.node nc).inE
    let fs := { fs with w := fs.w.setNode nc { fs.w.node nc with inE := [] } }
    let p1 := inEdges.foldl (fragInEdgeStep parts fi part nc) (fs, out)
    let outEdges := (p1.1.w.node nc).outE
    let fs2 := { p1.1 with
      w := p1.1.w.setNode nc { p1.1.w.node nc with outE := [] } }
    outEdges.foldl (fragOutEdgeStep parts fi part nc) (fs2, p1.2)

/-- The relink pass over a fragment's cloned edges: each endpoint field still
holds the original node, so it is replaced by the clone found in the fragment
`nodeMap` under the original's id (the source's non-null `!` assertion is a
defaulted look-up), and the rebuilt endpoints are indexed in the
`inToOutMap`. -/
def fragRelinkStep (p : FragState × Network) (ec : Nat) : FragState × Network :=
  let fs := p.1
  let out := p.2
  let a := (mapGet out.nodeMap ((fs.w.node ((fs.w.edge ec).inN)).id)).getD 0
  let fs := { fs with w := fs.w.setEdge ec { fs.w.edge ec with inN := a } }
  let b := (mapGet out.nodeMap ((fs.w.node ((fs.w.edge ec).outN)).id)).getD 0
  let fs := { fs with w := fs.w.setEdge ec { fs.w.edge ec with outN := b } }
  (fs, { out with inToOutMap := momAdd out.inToOutMap a b ec })

/-- The remap pass over one fragment node: every entry of the clone's `in`
and `out` lists is replaced by the fragment `edgeMap`'s edge for that entry's
id. -/
def fragRemapStep (out : Network) (w : World) (nr : Nat) : World :=
  let w := w.setNode nr { w.node nr with
    inE := (w.node nr).inE.map
      (fun er => (mapGet out.edgeMap ((w.edge er).id)).getD 0) }
  w.setNode nr { w.node nr with
    outE := (w.node nr).outE.map
      (fun er => (mapGet out.edgeMap ((w.edge er).id)).getD 0) }

/-- One fragment (`networks.map` body): the node loop, the edge relink pass
and the node remap pass. -/
def fragOne (parts : List (List Nat)) (fi : Nat) (part : List Nat)
    (fs : FragState) : FragState × Network :=
  let p := part.foldl (fragNodeStep parts fi part)
    (fs, { nodes := [], edges := [], nodeMap := [], edgeMap := []
           inToOutMap := [] })
  let p := p.2.edges.foldl fragRelinkStep p
  let w2 := p.2.nodes.foldl (fragRemapStep p.2) p.1.w
  ({ p.1 with w := w2 }, p.2)

/-- The result of `fragmentNetwork`: the final heap, the fragments, the
parent network of fragments with the errors its ingestion produced, the
culled-edge set, the not-processed edge set backing the single possible
`NOT_PROCESSED` error, and the length of the `errors` array. -/
structure FragResult where
  w : World
  fragments : List Network
  parent : Network
  parentErrors : List ErrType
  culled : List Nat
  errEdges : List Nat
  errorCount : Nat
deriving DecidableEq

/-- `fragmentNetwork(networks, networkSets)`: every cluster is turned into a
fragment, then the parent network is ingested through `makeNetwork` with one
node row per fragment (node id `indexToUID.get(++id) ?? 0`, guarded by
`isIdentifier`, with the fragment itself as opaque meta) and one edge row per
`betweenNetworks` entry (edge id `"a-b"`, endpoints the clusters' UIDs), and
finally every parent node id is reassigned a fresh UID.  `networkUID()`
starts from the global counter's current value, embedded as `uidBase`; the
parent rows consume `parts.length` UIDs and the brush-up loop continues from
there. -/
def fragmentNetwork (w : World) (parts : List (List Nat)) (uidBase : Nat) :
    FragResult :=
  let init : FragState := { w := w, between := [], culled := [], errEdges := [] }
  let pr := parts.enum.foldl
    (fun (acc : FragState × List Network) fip =>
      let one := fragOne parts fip.1 fip.2 acc.1
      (one.1, acc.2 ++ [one.2]))
    (init, [])
  let fs := pr.1
  let nodeRows := (List.range parts.length).map (fun k =>
    ({ idA := if uidBase + k = 0 then none else some (.num (uidBase + k))
       valueA := none, metaA := some k } : NodeRow))
  let edgeRows := fs.between.foldl (fun rs ab =>
    ab.2.foldl (fun rs2 bl =>
      rs2 ++ [({ idA := some (.str (toString ab.1 ++ "-" ++ toString bl.1))
                 inA := if ab.1 < parts.length ∧ uidBase + ab.1 ≠ 0 then
                     some (.num (uidBase + ab.1)) else none
                 outA := if bl.1 < parts.length ∧ uidBase + bl.1 ≠ 0 then
                     some (.num (uidBase + bl.1)) else none
                 valuesA := none, metaA := some 0 } : EdgeRow)]) rs) []
  let mk := makeNetwork fs.w {} nodeRows edgeRows
  let wbrush := mk.net.nodes.enum.foldl
    (fun (wacc : World) jp => wacc.setNode jp.2
      { wacc.node jp.2 with id := .num (uidBase + parts.length + jp.1) }) mk.w
  { w := wbrush, fragments := pr.2, parent := mk.net, parentErrors := mk.errors
    culled := fs.culled, errEdges := fs.errEdges
    errorCount := if fs.errEdges.length > 0 then 1 else 0 }

/-- The spec's validity invariants for a network (§3: every edge's endpoints
are members, every edge is present in both endpoints' adjacency lists,
adjacency lists only hold network edges, look-up keys are duplicate-free,
references point into the heaps). -/
structure ValidNet (w : World) (net : Network) : Prop where
  nodesLt : ∀ r ∈ net.nodes, r < w.nodeHeap.length
  edgesLt : ∀ e ∈ net.edges, e < w.edgeHeap.length
  nodeIds : (net.nodes.map fun r => (w.node r).id).Nodup
  edgeIds : (net.edges.map fun e => (w.edge e).id).Nodup
  endIn : ∀ e ∈ net.edges, (w.edge e).inN ∈ net.nodes
  endOut : ∀ e ∈ net.edges, (w.edge e).outN ∈ net.nodes
  inAdj : ∀ e ∈ net.edges, e ∈ (w.node ((w.edge e).outN)).inE
  outAdj : ∀ e ∈ net.edges, e ∈ (w.node ((w.edge e).inN)).outE
  adjIn : ∀ r ∈ net.nodes, ∀ e ∈ (w.node r).inE, e ∈ net.edges
  adjOut : ∀ r ∈ net.nodes, ∀ e ∈ (w.node r).outE, e ∈ net.edges

/-- The node-count-independent invariant carried through the fragment edge
loops when the single partition holds the whole valid network: the original
heap regions are untouched, the boundary/error sets stay empty, the fragment
`edgeMap` mirrors `edges`, clone ids are duplicate-free and every clone
carries the id and meta of a network edge. -/
structure FragCore (w0 : World) (net : Network) (fs : FragState)
    (out : Network) : Prop where
  nlen : w0.nodeHeap.length ≤ fs.w.nodeHeap.length
  elen : w0.edgeHeap.length ≤ fs.w.edgeHeap.length
  nfix : ∀ r, r < w0.nodeHeap.length → fs.w.node r = w0.node r
  efix : ∀ e, e < w0.edgeHeap.length → fs.w.edge e = w0.edge e
  bet : fs.between = []
  cul : fs.culled = []
  err : fs.errEdges = []
  em : out.edgeMap = out.edges.map (fun ec => ((fs.w.edge ec).id, ec))
  emNodup : (out.edges.map fun ec => (fs.w.edge ec).id).Nodup
  edgesGe : ∀ ec ∈ out.edges, w0.edgeHeap.length ≤ ec
    ∧ ec < fs.w.edgeHeap.length
  edgesData : ∀ ec ∈ out.edges, ∃ e ∈ net.edges,
    (fs.w.edge ec).id = (w0.edge e).id ∧ (fs.w.edge ec).meta = (w0.edge e).meta

/-- The full invariant of the fragment node loop after the node prefix `ns`
of the single partition has been processed. -/
structure FragInv (w0 : World) (net : Network) (ns : List Nat)
    (fs : FragState) (out : Network) : Prop where
  core : FragCore w0 net fs out
  nmKeys : out.nodeMap.map Prod.fst = ns.map (fun r => (w0.node r).id)
  nodesData : out.nodes.map (fun rc => ((fs.w.node rc).id, (fs.w.node rc).meta))
    = ns.map (fun r => ((w0.node r).id, (w0.node r).meta))
  nodesGe : ∀ rc ∈ out.nodes, w0.nodeHeap.length ≤ rc
    ∧ rc < fs.w.nodeHeap.length
  iom : out.inToOutMap = []
  keysEnc : ∀ i : Ident, (∃ ec ∈ out.edges, (fs.w.edge ec).id = i)
    ↔ ∃ e ∈ net.edges, (w0.edge e).id = i
      ∧ ∃ r ∈ ns, e ∈ (w0.node r).inE ∨ e ∈ (w0.node r).outE

/-- The effect of one fragment edge loop (or one of its iterations) over the
edge list `L` of the clone `nc`: the core invariant holds again, the node
containers and the `inToOutMap` are untouched, the registered ids grow by
exactly the ids of `L`, and the node heap changes only at `nc`, preserving
ids and metas. -/
structure EdgeLoopDelta (w0 : World) (net : Network) (nc : Nat)
    (fs : FragState) (out : Network) (L : List Nat)
    (fs2 : FragState) (out2 : Network) : Prop where
  core : FragCore w0 net fs2 out2
  nodes : out2.nodes = out.nodes
  nodeMap : out2.nodeMap = out.nodeMap
  iom : out2.inToOutMap = out.inToOutMap
  keys : ∀ i : Ident, (∃ ec ∈ out2.edges, (fs2.w.edge ec).id = i)
    ↔ (∃ ec ∈ out.edges, (fs.w.edge ec).id = i) ∨ ∃ x ∈ L, (w0.edge x).id = i
  nproj : ∀ y, (fs2.w.node y).id = (fs.w.node y).id
    ∧ (fs2.w.node y).meta = (fs.w.node y).meta
  nother : ∀ y, y ≠ nc → fs2.w.node y = fs.w.node y
  nlen : fs.w.nodeHeap.length ≤ fs2.w.nodeHeap.length

/-! ## src/src/data/remove-edge.ts

The removal primitive lives in the older `src/src` layer of the repository,
whose data model names an edge's endpoints `a`/`b` and the directional index
`atobMap` (src/src/types.ts). -/

namespace SrcData

/-- src/src/types.ts `IEdge`: endpoints `a` and `b`, flows `atob`/`btoa`. -/
structure SEdge where
  id : Ident
  a : Nat
  b : Nat
  atob : Weights
  btoa : Weights
  meta : Option MetaTok
deriving DecidableEq

instance : Inhabited SEdge := ⟨⟨.num 0, 0, 0, .num 0, .num 0, none⟩⟩

/-- Heap for the `src/src` data model (node objects have the same shape as
the ui layer's, so `NodeObj` is reused). -/
structure SWorld where
  nodeHeap : List NodeObj
  edgeHeap : List SEdge
deriving DecidableEq

def SWorld.node (w : SWorld) (r : Nat) : NodeObj :=
  w.nodeHeap.getD r default

def SWorld.edge (w : SWorld) (r : Nat) : SEdge :=
  w.edgeHeap.getD r default

def SWorld.setNode (w : SWorld) (r : Nat) (o : NodeObj) : SWorld :=
  { w with nodeHeap := w.nodeHeap.set r o }

/-- src/src/types.ts `INetworkData` with the `atobMap` index. -/
structure SNetwork where
  nodes : List Nat
  edges : List Nat
  nodeMap : List (Ident × Nat)
  edgeMap : List (Ident × Nat)
  atobMap : List (Nat × List (Nat × Nat))
deriving DecidableEq

/-- Result of `removeEdge`: the `removedEdges` set handed back as `edges`,
and the error set (`null` when empty). -/
structure RemoveEdgeResult where
  w : SWorld
  net : SNetwork
  edges : List Nat
  errors : Option (List Nat)
deriving DecidableEq

/-- One iteration of the `removeEdge` loop over the batch. -/
def removeEdgeStep (st : SWorld × SNetwork × List Nat × List Nat) (e : Nat) :
    SWorld × SNetwork × List Nat × List Nat :=
  let (w, net, removedEdges, errors) := st
  let d := mapDel net.edgeMap (w.edge e).id
  if !d.1 then
    -- the edge was not in the network: an error unless already removed
    let errors := if e ∈ removedEdges then errors else setAdd errors e
    (w, { net with edgeMap := d.2 }, removedEdges, errors)
  else
    let net := { net with edgeMap := d.2 }
    -- splice the edge out of `edge.a.out` and `edge.b.in`
    let aRef := (w.edge e).a
    let bRef := (w.edge e).b
    let w := w.setNode aRef { w.node aRef with outE := eraseFirst (w.node aRef).outE e }
    let w := w.setNode bRef { w.node bRef with inE := eraseFirst (w.node bRef).inE e }
    -- splice the edge out of the network's edge list and the atob index
    let net := { net with
      edges := eraseFirst net.edges e
      atobMap := momDel net.atobMap aRef bRef }
    (w, net, removedEdges, errors)

/-- `removeEdge(network, edges, removedEdges?)`.  Note that the source never
adds a successfully removed edge to `removedEdges`; the set returned under
`edges` is exactly the accumulator it was handed (or a fresh empty one). -/
def removeEdge (w : SWorld) (net : SNetwork) (edges : List Nat)
    (removedEdges : Option (List Nat)) : RemoveEdgeResult :=
  let removed := removedEdges.getD []
  let (w, net, removed, errors) := edges.foldl removeEdgeStep (w, net, removed, [])
  { w := w, net := net, edges := removed
    errors := if errors.length > 0 then some errors else none }

end SrcData

/-! ## Verification-side predicates -/

/-- No edge with the given id is registered in the network under
construction (and every registered edge reference is in range). -/
def UnregisteredId (id : Ident) (st : MNState) : Prop :=
  mapGet st.edgeMap id = none
  ∧ ∀ e ∈ st.edges, e < st.w.edgeHeap.length ∧ (st.w.edge e).id ≠ id

/-- An edge with the given id is registered, connecting nodes `a` to `b`. -/
def RegisteredEdge (id : Ident) (a b : Nat) (st : MNState) : Prop :=
  ∃ r, mapGet st.edgeMap id = some r ∧ r ∈ st.edges
    ∧ r < st.w.edgeHeap.length
    ∧ (st.w.edge r).inN = a ∧ (st.w.edge r).outN = b

/-! ## Concrete instances used by the claims -/

/-- The empty heap. -/
def w0 : World := ⟨[], []⟩

/-- Aggregating ingestion options with the CONCAT value strategy. -/
def aggConcatOpts : MakeNetOptions :=
  { aggregateResults := true, aggregateValueMode := .CONCAT }

/-- Aggregating ingestion options with the default (NONE) value strategy. -/
def aggOpts : MakeNetOptions := { aggregateResults := true }

/-- Two node rows carrying the same id 1 with list weights [1] and [2]. -/
def concatRows : List NodeRow :=
  [⟨some (.num 1), some (.list [some 1]), none⟩,
   ⟨some (.num 1), some (.list [some 2]), none⟩]

/-- The spec's scenario-5 rows: nodes 1 and 2; edge id 5 arrives first with
only its source endpoint and later with only its target endpoint; edge id 6
arrives with only its source endpoint and never resolves. -/
def scen5NodeRows : List NodeRow :=
  [⟨some (.num 1), none, none⟩, ⟨some (.num 2), none, none⟩]

/-- Scenario-5 edge rows (see `scen5NodeRows`). -/
def scen5EdgeRows : List EdgeRow :=
  [⟨some (.num 5), some (.num 1), none, none, none⟩,
   ⟨some (.num 5), none, some (.num 2), none, none⟩,
   ⟨some (.num 6), some (.num 1), none, none, none⟩]

/-- A single edge row whose id accessor fails (so the numeric fallback id 0
is used) and whose endpoints never resolve. -/
def fallbackIdEdgeRow : List EdgeRow := [⟨none, none, none, none, none⟩]

/-- A 4-node chain 0→1→2→3 (three edges), used to exercise `maxDepth`. -/
def chain4World : World :=
  { nodeHeap := [
      ⟨.num 1, [], [0], .num 0, none⟩,
      ⟨.num 2, [0], [1], .num 0, none⟩,
      ⟨.num 3, [1], [2], .num 0, none⟩,
      ⟨.num 4, [2], [], .num 0, none⟩ ]
    edgeHeap := [
      ⟨.num 11, 0, 1, .num 0, .num 0, none⟩,
      ⟨.num 12, 1, 2, .num 0, .num 0, none⟩,
      ⟨.num 13, 2, 3, .num 0, .num 0, none⟩ ] }

/-- A 3-node chain A–B–C with A = node 0, B = node 1, C = node 2 and edges
A→B (edge 0) and B→C (edge 1). -/
def chain3World : World :=
  { nodeHeap := [
      ⟨.num 1, [], [0], .num 0, none⟩,
      ⟨.num 2, [0], [1], .num 0, none⟩,
      ⟨.num 3, [1], [], .num 0, none⟩ ]
    edgeHeap := [
      ⟨.num 11, 0, 1, .num 0, .num 0, none⟩,
      ⟨.num 12, 1, 2, .num 0, .num 0, none⟩ ] }

/-- A single isolated node (degree 0). -/
def oneNodeWorld : World :=
  { nodeHeap := [⟨.num 1, [], [], .num 0, none⟩], edgeHeap := [] }

/-- The network owning the single isolated node. -/
def oneNodeNet : Network :=
  { nodes := [0], edges := [], nodeMap := [(.num 1, 0)], edgeMap := []
    inToOutMap := [] }

/-- Nodes 0 (id 1) and 1 (id 2) joined by edge 0 (id 10, node 0 → node 1);
the adjacency lists carry the edge. -/
def linkedPairWorld : World :=
  { nodeHeap := [⟨.num 1, [], [0], .num 0, none⟩, ⟨.num 2, [0], [], .num 0, none⟩]
    edgeHeap := [⟨.num 10, 0, 1, .num 0, .num 0, none⟩] }

/-- The network owning both nodes and the edge of `linkedPairWorld`, with
all look-ups filled in (a valid, connected network). -/
def linkedPairNet : Network :=
  { nodes := [0, 1], edges := [0], nodeMap := [(.num 1, 0), (.num 2, 1)]
    edgeMap := [(.num 10, 0)], inToOutMap := [(0, [(1, 0)])] }

/-- The empty network. -/
def emptyNet : Network :=
  { nodes := [], edges := [], nodeMap := [], edgeMap := [], inToOutMap := [] }

/-- Nodes 0 (id 1) and 1 (id 2) with empty adjacency lists, and a detached
edge 0 (id 10, node 0 → node 1) present only in the heap. -/
def detachedEdgeWorld : World :=
  { nodeHeap := [⟨.num 1, [], [], .num 0, none⟩, ⟨.num 2, [], [], .num 0, none⟩]
    edgeHeap := [⟨.num 10, 0, 1, .num 0, .num 0, none⟩] }

/-- The network registering both nodes of `detachedEdgeWorld` but not the
edge. -/
def twoNodeNet : Network :=
  { nodes := [0, 1], edges := [], nodeMap := [(.num 1, 0), (.num 2, 1)]
    edgeMap := [], inToOutMap := [] }

namespace SrcData

/-- Two nodes joined by one edge (edge 0: node 0 → node 1), in the `src/src`
data model. -/
def pairWorld : SWorld :=
  { nodeHeap := [⟨.num 1, [], [0], .num 0, none⟩, ⟨.num 2, [0], [], .num 0, none⟩]
    edgeHeap := [⟨.num 10, 0, 1, .num 0, .num 0, none⟩] }

/-- The network owning `pairWorld`'s nodes and edge. -/
def pairNet : SNetwork :=
  { nodes := [0, 1], edges := [0], nodeMap := [(.num 1, 0), (.num 2, 1)]
    edgeMap := [(.num 10, 0)], atobMap := [(0, [(1, 0)])] }

end SrcData

/-! ## General lemmas -/

theorem mapGet_mem {κ β : Type} [DecidableEq κ] {m : List (κ × β)} {k : κ} {v : β}
    (h : mapGet m k = some v) : (k, v) ∈ m := by
  induction m with
  | nil => simp [mapGet] at h
  | cons a t ih =>
    obtain ⟨k1, v1⟩ := a
    rw [mapGet] at h
    by_cases hk : k1 = k
    · rw [if_pos hk] at h
      obtain rfl : v1 = v := Option.some.inj h
      subst hk
      exact List.mem_cons_self _ _
    · rw [if_neg hk] at h
      exact List.mem_cons_of_mem _ (ih h)

theorem mapGet_eq_none {κ β : Type} [DecidableEq κ] {m : List (κ × β)} {k : κ} :
    mapGet m k = none ↔ k ∉ m.map Prod.fst := by
  induction m with
  | nil => simp [mapGet]
  | cons a t ih =>
    obtain ⟨k1, v1⟩ := a
    rw [mapGet]
    by_cases hk : k1 = k
    · subst hk
      simp
    · rw [if_neg hk]
      simp only [List.map_cons, List.mem_cons]
      rw [ih]
      constructor
      · rintro h (h1 | h1)
        · exact hk h1.symm
        · exact h h1
      · intro h h1
        exact h (Or.inr h1)

theorem mem_mapSet {κ β : Type} [DecidableEq κ] {m : List (κ × β)} {k k' : κ}
    {v v' : β} (h : (k', v') ∈ mapSet m k v) : (k' = k ∧ v' = v) ∨ (k', v') ∈ m := by
  induction m with
  | nil =>
    simp [mapSet] at h
    exact Or.inl ⟨h.1, h.2⟩
  | cons a t ih =>
    obtain ⟨k1, v1⟩ := a
    rw [mapSet] at h
    by_cases hk : k1 = k
    · rw [if_pos hk] at h
      rcases List.mem_cons.mp h with h1 | h1
      · exact Or.inl ⟨congrArg Prod.fst h1, congrArg Prod.snd h1⟩
      · exact Or.inr (List.mem_cons_of_mem _ h1)
    · rw [if_neg hk] at h
      rcases List.mem_cons.mp h with h1 | h1
      · exact Or.inr (List.mem_cons.mpr (Or.inl h1))
      · rcases ih h1 with h2 | h2
        · exact Or.inl h2
        · exact Or.inr (List.mem_cons_of_mem _ h2)

theorem mapGet_set_self {κ β : Type} [DecidableEq κ] (m : List (κ × β)) (k : κ)
    (v : β) : mapGet (mapSet m k v) k = some v := by
  induction m with
  | nil => simp [mapSet, mapGet]
  | cons a t ih =>
    obtain ⟨k1, v1⟩ := a
    rw [mapSet]
    by_cases hk : k1 = k
    · rw [if_pos hk, mapGet, if_pos rfl]
    · rw [if_neg hk, mapGet, if_neg hk]
      exact ih

theorem mapGet_set_ne {κ β : Type} [DecidableEq κ] (m : List (κ × β)) (k k' : κ)
    (v : β) (h : k ≠ k') : mapGet (mapSet m k v) k' = mapGet m k' := by
  induction m with
  | nil => simp [mapSet, mapGet, h]
  | cons a t ih =>
    obtain ⟨k1, v1⟩ := a
    rw [mapSet]
    by_cases hk : k1 = k
    · subst hk
      rw [if_pos rfl, mapGet, if_neg h, mapGet, if_neg h]
    · rw [if_neg hk, mapGet, mapGet]
      by_cases hk' : k1 = k'
      · rw [if_pos hk', if_pos hk']
      · rw [if_neg hk', if_neg hk']
        exact ih

theorem keys_mapSet_of_mem {κ β : Type} [DecidableEq κ] {m : List (κ × β)} {k : κ}
    (v : β) (h : k ∈ m.map Prod.fst) :
    (mapSet m k v).map Prod.fst = m.map Prod.fst := by
  induction m with
  | nil => simp at h
  | cons a t ih =>
    obtain ⟨k1, v1⟩ := a
    rw [mapSet]
    by_cases hk : k1 = k
    · rw [if_pos hk]
      simp [hk]
    · rw [if_neg hk]
      simp only [List.map_cons]
      simp only [List.map_cons, List.mem_cons] at h
      rcases h with h | h
      · exact absurd h.symm hk
      · rw [ih h]

theorem keys_mapSet_of_not_mem {κ β : Type} [DecidableEq κ] {m : List (κ × β)}
    {k : κ} (v : β) (h : k ∉ m.map Prod.fst) :
    (mapSet m k v).map Prod.fst = m.map Prod.fst ++ [k] := by
  induction m with
  | nil => simp [mapSet]
  | cons a t ih =>
    obtain ⟨k1, v1⟩ := a
    simp only [List.map_cons, List.mem_cons] at h
    push_neg at h
    rw [mapSet, if_neg (fun hh => h.1 hh.symm)]
    simp only [List.map_cons, List.cons_append, List.cons.injEq, true_and]
    exact ih h.2

theorem nodup_keys_mapSet {κ β : Type} [DecidableEq κ] {m : List (κ × β)} {k : κ}
    (v : β) (h : (m.map Prod.fst).Nodup) :
    ((mapSet m k v).map Prod.fst).Nodup := by
  by_cases hk : k ∈ m.map Prod.fst
  · rw [keys_mapSet_of_mem v hk]
    exact h
  · rw [keys_mapSet_of_not_mem v hk]
    refine List.Nodup.append h (List.nodup_singleton k) ?_
    intro a ha hb
    simp only [List.mem_singleton] at hb
    subst hb
    exact hk ha

theorem getD_append_lt {α : Type} [Inhabited α] (l : List α) (x : α) (i : Nat)
    (h : i < l.length) : (l ++ [x]).getD i default = l.getD i default := by
  induction l generalizing i with
  | nil => simp at h
  | cons a t ih =>
    cases i with
    | zero => rfl
    | succ n =>
      simp only [List.cons_append, List.getD_cons_succ]
      exact ih n (Nat.lt_of_succ_lt_succ h)

theorem getD_append_len {α : Type} [Inhabited α] (l : List α) (x : α) :
    (l ++ [x]).getD l.length default = x := by
  induction l with
  | nil => rfl
  | cons a t ih =>
    simpa only [List.cons_append, List.length_cons, List.getD_cons_succ] using ih

/-! ### Heap-stability lemmas -/

theorem World.edge_setNode (w : World) (n : Nat) (o : NodeObj) (e : Nat) :
    (w.setNode n o).edge e = w.edge e := rfl

theorem World.node_setEdge (w : World) (n : Nat) (o : EdgeObj) (r : Nat) :
    (w.setEdge n o).node r = w.node r := rfl

theorem World.edgeHeap_setNode (w : World) (n : Nat) (o : NodeObj) :
    (w.setNode n o).edgeHeap = w.edgeHeap := rfl

theorem World.nodeHeap_setEdge (w : World) (n : Nat) (o : EdgeObj) :
    (w.setEdge n o).nodeHeap = w.nodeHeap := rfl

theorem World.edge_allocEdge_lt (w : World) (o : EdgeObj) (e : Nat)
    (h : e < w.edgeHeap.length) : (w.allocEdge o).1.edge e = w.edge e := by
  unfold World.allocEdge World.edge
  exact getD_append_lt _ _ _ h

theorem World.edge_allocEdge_self (w : World) (o : EdgeObj) :
    (w.allocEdge o).1.edge w.edgeHeap.length = o := by
  unfold World.allocEdge World.edge
  exact getD_append_len _ _

theorem World.edge_allocNode (w : World) (o : NodeObj) (e : Nat) :
    (w.allocNode o).1.edge e = w.edge e := rfl

theorem World.edgeHeap_allocNode (w : World) (o : NodeObj) :
    (w.allocNode o).1.edgeHeap = w.edgeHeap := rfl

theorem World.node_allocEdge (w : World) (o : EdgeObj) (r : Nat) :
    (w.allocEdge o).1.node r = w.node r := rfl

theorem getD_set_self {α : Type} (l : List α) (i : Nat) (x d : α)
    (h : i < l.length) : (l.set i x).getD i d = x := by
  induction l generalizing i with
  | nil => simp at h
  | cons a t ih =>
    cases i with
    | zero => rfl
    | succ n => exact ih n (Nat.lt_of_succ_lt_succ h)

theorem getD_set_ne {α : Type} (l : List α) (i j : Nat) (x d : α)
    (h : i ≠ j) : (l.set i x).getD j d = l.getD j d := by
  induction l generalizing i j with
  | nil => rfl
  | cons a t ih =>
    cases i with
    | zero =>
      cases j with
      | zero => exact absurd rfl h
      | succ m => rfl
    | succ n =>
      cases j with
      | zero => rfl
      | succ m => exact ih n m fun hh => h (congrArg Nat.succ hh)

theorem World.node_setNode_self (w : World) (r : Nat) (o : NodeObj)
    (h : r < w.nodeHeap.length) : (w.setNode r o).node r = o := by
  unfold World.setNode World.node
  exact getD_set_self _ _ _ _ h

theorem World.node_setNode_ne (w : World) (r r' : Nat) (o : NodeObj)
    (h : r ≠ r') : (w.setNode r o).node r' = w.node r' := by
  unfold World.setNode World.node
  exact getD_set_ne _ _ _ _ _ h

theorem World.length_setNode (w : World) (r : Nat) (o : NodeObj) :
    (w.setNode r o).nodeHeap.length = w.nodeHeap.length := by
  unfold World.setNode
  exact List.length_set _ _ _

theorem World.node_allocNode_lt (w : World) (o : NodeObj) (r : Nat)
    (h : r < w.nodeHeap.length) : (w.allocNode o).1.node r = w.node r := by
  unfold World.allocNode World.node
  exact getD_append_lt _ _ _ h

theorem World.node_allocNode_self (w : World) (o : NodeObj) :
    (w.allocNode o).1.node w.nodeHeap.length = o := by
  unfold World.allocNode World.node
  exact getD_append_len _ _

theorem World.length_allocNode (w : World) (o : NodeObj) :
    (w.allocNode o).1.nodeHeap.length = w.nodeHeap.length + 1 := by
  unfold World.allocNode
  exact List.length_append _ _

theorem World.length_allocEdge (w : World) (o : EdgeObj) :
    (w.allocEdge o).1.edgeHeap.length = w.edgeHeap.length + 1 := by
  unfold World.allocEdge
  exact List.length_append _ _

theorem World.edge_setEdge_self (w : World) (r : Nat) (o : EdgeObj)
    (h : r < w.edgeHeap.length) : (w.setEdge r o).edge r = o := by
  unfold World.setEdge World.edge
  exact getD_set_self _ _ _ _ h

theorem World.edge_setEdge_ne (w : World) (r r' : Nat) (o : EdgeObj)
    (h : r ≠ r') : (w.setEdge r o).edge r' = w.edge r' := by
  unfold World.setEdge World.edge
  exact getD_set_ne _ _ _ _ _ h

theorem World.length_setEdge (w : World) (r : Nat) (o : EdgeObj) :
    (w.setEdge r o).edgeHeap.length = w.edgeHeap.length := by
  unfold World.setEdge
  exact List.length_set _ _ _

/-- An in-place node update that keeps the id and meta fields preserves
every node's id and meta. -/
theorem World.node_idmeta_setNode (w : World) (r x : Nat) (o : NodeObj)
    (hid : o.id = (w.node r).id) (hm : o.meta = (w.node r).meta) :
    ((w.setNode r o).node x).id = (w.node x).id
    ∧ ((w.setNode r o).node x).meta = (w.node x).meta := by
  by_cases hrx : r = x
  · subst hrx
    by_cases hlt : r < w.nodeHeap.length
    · rw [World.node_setNode_self _ _ _ hlt, hid, hm]
      exact ⟨rfl, rfl⟩
    · have : w.nodeHeap.set r o = w.nodeHeap :=
        List.set_eq_of_length_le (Nat.le_of_not_lt hlt)
      unfold World.setNode World.node
      rw [this]
      exact ⟨rfl, rfl⟩
  · rw [World.node_setNode_ne _ _ _ _ hrx]
    exact ⟨rfl, rfl⟩

/-- An in-place edge update that keeps the id and meta fields preserves
every edge's id and meta. -/
theorem World.edge_idmeta_setEdge (w : World) (r x : Nat) (o : EdgeObj)
    (hid : o.id = (w.edge r).id) (hm : o.meta = (w.edge r).meta) :
    ((w.setEdge r o).edge x).id = (w.edge x).id
    ∧ ((w.setEdge r o).edge x).meta = (w.edge x).meta := by
  by_cases hrx : r = x
  · subst hrx
    by_cases hlt : r < w.edgeHeap.length
    · rw [World.edge_setEdge_self _ _ _ hlt, hid, hm]
      exact ⟨rfl, rfl⟩
    · have : w.edgeHeap.set r o = w.edgeHeap :=
        List.set_eq_of_length_le (Nat.le_of_not_lt hlt)
      unfold World.setEdge World.edge
      rw [this]
      exact ⟨rfl, rfl⟩
  · rw [World.edge_setEdge_ne _ _ _ _ hrx]
    exact ⟨rfl, rfl⟩

/-- `Map.set` with a fresh key appends the entry. -/
theorem mapSet_append_of_not_mem {κ β : Type} [DecidableEq κ]
    {m : List (κ × β)} {k : κ} (v : β) (h : k ∉ m.map Prod.fst) :
    mapSet m k v = m ++ [(k, v)] := by
  induction m with
  | nil => rfl
  | cons a t ih =>
    simp only [List.map_cons, List.mem_cons, not_or] at h
    unfold mapSet
    rw [if_neg (fun hh => h.1 hh.symm), ih h.2]
    rfl

/-- An in-place node update that keeps the id field preserves every node's
id. -/
theorem World.node_id_setNode (w : World) (r x : Nat) (o : NodeObj)
    (hlt : r < w.nodeHeap.length) (hid : o.id = (w.node r).id) :
    ((w.setNode r o).node x).id = (w.node x).id := by
  by_cases hrx : r = x
  · subst hrx
    rw [World.node_setNode_self _ _ _ hlt, hid]
  · rw [World.node_setNode_ne _ _ _ _ hrx]

/-- Two consecutive id-preserving node updates preserve every node's id. -/
theorem World.node_id_double (w : World) (r1 r2 x : Nat) (o1 o2 : NodeObj)
    (h1 : r1 < w.nodeHeap.length) (h2 : r2 < w.nodeHeap.length)
    (ho1 : o1.id = (w.node r1).id)
    (ho2 : o2.id = ((w.setNode r1 o1).node r2).id) :
    (((w.setNode r1 o1).setNode r2 o2).node x).id = (w.node x).id := by
  rw [World.node_id_setNode _ _ _ _ (by rw [World.length_setNode]; exact h2) ho2]
  exact World.node_id_setNode _ _ _ _ h1 ho1

/-! ### addNode array-preservation lemmas -/

theorem arrGet_arrPush_ne (st : ArrStore) (sr r : Nat) (x : Nat) (h : sr ≠ r) :
    arrGet (arrPush st sr x) r = arrGet st r := by
  unfold arrPush arrGet
  exact getD_set_ne _ _ _ _ _ h

theorem arrGet_append_lt (st : ArrStore) (l : List Nat) (r : Nat)
    (h : r < st.length) : arrGet (st ++ [l]) r = arrGet st r := by
  unfold arrGet
  exact getD_append_lt _ _ _ h

theorem arrGet_append_len (st : ArrStore) (l : List Nat) :
    arrGet (st ++ [l]) st.length = l := by
  unfold arrGet
  exact getD_append_len _ _

/-- Folding a step that only writes the schedule array preserves every other
array and the schedule reference. -/
theorem foldl_sched_preserve (f : ANState → Nat → ANState)
    (hf : ∀ st e, (f st e).schedRef = st.schedRef
      ∧ ∀ r, r ≠ st.schedRef → arrGet (f st e).arrs r = arrGet st.arrs r)
    (l : List Nat) (st : ANState) :
    (l.foldl f st).schedRef = st.schedRef
    ∧ ∀ r, r ≠ st.schedRef → arrGet (l.foldl f st).arrs r = arrGet st.arrs r := by
  induction l generalizing st with
  | nil => exact ⟨rfl, fun r h => rfl⟩
  | cons e t ih =>
    rw [List.foldl_cons]
    obtain ⟨h1, h2⟩ := hf st e
    obtain ⟨g1, g2⟩ := ih (f st e)
    refine ⟨g1.trans h1, fun r hr => ?_⟩
    rw [g2 r (by rw [h1]; exact hr), h2 r hr]

/-- The `addNode` schedule loop writes only the schedule array: every other
array in the store is untouched. -/
theorem addNodeLoop_sched_preserve (ie : Bool) (fuel : Nat) :
    ∀ (i : Nat) (st : ANState),
      (addNodeLoop ie fuel i st).schedRef = st.schedRef
      ∧ ∀ r, r ≠ st.schedRef →
          arrGet (addNodeLoop ie fuel i st).arrs r = arrGet st.arrs r := by
  induction fuel with
  | zero =>
    intro i st
    unfold addNodeLoop
    split
    · exact ⟨rfl, fun r h => rfl⟩
    · exact ⟨rfl, fun r h => rfl⟩
  | succ fuel ih =>
    intro i st
    have hout : ∀ (s : ANState) (e : Nat),
        (scheduleOutNeighbor s e).schedRef = s.schedRef
        ∧ ∀ r, r ≠ s.schedRef →
            arrGet (scheduleOutNeighbor s e).arrs r = arrGet s.arrs r := by
      intro s e
      unfold scheduleOutNeighbor
      dsimp only
      split
      · exact ⟨rfl, fun r h => rfl⟩
      · exact ⟨rfl, fun r h => arrGet_arrPush_ne _ _ _ _ (Ne.symm h)⟩
    have hin : ∀ (s : ANState) (e : Nat),
        (scheduleInNeighbor s e).schedRef = s.schedRef
        ∧ ∀ r, r ≠ s.schedRef →
            arrGet (scheduleInNeighbor s e).arrs r = arrGet s.arrs r := by
      intro s e
      unfold scheduleInNeighbor
      dsimp only
      split
      · exact ⟨rfl, fun r h => rfl⟩
      · exact ⟨rfl, fun r h => arrGet_arrPush_ne _ _ _ _ (Ne.symm h)⟩
    unfold addNodeLoop
    split
    · exact ⟨rfl, fun r h => rfl⟩
    · dsimp only
      split
      · split
        · exact ih (i + 1) st
        · exact ih (i + 1) _
      · split
        · exact ih (i + 1) _
        · obtain ⟨k1, k2⟩ := ih (i + 1)
            ((((st.w.node ((arrGet st.arrs st.schedRef).getD i 0)).outE.foldl
                scheduleOutNeighbor
                { st with
                  net := { st.net with
                    nodes := st.net.nodes ++ [(arrGet st.arrs st.schedRef).getD i 0]
                    nodeMap := mapSet st.net.nodeMap
                      (st.w.node ((arrGet st.arrs st.schedRef).getD i 0)).id
                      ((arrGet st.arrs st.schedRef).getD i 0) }
                  addedNodes := setAdd st.addedNodes
                    ((arrGet st.arrs st.schedRef).getD i 0) }).w.node
              ((arrGet st.arrs st.schedRef).getD i 0)).inE.foldl
              scheduleInNeighbor _)
          obtain ⟨f1, f2⟩ := foldl_sched_preserve scheduleOutNeighbor hout
            ((st.w.node ((arrGet st.arrs st.schedRef).getD i 0)).outE)
            { st with
              net := { st.net with
                nodes := st.net.nodes ++ [(arrGet st.arrs st.schedRef).getD i 0]
                nodeMap := mapSet st.net.nodeMap
                  (st.w.node ((arrGet st.arrs st.schedRef).getD i 0)).id
                  ((arrGet st.arrs st.schedRef).getD i 0) }
              addedNodes := setAdd st.addedNodes
                ((arrGet st.arrs st.schedRef).getD i 0) }
          obtain ⟨g1, g2⟩ := foldl_sched_preserve scheduleInNeighbor hin
            (((st.w.node ((arrGet st.arrs st.schedRef).getD i 0)).outE.foldl
                scheduleOutNeighbor
                { st with
                  net := { st.net with
                    nodes := st.net.nodes ++ [(arrGet st.arrs st.schedRef).getD i 0]
                    nodeMap := mapSet st.net.nodeMap
                      (st.w.node ((arrGet st.arrs st.schedRef).getD i 0)).id
                      ((arrGet st.arrs st.schedRef).getD i 0) }
                  addedNodes := setAdd st.addedNodes
                    ((arrGet st.arrs st.schedRef).getD i 0) }).w.node
              ((arrGet st.arrs st.schedRef).getD i 0)).inE
            ((st.w.node ((arrGet st.arrs st.schedRef).getD i 0)).outE.foldl
              scheduleOutNeighbor
              { st with
                net := { st.net with
                  nodes := st.net.nodes ++ [(arrGet st.arrs st.schedRef).getD i 0]
                  nodeMap := mapSet st.net.nodeMap
                    (st.w.node ((arrGet st.arrs st.schedRef).getD i 0)).id
                    ((arrGet st.arrs st.schedRef).getD i 0) }
                addedNodes := setAdd st.addedNodes
                  ((arrGet st.arrs st.schedRef).getD i 0) })
          constructor
          · exact k1.trans (g1.trans f1)
          · intro r hr
            rw [k2 r (by rw [g1, f1]; exact hr), g2 r (by rw [f1]; exact hr),
              f2 r hr]

theorem momGet_momAdd_self {γ : Type} (m : List (Nat × List (Nat × γ)))
    (a b : Nat) (v : γ) : momGet (momAdd m a b v) a b = some v := by
  unfold momGet momAdd
  cases h : mapGet m a with
  | none =>
    rw [mapGet_set_self]
    exact mapGet_set_self _ _ _
  | some inner =>
    rw [mapGet_set_self]
    exact mapGet_set_self _ _ _

/-- `addNode` over an empty input array is a no-op apart from allocating the
empty schedule copy. -/
theorem addNode_empty_schedule (w : World) (net : Network) (arrs : ArrStore)
    (r : Nat) (addedN addedE : Option (List Nat)) (pc : Bool) (fuel : Nat)
    (h : arrGet arrs r = []) :
    addNode w net arrs (.arr r) addedN addedE pc false fuel
      = { w := w, net := net, arrs := arrs ++ [[]]
          addedNodes := addedN.getD [], addedEdges := addedE.getD []
          nodeErrors := none, edgeErrors := none } := by
  have hempty : arrGet (anInit w net (makeListNodes arrs (.arr r)) addedN
      addedE).arrs (anInit w net (makeListNodes arrs (.arr r)) addedN
      addedE).schedRef = [] := by
    show arrGet (arrs ++ [arrGet arrs r]) arrs.length = []
    rw [arrGet_append_len, h]
  have hloop : addNodeLoop false fuel 0
      (anInit w net (makeListNodes arrs (.arr r)) addedN addedE)
      = anInit w net (makeListNodes arrs (.arr r)) addedN addedE := by
    unfold addNodeLoop
    rw [hempty]
    rfl
  unfold addNode
  dsimp only
  rw [hloop]
  show ({ w := w, net := net, arrs := arrs ++ [arrGet arrs r], addedNodes := addedN.getD [], addedEdges := addedE.getD [], nodeErrors := none, edgeErrors := none } : AddNodeRes) = _
  rw [h]

/-- One `addEdge` iteration on a detached edge (id not registered, not in
either endpoint's adjacency list) whose endpoints are registered: the edge is
pushed into `edges`/`edgeMap`/`inToOutMap` and both adjacency lists, it is
recorded in `addedEdges`, and no endpoint is scheduled for `addNode`. -/
theorem addEdgeStep_detached (st : AEState) (e : Nat)
    (hid : mapGet st.net.edgeMap (st.w.edge e).id = none)
    (hout : e ∉ (st.w.node (st.w.edge e).inN).outE)
    (hin : e ∉ (st.w.node (st.w.edge e).outN).inE)
    (hna : mapGet st.net.nodeMap (st.w.node (st.w.edge e).inN).id
      = some (st.w.edge e).inN)
    (hnb : mapGet st.net.nodeMap (st.w.node (st.w.edge e).outN).id
      = some (st.w.edge e).outN)
    (ha : (st.w.edge e).inN < st.w.nodeHeap.length)
    (hb : (st.w.edge e).outN < st.w.nodeHeap.length) :
    addEdgeStep false false st e
      = { st with
          w := ((st.w.setNode (st.w.edge e).inN
              { st.w.node (st.w.edge e).inN with
                outE := (st.w.node (st.w.edge e).inN).outE ++ [e] })).setNode
            (st.w.edge e).outN
            { ((st.w.setNode (st.w.edge e).inN
                { st.w.node (st.w.edge e).inN with
                  outE := (st.w.node (st.w.edge e).inN).outE ++ [e] })).node
                (st.w.edge e).outN with
              inE := (((st.w.setNode (st.w.edge e).inN
                { st.w.node (st.w.edge e).inN with
                  outE := (st.w.node (st.w.edge e).inN).outE ++ [e] })).node
                (st.w.edge e).outN).inE ++ [e] }
          net := { st.net with
            edges := st.net.edges ++ [e]
            edgeMap := mapSet st.net.edgeMap (st.w.edge e).id e
            inToOutMap := momAdd st.net.inToOutMap (st.w.edge e).inN
              (st.w.edge e).outN e }
          addedEdges := setAdd st.addedEdges e } := by
  have w1eq : ∀ (o : NodeObj),
      ((st.w.setNode (st.w.edge e).inN o).node (st.w.edge e).outN).inE
        = if (st.w.edge e).inN = (st.w.edge e).outN then o.inE
          else (st.w.node (st.w.edge e).outN).inE := by
    intro o
    by_cases hab : (st.w.edge e).inN = (st.w.edge e).outN
    · rw [if_pos hab, ← hab, World.node_setNode_self _ _ _ ha]
    · rw [if_neg hab, World.node_setNode_ne _ _ _ _ hab]
  unfold addEdgeStep
  have h1 : mapHas st.net.edgeMap (st.w.edge e).id = false := by
    unfold mapHas
    rw [hid]
    rfl
  rw [h1]
  simp only [Bool.false_eq_true, if_false, Bool.false_and]
  split_ifs
  all_goals first
  | rfl
  | exact absurd (by assumption : e ∈ (st.w.node (st.w.edge e).inN).outE) hout
  | (have hm : e ∈ ((st.w.setNode (st.w.edge e).inN
        { st.w.node (st.w.edge e).inN with
          outE := (st.w.node (st.w.edge e).inN).outE ++ [e] }).node
        (st.w.edge e).outN).inE := by assumption
     rw [w1eq] at hm
     by_cases hab : (st.w.edge e).inN = (st.w.edge e).outN
     · rw [if_pos hab] at hm
       dsimp only at hm
       rw [hab] at hm
       exact absurd hm hin
     · rw [if_neg hab] at hm
       exact absurd hm hin)
  | (refine absurd (?_ : mapHas st.net.nodeMap
        (((st.w.setNode (st.w.edge e).inN
            { st.w.node (st.w.edge e).inN with
              outE := (st.w.node (st.w.edge e).inN).outE ++ [e] }).setNode
          (st.w.edge e).outN
          { (st.w.setNode (st.w.edge e).inN
              { st.w.node (st.w.edge e).inN with
                outE := (st.w.node (st.w.edge e).inN).outE ++ [e] }).node
              (st.w.edge e).outN with
            inE := ((st.w.setNode (st.w.edge e).inN
              { st.w.node (st.w.edge e).inN with
                outE := (st.w.node (st.w.edge e).inN).outE ++ [e] }).node
              (st.w.edge e).outN).inE ++ [e] }).node
          (st.w.edge e).inN).id = true) (by assumption)
     rw [World.node_id_double st.w (st.w.edge e).inN (st.w.edge e).outN
       (st.w.edge e).inN
       { st.w.node (st.w.edge e).inN with
         outE := (st.w.node (st.w.edge e).inN).outE ++ [e] }
       { (st.w.setNode (st.w.edge e).inN
           { st.w.node (st.w.edge e).inN with
             outE := (st.w.node (st.w.edge e).inN).outE ++ [e] }).node
           (st.w.edge e).outN with
         inE := ((st.w.setNode (st.w.edge e).inN
           { st.w.node (st.w.edge e).inN with
             outE := (st.w.node (st.w.edge e).inN).outE ++ [e] }).node
           (st.w.edge e).outN).inE ++ [e] }
       ha hb rfl rfl]
     unfold mapHas
     rw [hna]
     rfl)
  | (refine absurd (?_ : mapHas st.net.nodeMap
        (((st.w.setNode (st.w.edge e).inN
            { st.w.node (st.w.edge e).inN with
              outE := (st.w.node (st.w.edge e).inN).outE ++ [e] }).setNode
          (st.w.edge e).outN
          { (st.w.setNode (st.w.edge e).inN
              { st.w.node (st.w.edge e).inN with
                outE := (st.w.node (st.w.edge e).inN).outE ++ [e] }).node
              (st.w.edge e).outN with
            inE := ((st.w.setNode (st.w.edge e).inN
              { st.w.node (st.w.edge e).inN with
                outE := (st.w.node (st.w.edge e).inN).outE ++ [e] }).node
              (st.w.edge e).outN).inE ++ [e] }).node
          (st.w.edge e).outN).id = true) (by assumption)
     rw [World.node_id_double st.w (st.w.edge e).inN (st.w.edge e).outN
       (st.w.edge e).outN
       { st.w.node (st.w.edge e).inN with
         outE := (st.w.node (st.w.edge e).inN).outE ++ [e] }
       { (st.w.setNode (st.w.edge e).inN
           { st.w.node (st.w.edge e).inN with
             outE := (st.w.node (st.w.edge e).inN).outE ++ [e] }).node
           (st.w.edge e).outN with
         inE := ((st.w.setNode (st.w.edge e).inN
           { st.w.node (st.w.edge e).inN with
             outE := (st.w.node (st.w.edge e).inN).outE ++ [e] }).node
           (st.w.edge e).outN).inE ++ [e] }
       ha hb rfl rfl]
     unfold mapHas
     rw [hnb]
     rfl)

/-- A one-edge `addEdge` batch on a detached edge with registered endpoints:
the full result record. -/
theorem addEdge_single_detached (w : World) (net : Network) (arrs : ArrStore)
    (e : Nat) (fuel : Nat)
    (hid : mapGet net.edgeMap (w.edge e).id = none)
    (hout : e ∉ (w.node (w.edge e).inN).outE)
    (hin : e ∉ (w.node (w.edge e).outN).inE)
    (hna : mapGet net.nodeMap (w.node (w.edge e).inN).id = some (w.edge e).inN)
    (hnb : mapGet net.nodeMap (w.node (w.edge e).outN).id = some (w.edge e).outN)
    (ha : (w.edge e).inN < w.nodeHeap.length)
    (hb : (w.edge e).outN < w.nodeHeap.length) :
    addEdge w net arrs [e] none none false false fuel
      = { w := (w.setNode (w.edge e).inN
            { w.node (w.edge e).inN with
              outE := (w.node (w.edge e).inN).outE ++ [e] }).setNode
            (w.edge e).outN
            { (w.setNode (w.edge e).inN
                { w.node (w.edge e).inN with
                  outE := (w.node (w.edge e).inN).outE ++ [e] }).node
                (w.edge e).outN with
              inE := ((w.setNode (w.edge e).inN
                { w.node (w.edge e).inN with
                  outE := (w.node (w.edge e).inN).outE ++ [e] }).node
                (w.edge e).outN).inE ++ [e] }
          net := { net with
            edges := net.edges ++ [e]
            edgeMap := mapSet net.edgeMap (w.edge e).id e
            inToOutMap := momAdd net.inToOutMap (w.edge e).inN (w.edge e).outN e }
          arrs := arrs ++ [[]] ++ [[]]
          nodes := [], edges := [e], edgeErrors := none, nodeErrors := none } := by
  have hstep := addEdgeStep_detached
    { w := w, net := net, addedNodes := [], addedEdges := [], edgeErrors := []
      addNodes := [] } e hid hout hin hna hnb ha hb
  unfold addEdge
  simp only [List.foldl_cons, List.foldl_nil, Option.getD_none]
  rw [hstep]
  simp only [Bool.false_eq_true, if_false]
  unfold arrAlloc
  rw [addNode_empty_schedule _ _ _ _ _ _ _ _ (arrGet_append_len arrs [])]
  rfl

/-- A one-edge `addEdge` batch on an already registered edge with a shared
accumulator holding the edge: a complete no-op apart from the two empty
schedule allocations. -/
theorem addEdge_single_registered_shared (w : World) (net : Network)
    (arrs : ArrStore) (e : Nat) (fuel : Nat)
    (h : mapGet net.edgeMap (w.edge e).id = some e) :
    addEdge w net arrs [e] none (some [e]) false false fuel
      = { w := w, net := net, arrs := arrs ++ [[]] ++ [[]]
          nodes := [], edges := [e], edgeErrors := none, nodeErrors := none } := by
  have h1 : mapHas net.edgeMap (w.edge e).id = true := by
    unfold mapHas
    rw [h]
    rfl
  have hstep : addEdgeStep false false
      { w := w, net := net, addedNodes := [], addedEdges := [e], edgeErrors := []
        addNodes := [] } e
      = { w := w, net := net, addedNodes := [], addedEdges := [e]
          edgeErrors := [], addNodes := [] } := by
    unfold addEdgeStep
    simp only [h1, eq_self_iff_true, if_true, List.mem_singleton]
  unfold addEdge
  simp only [List.foldl_cons, List.foldl_nil, Option.getD_none, Option.getD_some]
  rw [hstep]
  simp only [Bool.false_eq_true, if_false]
  unfold arrAlloc
  rw [addNode_empty_schedule _ _ _ _ _ _ _ _ (arrGet_append_len arrs [])]
  rfl

/-- A one-edge `addEdge` batch on an already registered edge without a shared
accumulator: the edge is reported as a collision error and nothing changes. -/
theorem addEdge_single_registered_unshared (w : World) (net : Network)
    (arrs : ArrStore) (e : Nat) (fuel : Nat)
    (h : mapGet net.edgeMap (w.edge e).id = some e) :
    addEdge w net arrs [e] none none false false fuel
      = { w := w, net := net, arrs := arrs ++ [[]] ++ [[]]
          nodes := [], edges := [], edgeErrors := some [e], nodeErrors := none } := by
  have h1 : mapHas net.edgeMap (w.edge e).id = true := by
    unfold mapHas
    rw [h]
    rfl
  have hstep : addEdgeStep false false
      { w := w, net := net, addedNodes := [], addedEdges := [], edgeErrors := []
        addNodes := [] } e
      = { w := w, net := net, addedNodes := [], addedEdges := []
          edgeErrors := [e], addNodes := [] } := by
    unfold addEdgeStep
    simp only [h1, eq_self_iff_true, if_true, List.not_mem_nil, if_false]
    rfl
  unfold addEdge
  simp only [List.foldl_cons, List.foldl_nil, Option.getD_none]
  rw [hstep]
  simp only [Bool.false_eq_true, if_false]
  unfold arrAlloc
  rw [addNode_empty_schedule _ _ _ _ _ _ _ _ (arrGet_append_len arrs [])]
  rfl

/-- C6: for every network and every detached edge `e` with registered
endpoints, `addEdge` leaves `e` exactly once in `edges`, in the `edgeMap`
keys, in the `inToOutMap` bucket and in each endpoint's adjacency list, with
no error; a second call sharing the "already added" accumulator changes
nothing and reports no error, while a second call without the accumulator
also changes nothing but reports `e` as a collision error. -/
theorem addEdge_twice_idempotent (w : World) (net : Network) (arrs : ArrStore)
    (e : Nat) (fuel : Nat)
    (hid : mapGet net.edgeMap (w.edge e).id = none)
    (hout : e ∉ (w.node (w.edge e).inN).outE)
    (hin : e ∉ (w.node (w.edge e).outN).inE)
    (hna : mapGet net.nodeMap (w.node (w.edge e).inN).id = some (w.edge e).inN)
    (hnb : mapGet net.nodeMap (w.node (w.edge e).outN).id = some (w.edge e).outN)
    (ha : (w.edge e).inN < w.nodeHeap.length)
    (hb : (w.edge e).outN < w.nodeHeap.length)
    (hedges : e ∉ net.edges) :
    ∀ r1, r1 = addEdge w net arrs [e] none none false false fuel →
      (r1.net.edges.count e = 1
        ∧ (r1.net.edgeMap.map Prod.fst).count (w.edge e).id = 1
        ∧ mapGet r1.net.edgeMap (w.edge e).id = some e
        ∧ momGet r1.net.inToOutMap (w.edge e).inN (w.edge e).outN = some e
        ∧ ((r1.w.node (w.edge e).inN).outE).count e = 1
        ∧ ((r1.w.node (w.edge e).outN).inE).count e = 1
        ∧ r1.edgeErrors = none)
      ∧ (∀ r2, r2 = addEdge r1.w r1.net r1.arrs [e] none (some r1.edges)
            false false fuel →
          r2.w = r1.w ∧ r2.net = r1.net ∧ r2.edgeErrors = none)
      ∧ (∀ r2, r2 = addEdge r1.w r1.net r1.arrs [e] none none
            false false fuel →
          r2.w = r1.w ∧ r2.net = r1.net ∧ r2.edgeErrors = some [e]) := by
  intro r1 hr1
  rw [addEdge_single_detached w net arrs e fuel hid hout hin hna hnb ha hb] at hr1
  subst hr1
  dsimp only
  have houtE : (((w.setNode (w.edge e).inN
      { w.node (w.edge e).inN with
        outE := (w.node (w.edge e).inN).outE ++ [e] }).setNode
      (w.edge e).outN
      { (w.setNode (w.edge e).inN
          { w.node (w.edge e).inN with
            outE := (w.node (w.edge e).inN).outE ++ [e] }).node
          (w.edge e).outN with
        inE := ((w.setNode (w.edge e).inN
          { w.node (w.edge e).inN with
            outE := (w.node (w.edge e).inN).outE ++ [e] }).node
          (w.edge e).outN).inE ++ [e] }).node (w.edge e).inN).outE
      = (w.node (w.edge e).inN).outE ++ [e] := by
    by_cases hab : (w.edge e).inN = (w.edge e).outN
    · rw [← hab]
      rw [World.node_setNode_self _ _ _ (by rw [World.length_setNode]; exact ha)]
      dsimp only
      rw [World.node_setNode_self _ _ _ ha]
    · rw [World.node_setNode_ne _ _ _ _ (fun hc => hab hc.symm)]
      rw [World.node_setNode_self _ _ _ ha]
  have hinE : (((w.setNode (w.edge e).inN
      { w.node (w.edge e).inN with
        outE := (w.node (w.edge e).inN).outE ++ [e] }).setNode
      (w.edge e).outN
      { (w.setNode (w.edge e).inN
          { w.node (w.edge e).inN with
            outE := (w.node (w.edge e).inN).outE ++ [e] }).node
          (w.edge e).outN with
        inE := ((w.setNode (w.edge e).inN
          { w.node (w.edge e).inN with
            outE := (w.node (w.edge e).inN).outE ++ [e] }).node
          (w.edge e).outN).inE ++ [e] }).node (w.edge e).outN).inE
      = (w.node (w.edge e).outN).inE ++ [e] := by
    rw [World.node_setNode_self _ _ _ (by rw [World.length_setNode]; exact hb)]
    dsimp only
    by_cases hab : (w.edge e).inN = (w.edge e).outN
    · rw [← hab, World.node_setNode_self _ _ _ ha]
    · rw [World.node_setNode_ne _ _ _ _ hab]
  refine ⟨⟨?_, ?_, mapGet_set_self _ _ _, momGet_momAdd_self _ _ _ _, ?_, ?_, rfl⟩,
    ?_, ?_⟩
  · rw [List.count_append, List.count_eq_zero_of_not_mem hedges]
    simp
  · rw [keys_mapSet_of_not_mem e (mapGet_eq_none.mp hid), List.count_append,
      List.count_eq_zero_of_not_mem (mapGet_eq_none.mp hid)]
    simp
  · rw [houtE, List.count_append, List.count_eq_zero_of_not_mem hout]
    simp
  · rw [hinE, List.count_append, List.count_eq_zero_of_not_mem hin]
    simp
  · intro r2 hr2
    rw [addEdge_single_registered_shared _ _ _ _ fuel
      (mapGet_set_self net.edgeMap (w.edge e).id e)] at hr2
    subst hr2
    exact ⟨rfl, rfl, rfl⟩
  · intro r2 hr2
    rw [addEdge_single_registered_unshared _ _ _ _ fuel
      (mapGet_set_self net.edgeMap (w.edge e).id e)] at hr2
    subst hr2
    exact ⟨rfl, rfl, rfl⟩

/-- Witness for C6: the detached edge 0 of `detachedEdgeWorld`, whose two
endpoints are registered in `twoNodeNet`, satisfies every hypothesis, and the
first `addEdge` call registers it exactly once everywhere with no error. -/
theorem addEdge_twice_idempotent_witness :
    mapGet twoNodeNet.edgeMap (detachedEdgeWorld.edge 0).id = none
    ∧ 0 ∉ (detachedEdgeWorld.node (detachedEdgeWorld.edge 0).inN).outE
    ∧ 0 ∉ (detachedEdgeWorld.node (detachedEdgeWorld.edge 0).outN).inE
    ∧ mapGet twoNodeNet.nodeMap
        (detachedEdgeWorld.node (detachedEdgeWorld.edge 0).inN).id
      = some (detachedEdgeWorld.edge 0).inN
    ∧ mapGet twoNodeNet.nodeMap
        (detachedEdgeWorld.node (detachedEdgeWorld.edge 0).outN).id
      = some (detachedEdgeWorld.edge 0).outN
    ∧ (detachedEdgeWorld.edge 0).inN < detachedEdgeWorld.nodeHeap.length
    ∧ (detachedEdgeWorld.edge 0).outN < detachedEdgeWorld.nodeHeap.length
    ∧ 0 ∉ twoNodeNet.edges
    ∧ ((addEdge detachedEdgeWorld twoNodeNet [] [0] none none false false
          1).net.edges.count 0 = 1
        ∧ ((addEdge detachedEdgeWorld twoNodeNet [] [0] none none false false
            1).net.edgeMap.map Prod.fst).count (detachedEdgeWorld.edge 0).id = 1
        ∧ mapGet (addEdge detachedEdgeWorld twoNodeNet [] [0] none none false
            false 1).net.edgeMap (detachedEdgeWorld.edge 0).id = some 0
        ∧ momGet (addEdge detachedEdgeWorld twoNodeNet [] [0] none none false
            false 1).net.inToOutMap (detachedEdgeWorld.edge 0).inN
            (detachedEdgeWorld.edge 0).outN = some 0
        ∧ (((addEdge detachedEdgeWorld twoNodeNet [] [0] none none false false
            1).w.node (detachedEdgeWorld.edge 0).inN).outE).count 0 = 1
        ∧ (((addEdge detachedEdgeWorld twoNodeNet [] [0] none none false false
            1).w.node (detachedEdgeWorld.edge 0).outN).inE).count 0 = 1
        ∧ (addEdge detachedEdgeWorld twoNodeNet [] [0] none none false false
            1).edgeErrors = none) :=
  ⟨by decide, by decide, by decide, by decide, by decide, by decide, by decide,
   by decide,
   ((addEdge_twice_idempotent detachedEdgeWorld twoNodeNet [] 0 1 (by decide)
     (by decide) (by decide) (by decide) (by decide) (by decide) (by decide)
     (by decide)) _ rfl).1⟩

/-! ### makeNetwork phase lemmas -/

theorem nodeRowStep_edges (o : MakeNetOptions) (st : MNState) (row : NodeRow) :
    (nodeRowStep o st row).edges = st.edges
    ∧ (nodeRowStep o st row).edgeMap = st.edgeMap := by
  unfold nodeRowStep
  cases row.idA <;> dsimp only <;> split <;> (try split) <;> simp

theorem nodePhase_edges (o : MakeNetOptions) (rows : List NodeRow) (st : MNState) :
    (nodePhase o st rows).edges = st.edges
    ∧ (nodePhase o st rows).edgeMap = st.edgeMap := by
  induction rows generalizing st with
  | nil => exact ⟨rfl, rfl⟩
  | cons row t ih =>
    unfold nodePhase at ih ⊢
    rw [List.foldl_cons]
    rcases ih (nodeRowStep o st row) with ⟨h1, h2⟩
    rcases nodeRowStep_edges o st row with ⟨h3, h4⟩
    exact ⟨h1.trans h3, h2.trans h4⟩

theorem edgeRowStepAgg_fst (o : MakeNetOptions) (stp : MNState × List (Ident × PEdge))
    (row : EdgeRow) :
    ∃ u, (edgeRowStepAgg o stp row).1 = { stp.1 with edgeUID := u } := by
  unfold edgeRowStepAgg
  cases row.idA <;> dsimp only <;> split
  · exact ⟨stp.1.edgeUID + 1, rfl⟩
  · exact ⟨stp.1.edgeUID + 1, rfl⟩
  · exact ⟨stp.1.edgeUID, rfl⟩
  · exact ⟨stp.1.edgeUID, rfl⟩

theorem foldAgg_fst (o : MakeNetOptions) (rows : List EdgeRow)
    (stp : MNState × List (Ident × PEdge)) :
    ∃ u, (rows.foldl (edgeRowStepAgg o) stp).1 = { stp.1 with edgeUID := u } := by
  induction rows generalizing stp with
  | nil => exact ⟨stp.1.edgeUID, rfl⟩
  | cons row t ih =>
    rw [List.foldl_cons]
    rcases ih (edgeRowStepAgg o stp row) with ⟨u2, h2⟩
    rcases edgeRowStepAgg_fst o stp row with ⟨u1, h1⟩
    refine ⟨u2, ?_⟩
    rw [h2, h1]

theorem mergePEdge_id (o : MakeNetOptions) (p : PEdge) (nodeIn nodeOut : Option Nat)
    (values : Weights × Weights) (meta : Option MetaTok) :
    (mergePEdge o p nodeIn nodeOut values meta).id = p.id := by
  unfold mergePEdge
  dsimp only
  split <;> split <;> rfl

/-- The partial-edge updates of an aggregation step never change the
buffered id, and the buffer's keys stay duplicate-free. -/
theorem edgeRowStepAgg_id_inv (o : MakeNetOptions)
    (stp : MNState × List (Ident × PEdge)) (row : EdgeRow)
    (h1 : ∀ kp ∈ stp.2, (kp : Ident × PEdge).2.id = kp.1)
    (h2 : (stp.2.map Prod.fst).Nodup) :
    (∀ kp ∈ (edgeRowStepAgg o stp row).2, (kp : Ident × PEdge).2.id = kp.1)
    ∧ ((edgeRowStepAgg o stp row).2.map Prod.fst).Nodup := by
  unfold edgeRowStepAgg
  cases hid : row.idA <;> dsimp only <;> split
  case none.h_1 p heq =>
    refine ⟨?_, nodup_keys_mapSet _ h2⟩
    intro kp hkp
    rcases mem_mapSet hkp with ⟨e1, e2⟩ | hmem
    · rw [e2, mergePEdge_id, h1 _ (mapGet_mem heq), e1]
    · exact h1 _ hmem
  case none.h_2 heq =>
    refine ⟨?_, nodup_keys_mapSet _ h2⟩
    intro kp hkp
    rcases mem_mapSet hkp with ⟨e1, e2⟩ | hmem
    · rw [e2, e1]
    · exact h1 _ hmem
  case some.h_1 i p heq =>
    refine ⟨?_, nodup_keys_mapSet _ h2⟩
    intro kp hkp
    rcases mem_mapSet hkp with ⟨e1, e2⟩ | hmem
    · rw [e2, mergePEdge_id, h1 _ (mapGet_mem heq), e1]
    · exact h1 _ hmem
  case some.h_2 i heq =>
    refine ⟨?_, nodup_keys_mapSet _ h2⟩
    intro kp hkp
    rcases mem_mapSet hkp with ⟨e1, e2⟩ | hmem
    · rw [e2, e1]
    · exact h1 _ hmem

theorem finishPEdge_errors_mono (o : MakeNetOptions) (st : MNState) (q : PEdge) :
    ∀ t ∈ st.errors, t ∈ (finishPEdge o st q).errors := by
  intro t ht
  unfold finishPEdge makeError
  split
  · split
    · exact ht
    · exact List.mem_append_left _ ht
  · split
    · exact ht
    · split
      · exact ht
      · exact List.mem_append_left _ ht

theorem finishPEdge_adds_error (o : MakeNetOptions) (st : MNState) (q : PEdge)
    (hsup : o.suppressErrors = []) (hmiss : q.inN = none ∨ q.outN = none) :
    (q.id.truthy = true → ErrType.NODE_NOT_FOUND ∈ (finishPEdge o st q).errors)
    ∧ (q.id.truthy = false → ErrType.BAD_ID ∈ (finishPEdge o st q).errors) := by
  unfold finishPEdge makeError
  constructor
  · intro htr
    rw [htr]
    simp only [Bool.not_true, Bool.false_eq_true, if_false]
    rcases hmiss with hmiss | hmiss <;> rw [hmiss]
    · cases q.outN <;>
        simp [hsup]
    · cases q.inN <;>
        simp [hsup]
  · intro htr
    rw [htr]
    simp [hsup]

theorem World.edge_eq (w : World) (e : Nat) :
    w.edge e = w.edgeHeap.getD e default := rfl

theorem registerPEdge_edges (st : MNState) (p : PEdge) (a b : Nat) :
    (registerPEdge st p a b).edges = st.edges ++ [st.w.edgeHeap.length] := rfl

theorem registerPEdge_edgeMap (st : MNState) (p : PEdge) (a b : Nat) :
    (registerPEdge st p a b).edgeMap
      = mapSet (mapSet st.edgeMap p.id st.w.edgeHeap.length) p.id
          st.w.edgeHeap.length := rfl

theorem registerPEdge_errors (st : MNState) (p : PEdge) (a b : Nat) :
    (registerPEdge st p a b).errors = st.errors := rfl

theorem registerPEdge_edgeHeap (st : MNState) (p : PEdge) (a b : Nat) :
    (registerPEdge st p a b).w.edgeHeap
      = st.w.edgeHeap ++ [⟨p.id, a, b, flowOrEmpty p.inOutFlow,
          flowOrEmpty p.outInFlow, p.meta⟩] := rfl

/-- The register branch of `finishPEdge` leaves every other id untouched:
edges and heap entries already present are preserved, the new entry carries
the processed partial's id, and lookups of other ids are unchanged. -/
theorem finishPEdge_preserves_unreg (o : MakeNetOptions) (st : MNState)
    (q : PEdge) (id : Ident) (hq : q.id ≠ id) (h : UnregisteredId id st) :
    UnregisteredId id (finishPEdge o st q) := by
  obtain ⟨h1, h2⟩ := h
  unfold finishPEdge
  split
  · exact ⟨h1, h2⟩
  · split
    · refine ⟨?_, ?_⟩
      · rw [registerPEdge_edgeMap, mapGet_set_ne _ _ id _ hq,
          mapGet_set_ne _ _ id _ hq]
        exact h1
      · intro e he
        rw [registerPEdge_edges] at he
        rcases List.mem_append.mp he with he | he
        · rcases h2 e he with ⟨hlt, hid⟩
          refine ⟨?_, ?_⟩
          · rw [registerPEdge_edgeHeap, List.length_append]
            exact Nat.lt_of_lt_of_le hlt (Nat.le_add_right _ _)
          · rw [World.edge_eq, registerPEdge_edgeHeap, getD_append_lt _ _ _ hlt]
            exact hid
        · obtain rfl := List.mem_singleton.mp he
          refine ⟨?_, ?_⟩
          · rw [registerPEdge_edgeHeap, List.length_append]
            exact Nat.lt_succ_self _
          · rw [World.edge_eq, registerPEdge_edgeHeap, getD_append_len]
            exact hq
    · exact ⟨h1, h2⟩

theorem finishPEdge_preserves_reg (o : MakeNetOptions) (st : MNState)
    (q : PEdge) (id : Ident) (a b : Nat) (hq : q.id ≠ id)
    (h : RegisteredEdge id a b st) : RegisteredEdge id a b (finishPEdge o st q) := by
  obtain ⟨r, h1, h2, h3, h4, h5⟩ := h
  unfold finishPEdge
  split
  · exact ⟨r, h1, h2, h3, h4, h5⟩
  · split
    · refine ⟨r, ?_, ?_, ?_, ?_, ?_⟩
      · rw [registerPEdge_edgeMap, mapGet_set_ne _ _ id _ hq,
          mapGet_set_ne _ _ id _ hq]
        exact h1
      · rw [registerPEdge_edges]
        exact List.mem_append_left _ h2
      · rw [registerPEdge_edgeHeap, List.length_append]
        exact Nat.lt_of_lt_of_le h3 (Nat.le_add_right _ _)
      · rw [World.edge_eq, registerPEdge_edgeHeap, getD_append_lt _ _ _ h3]
        exact h4
      · rw [World.edge_eq, registerPEdge_edgeHeap, getD_append_lt _ _ _ h3]
        exact h5
    · exact ⟨r, h1, h2, h3, h4, h5⟩

/-- Processing a complete, truthy-id partial edge registers it with exactly
the buffered endpoints. -/
theorem finishPEdge_registers (o : MakeNetOptions) (st : MNState) (q : PEdge)
    (a b : Nat) (htr : q.id.truthy = true) (hin : q.inN = some a)
    (hout : q.outN = some b) :
    RegisteredEdge q.id a b (finishPEdge o st q) := by
  unfold finishPEdge
  rw [htr]
  simp only [Bool.not_true, Bool.false_eq_true, if_false]
  rw [hin, hout]
  refine ⟨st.w.edgeHeap.length, ?_, ?_, ?_, ?_, ?_⟩
  · rw [registerPEdge_edgeMap]
    exact mapGet_set_self _ _ _
  · rw [registerPEdge_edges]
    exact List.mem_append_right _ (List.mem_singleton.mpr rfl)
  · rw [registerPEdge_edgeHeap, List.length_append]
    exact Nat.lt_succ_self _
  · rw [World.edge_eq, registerPEdge_edgeHeap, getD_append_len]
  · rw [World.edge_eq, registerPEdge_edgeHeap, getD_append_len]

theorem finishPEdge_error_branch_state (o : MakeNetOptions) (st : MNState)
    (q : PEdge) (hmiss : q.inN = none ∨ q.outN = none) :
    (finishPEdge o st q).edges = st.edges
    ∧ (finishPEdge o st q).edgeMap = st.edgeMap
    ∧ (finishPEdge o st q).w = st.w := by
  unfold finishPEdge
  split
  · exact ⟨rfl, rfl, rfl⟩
  · split
    · rcases hmiss with h | h <;> simp_all
    · exact ⟨rfl, rfl, rfl⟩

theorem foldFinish_errors_mono (o : MakeNetOptions) (l : List (Ident × PEdge)) :
    ∀ st, ∀ t ∈ st.errors,
      t ∈ (l.foldl (fun s ip => finishPEdge o s ip.2) st).errors := by
  induction l with
  | nil => intro st t ht; exact ht
  | cons hd tl ih =>
    intro st t ht
    rw [List.foldl_cons]
    exact ih _ t (finishPEdge_errors_mono o st hd.2 t ht)

theorem foldFinish_preserves_unreg (o : MakeNetOptions)
    (l : List (Ident × PEdge)) (id : Ident)
    (hids : ∀ kp ∈ l, (kp : Ident × PEdge).2.id = kp.1)
    (hnk : id ∉ l.map Prod.fst) :
    ∀ st, UnregisteredId id st →
      UnregisteredId id (l.foldl (fun s ip => finishPEdge o s ip.2) st) := by
  induction l with
  | nil => intro st h; exact h
  | cons hd tl ih =>
    intro st h
    rw [List.foldl_cons]
    simp only [List.map_cons, List.mem_cons] at hnk
    push_neg at hnk
    have hq : hd.2.id ≠ id := by
      rw [hids hd (List.mem_cons_self _ _)]
      exact fun hEq => hnk.1 hEq.symm
    exact ih (fun kp hkp => hids kp (List.mem_cons_of_mem _ hkp)) hnk.2 _
      (finishPEdge_preserves_unreg o st hd.2 id hq h)

theorem foldFinish_preserves_reg (o : MakeNetOptions)
    (l : List (Ident × PEdge)) (id : Ident) (a b : Nat)
    (hids : ∀ kp ∈ l, (kp : Ident × PEdge).2.id = kp.1)
    (hnk : id ∉ l.map Prod.fst) :
    ∀ st, RegisteredEdge id a b st →
      RegisteredEdge id a b (l.foldl (fun s ip => finishPEdge o s ip.2) st) := by
  induction l with
  | nil => intro st h; exact h
  | cons hd tl ih =>
    intro st h
    rw [List.foldl_cons]
    simp only [List.map_cons, List.mem_cons] at hnk
    push_neg at hnk
    have hq : hd.2.id ≠ id := by
      rw [hids hd (List.mem_cons_self _ _)]
      exact fun hEq => hnk.1 hEq.symm
    exact ih (fun kp hkp => hids kp (List.mem_cons_of_mem _ hkp)) hnk.2 _
      (finishPEdge_preserves_reg o st hd.2 id a b hq h)

/-- The end-of-stream pass, specified for one buffered partial edge: a
partial still missing an endpoint is never registered and contributes a
`NODE_NOT_FOUND` error (or `BAD_ID` when its id is falsy); a complete partial
with truthy id is registered with exactly the buffered endpoints. -/
theorem finishAgg_spec (o : MakeNetOptions) (id : Ident) (p : PEdge)
    (l : List (Ident × PEdge))
    (hsup : o.suppressErrors = [])
    (hids : ∀ kp ∈ l, (kp : Ident × PEdge).2.id = kp.1)
    (hnd : (l.map Prod.fst).Nodup)
    (hmem : (id, p) ∈ l) :
    ∀ st, UnregisteredId id st →
    ((p.inN = none ∨ p.outN = none) →
      UnregisteredId id (l.foldl (fun s ip => finishPEdge o s ip.2) st)
      ∧ (p.id.truthy = true →
          ErrType.NODE_NOT_FOUND ∈ (l.foldl (fun s ip => finishPEdge o s ip.2) st).errors)
      ∧ (p.id.truthy = false →
          ErrType.BAD_ID ∈ (l.foldl (fun s ip => finishPEdge o s ip.2) st).errors))
    ∧ (∀ a b, p.inN = some a → p.outN = some b → p.id.truthy = true →
        RegisteredEdge id a b (l.foldl (fun s ip => finishPEdge o s ip.2) st)) := by
  induction l with
  | nil => cases hmem
  | cons hd tl ih =>
    intro st hpre
    rcases List.mem_cons.mp hmem with heq | hmem'
    · subst heq
      have hidp : p.id = id := hids (id, p) (List.mem_cons_self _ _)
      simp only [List.map_cons, List.nodup_cons] at hnd
      have hids' : ∀ kp ∈ tl, (kp : Ident × PEdge).2.id = kp.1 :=
        fun kp hkp => hids kp (List.mem_cons_of_mem _ hkp)
      rw [List.foldl_cons]
      constructor
      · intro hmiss
        obtain ⟨e1, e2, e3⟩ := finishPEdge_error_branch_state o st p hmiss
        have hstep : UnregisteredId id (finishPEdge o st p) := by
          refine ⟨by rw [e2]; exact hpre.1, ?_⟩
          intro e he
          rw [e1] at he
          rw [e3]
          exact hpre.2 e he
        have herr := finishPEdge_adds_error o st p hsup hmiss
        refine ⟨foldFinish_preserves_unreg o tl id hids' hnd.1 _ hstep, ?_, ?_⟩
        · intro htr
          exact foldFinish_errors_mono o tl _ _ (herr.1 htr)
        · intro htr
          exact foldFinish_errors_mono o tl _ _ (herr.2 htr)
      · intro a b hin hout htr
        have hreg : RegisteredEdge p.id a b (finishPEdge o st p) :=
          finishPEdge_registers o st p a b htr hin hout
        rw [hidp] at hreg
        exact foldFinish_preserves_reg o tl id a b hids' hnd.1 _ hreg
    · simp only [List.map_cons, List.nodup_cons] at hnd
      have hkid : id ∈ tl.map Prod.fst :=
        List.mem_map_of_mem Prod.fst hmem'
      have hq : hd.2.id ≠ id := by
        rw [hids hd (List.mem_cons_self _ _)]
        exact fun hEq => hnd.1 (hEq ▸ hkid)
      have hids' : ∀ kp ∈ tl, (kp : Ident × PEdge).2.id = kp.1 :=
        fun kp hkp => hids kp (List.mem_cons_of_mem _ hkp)
      rw [List.foldl_cons]
      exact ih hids' hnd.2 hmem' _ (finishPEdge_preserves_unreg o st hd.2 id hq hpre)

theorem foldAgg_id_inv (o : MakeNetOptions) (rows : List EdgeRow)
    (stp : MNState × List (Ident × PEdge))
    (h1 : ∀ kp ∈ stp.2, (kp : Ident × PEdge).2.id = kp.1)
    (h2 : (stp.2.map Prod.fst).Nodup) :
    (∀ kp ∈ (rows.foldl (edgeRowStepAgg o) stp).2, (kp : Ident × PEdge).2.id = kp.1)
    ∧ ((rows.foldl (edgeRowStepAgg o) stp).2.map Prod.fst).Nodup := by
  induction rows generalizing stp with
  | nil => exact ⟨h1, h2⟩
  | cons row t ih =>
    rw [List.foldl_cons]
    rcases edgeRowStepAgg_id_inv o stp row h1 h2 with ⟨g1, g2⟩
    exact ih _ g1 g2

theorem setAdd_mem {α : Type} [DecidableEq α] (s : List α) (y x : α) :
    x ∈ setAdd s y ↔ x ∈ s ∨ x = y := by
  unfold setAdd
  split
  · constructor
    · exact fun h => Or.inl h
    · rintro (h | rfl) <;> assumption
  · simp

theorem foldl_setAdd_mem {α : Type} [DecidableEq α] (p : α → Prop)
    [DecidablePred p] (l : List α) (init : List α) (x : α) :
    x ∈ l.foldl (fun s r => if p r then setAdd s r else s) init ↔
      x ∈ init ∨ (x ∈ l ∧ p x) := by
  induction l generalizing init with
  | nil => simp
  | cons a t ih =>
    simp only [List.foldl_cons]
    rw [ih]
    by_cases h : p a
    · simp only [if_pos h]
      rw [setAdd_mem]
      constructor
      · rintro ((hx | rfl) | hx)
        · exact Or.inl hx
        · exact Or.inr ⟨List.mem_cons_self _ _, h⟩
        · exact Or.inr ⟨List.mem_cons_of_mem _ hx.1, hx.2⟩
      · rintro (hx | ⟨hmem, hp⟩)
        · exact Or.inl (Or.inl hx)
        · rcases List.mem_cons.mp hmem with rfl | hmem
          · exact Or.inl (Or.inr rfl)
          · exact Or.inr ⟨hmem, hp⟩
    · simp only [if_neg h]
      constructor
      · rintro (hx | hx)
        · exact Or.inl hx
        · exact Or.inr ⟨List.mem_cons_of_mem _ hx.1, hx.2⟩
      · rintro (hx | ⟨hmem, hp⟩)
        · exact Or.inl hx
        · rcases List.mem_cons.mp hmem with rfl | hmem
          · exact absurd hp h
          · exact Or.inr ⟨hmem, hp⟩

/-! ## Claim theorems -/

/-- C5 (counterexample): `branchThresholdNodes` with `min = max = 1` on a
network containing a single node of total degree 0 selects that node, even
though the claim says `min == max` selects exactly the nodes of that one
degree (so the degree-0 node must not be selected). -/
theorem branchThreshold_min_eq_max_selects_degree_zero_node :
    branchThresholdNodes oneNodeWorld oneNodeNet (some 1) (some 1) = [0]
    ∧ (oneNodeWorld.node 0).inE.length + (oneNodeWorld.node 0).outE.length = 0 := by
  decide

/-- C5 (amended): a node is selected by `branchThresholdNodes` iff it is in
the network and its total degree `in.length + out.length` satisfies the
active check: for `min < max` the inclusive range check `min ≤ deg ≤ max`;
for `min ≥ max` (including `min == max`) the selection is the inverted check
`deg ≥ min` or `deg ≤ max` — in particular `min == max` selects every node,
not the nodes of that single degree, and `min` defaults to 0, `max` to
`Number.MAX_SAFE_INTEGER`. -/
theorem branchThresholdNodes_mem (w : World) (net : Network)
    (minO maxO : Option Nat) (r : Nat) :
    r ∈ branchThresholdNodes w net minO maxO ↔
      r ∈ net.nodes ∧
        (if minO.getD 0 < maxO.getD MAX_SAFE_INTEGER then
          minO.getD 0 ≤ (w.node r).inE.length + (w.node r).outE.length
            ∧ (w.node r).inE.length + (w.node r).outE.length
                ≤ maxO.getD MAX_SAFE_INTEGER
         else
          minO.getD 0 ≤ (w.node r).inE.length + (w.node r).outE.length
            ∨ (w.node r).inE.length + (w.node r).outE.length
                ≤ maxO.getD MAX_SAFE_INTEGER) := by
  unfold branchThresholdNodes
  by_cases h : minO.getD 0 < maxO.getD MAX_SAFE_INTEGER
  · simp only [if_pos h]
    rw [foldl_setAdd_mem
      (fun r => minO.getD 0 ≤ (w.node r).inE.length + (w.node r).outE.length
        ∧ (w.node r).inE.length + (w.node r).outE.length ≤ maxO.getD MAX_SAFE_INTEGER)]
    simp only [List.not_mem_nil, false_or]
  · simp only [if_neg h]
    rw [foldl_setAdd_mem
      (fun r => (w.node r).inE.length + (w.node r).outE.length ≥ minO.getD 0
        ∨ (w.node r).inE.length + (w.node r).outE.length ≤ maxO.getD MAX_SAFE_INTEGER)]
    simp only [ge_iff_le, List.not_mem_nil, false_or]

/-- C4 (code evidence): under the CONCAT aggregation strategy a defined new
value does not get appended to a previous list value — the source's list
branch computes the concatenation without returning it and the `switch`
falls through to the NONE case, so the new value replaces the list
(`[1]` then `[2]` gives `[2]`, not `[1, 2]`, both at the `aggregateValue`
level and for a node ingested from two aggregating rows); moreover in the
scalar branch undefined entries of the new list are kept, not stripped. -/
theorem aggregateValue_concat_replaces_list :
    aggregateValue .CONCAT (some (.list [some 1])) (some (.list [some 2]))
      = some (.list [some 2])
    ∧ aggregateValue .CONCAT (some (.num 1)) (some (.list [some 2, none]))
      = some (.list [some 1, some 2, none])
    ∧ ((makeNetwork w0 aggConcatOpts concatRows []).w.node 0).value
        = .list [some 2]
    ∧ (makeNetwork w0 aggConcatOpts concatRows []).net.nodes = [0] := by
  decide

/-- C8 (counterexample): an edge row whose id accessor fails receives the
numeric fallback id 0 (`edgeUID++`); when its endpoints never resolve, the
buffered partial edge is missing both endpoints yet is dropped with a
`BAD_ID` error — not with the `NODE_NOT_FOUND` error the claim promises for
every partial edge still missing an endpoint. -/
theorem makeNetwork_fallback_id_bad_id :
    (edgePhaseAgg aggOpts (nodePhase aggOpts (mnInit w0) []) fallbackIdEdgeRow).2
      = [(.num 0, ⟨.num 0, none, none, some (.num 0), some (.num 0), none⟩)]
    ∧ (makeNetwork w0 aggOpts [] fallbackIdEdgeRow).errors = [.BAD_ID]
    ∧ ErrType.NODE_NOT_FOUND ∉ (makeNetwork w0 aggOpts [] fallbackIdEdgeRow).errors
    ∧ (makeNetwork w0 aggOpts [] fallbackIdEdgeRow).net.edges = [] := by
  decide

/-- C8 (amended): in aggregating ingestion (no suppressed error categories),
edge rows sharing one id are buffered as one partial edge, merging endpoint
references as they resolve, until the edge source is exhausted; after all
rows are consumed, a partial edge still missing either endpoint is never
registered (its id is absent from `edgeMap` and from the edge list) and is
reported as a `NODE_NOT_FOUND` error — unless its id is falsy (the numeric
fallback id 0), in which case a `BAD_ID` error is reported instead — while a
complete partial edge with truthy id is registered as an edge connecting
exactly the two resolved endpoints. -/
theorem makeNetwork_partial_edges (w : World) (o : MakeNetOptions)
    (nodeRows : List NodeRow) (edgeRows : List EdgeRow)
    (hagg : o.aggregateResults = true) (hsup : o.suppressErrors = [])
    (id : Ident) (p : PEdge)
    (hmem : (id, p) ∈ (edgePhaseAgg o (nodePhase o (mnInit w) nodeRows) edgeRows).2) :
    ((p.inN = none ∨ p.outN = none) →
      mapGet (makeNetwork w o nodeRows edgeRows).net.edgeMap id = none
      ∧ (∀ e ∈ (makeNetwork w o nodeRows edgeRows).net.edges,
          ((makeNetwork w o nodeRows edgeRows).w.edge e).id ≠ id)
      ∧ (p.id.truthy = true →
          ErrType.NODE_NOT_FOUND ∈ (makeNetwork w o nodeRows edgeRows).errors)
      ∧ (p.id.truthy = false →
          ErrType.BAD_ID ∈ (makeNetwork w o nodeRows edgeRows).errors))
    ∧ (∀ a b, p.inN = some a → p.outN = some b → p.id.truthy = true →
        ∃ r, mapGet (makeNetwork w o nodeRows edgeRows).net.edgeMap id = some r
          ∧ r ∈ (makeNetwork w o nodeRows edgeRows).net.edges
          ∧ ((makeNetwork w o nodeRows edgeRows).w.edge r).inN = a
          ∧ ((makeNetwork w o nodeRows edgeRows).w.edge r).outN = b) := by
  have hinv := foldAgg_id_inv o edgeRows (nodePhase o (mnInit w) nodeRows, [])
    (by intro kp hkp; cases hkp) (by simp)
  have hpre : UnregisteredId id
      (edgePhaseAgg o (nodePhase o (mnInit w) nodeRows) edgeRows).1 := by
    obtain ⟨u, hu⟩ := foldAgg_fst o edgeRows (nodePhase o (mnInit w) nodeRows, [])
    unfold edgePhaseAgg
    rw [hu]
    obtain ⟨he, hm⟩ := nodePhase_edges o nodeRows (mnInit w)
    constructor
    · show mapGet (nodePhase o (mnInit w) nodeRows).edgeMap id = none
      rw [hm]
      rfl
    · intro e he'
      rw [show ({ nodePhase o (mnInit w) nodeRows with edgeUID := u } : MNState).edges
          = (nodePhase o (mnInit w) nodeRows).edges from rfl, he] at he'
      cases he'
  have hspec := finishAgg_spec o id p
    (edgePhaseAgg o (nodePhase o (mnInit w) nodeRows) edgeRows).2 hsup
    (by unfold edgePhaseAgg; exact hinv.1)
    (by unfold edgePhaseAgg; exact hinv.2)
    hmem
    (edgePhaseAgg o (nodePhase o (mnInit w) nodeRows) edgeRows).1 hpre
  have hres : makeNetwork w o nodeRows edgeRows
      = { w := (finishAgg o (edgePhaseAgg o (nodePhase o (mnInit w) nodeRows) edgeRows)).w
          net :=
            { nodes := (finishAgg o (edgePhaseAgg o (nodePhase o (mnInit w) nodeRows) edgeRows)).nodes
              edges := (finishAgg o (edgePhaseAgg o (nodePhase o (mnInit w) nodeRows) edgeRows)).edges
              nodeMap := (finishAgg o (edgePhaseAgg o (nodePhase o (mnInit w) nodeRows) edgeRows)).nodeMap
              edgeMap := (finishAgg o (edgePhaseAgg o (nodePhase o (mnInit w) nodeRows) edgeRows)).edgeMap
              inToOutMap := (finishAgg o (edgePhaseAgg o (nodePhase o (mnInit w) nodeRows) edgeRows)).inToOutMap }
          errors := (finishAgg o (edgePhaseAgg o (nodePhase o (mnInit w) nodeRows) edgeRows)).errors } := by
    unfold makeNetwork
    rw [hagg]
    simp
  rw [hres]
  unfold finishAgg at hspec ⊢
  constructor
  · intro hmiss
    obtain ⟨⟨g1, g2⟩, g3, g4⟩ := hspec.1 hmiss
    exact ⟨g1, fun e he => (g2 e he).2, g3, g4⟩
  · intro a b hin hout htr
    obtain ⟨r, g1, g2, g3, g4, g5⟩ := hspec.2 a b hin hout htr
    exact ⟨r, g1, g2, g4, g5⟩

/-- C8 (witness): the spec's scenario 5 — edge id 5 arrives first with only
its source endpoint and later with only its target endpoint, and merges into
one registered edge connecting node 1 to node 2; edge id 6's target never
resolves, so id 6 is dropped and a `NODE_NOT_FOUND` error is reported. -/
theorem makeNetwork_partial_edges_witness :
    (∃ r, mapGet (makeNetwork w0 aggOpts scen5NodeRows scen5EdgeRows).net.edgeMap
            (.num 5) = some r
        ∧ r ∈ (makeNetwork w0 aggOpts scen5NodeRows scen5EdgeRows).net.edges
        ∧ ((makeNetwork w0 aggOpts scen5NodeRows scen5EdgeRows).w.edge r).inN = 0
        ∧ ((makeNetwork w0 aggOpts scen5NodeRows scen5EdgeRows).w.edge r).outN = 1)
    ∧ mapGet (makeNetwork w0 aggOpts scen5NodeRows scen5EdgeRows).net.edgeMap
        (.num 6) = none
    ∧ ErrType.NODE_NOT_FOUND
        ∈ (makeNetwork w0 aggOpts scen5NodeRows scen5EdgeRows).errors := by
  refine ⟨(makeNetwork_partial_edges w0 aggOpts scen5NodeRows scen5EdgeRows rfl rfl
      (.num 5) ⟨.num 5, some 0, some 1, some (.num 0), some (.num 0), none⟩
      (by decide)).2 0 1 rfl rfl rfl, ?_, ?_⟩
  · exact ((makeNetwork_partial_edges w0 aggOpts scen5NodeRows scen5EdgeRows rfl rfl
      (.num 6) ⟨.num 6, some 0, none, some (.num 0), some (.num 0), none⟩
      (by decide)).1 (Or.inr rfl)).1
  · exact (((makeNetwork_partial_edges w0 aggOpts scen5NodeRows scen5EdgeRows rfl rfl
      (.num 6) ⟨.num 6, some 0, none, some (.num 0), some (.num 0), none⟩
      (by decide)).1 (Or.inr rfl)).2.2).1 rfl

/-- C2 (code evidence): with `maxDepth = 2` on the chain 0→1→2→3, spreading
from node 0 invokes the results callback with waves of depth 0, 1, 2 and 3 —
the depth-3 wave contains node 3, three hops from the start — because the
engine checks `maxDepth` only once, after the initial wave. -/
theorem spread_wave_exceeds_maxDepth :
    (spread chain4World { startNodes := [0], maxDepth := some 2 }
        (fun _ => false) 10).emits
      = [⟨0, [0], [], none, none⟩, ⟨1, [1], [0], none, none⟩,
         ⟨2, [2], [1], none, none⟩, ⟨3, [3], [2], none, none⟩]
    ∧ (spread chain4World { startNodes := [0], maxDepth := some 2 }
        (fun _ => false) 10).final.isSome := by
  decide

/-- C9: spreading the 3-node chain A–B–C from A and C simultaneously emits
exactly two waves: the depth-0 wave of the start nodes with no collision,
and a depth-1 wave whose only collision is B, whose path entry is the
two-parent list [C, A] (one parent per discovering wavefront, containing
both A and C); the run then resolves. -/
theorem spread_chain3_single_collision :
    (spread chain3World { startNodes := [0, 2], keepPath := true }
        (fun _ => false) 10).emits
      = [⟨0, [0, 2], [], none, some []⟩,
         ⟨1, [1], [1, 0], some [1], some [(1, Sum.inr [2, 0])]⟩]
    ∧ (spread chain3World { startNodes := [0, 2], keepPath := true }
        (fun _ => false) 10).final.isSome := by
  decide

/-- C10: `addNode` never mutates the caller's input array: the array passed
in is copied into a fresh array by `makeList` before processing, and the
loop's appends of transitively discovered endpoint nodes go to that working
schedule only, so the array behind the caller's reference has the same
contents (hence the same length) after the call as before it, for any fuel,
network, accumulators and flags. -/
theorem addNode_preserves_caller_array (w : World) (net : Network)
    (arrs : ArrStore) (r : Nat) (hr : r < arrs.length)
    (addedNodes addedEdges : Option (List Nat)) (pc ie : Bool) (fuel : Nat) :
    arrGet (addNode w net arrs (.arr r) addedNodes addedEdges pc ie fuel).arrs r
      = arrGet arrs r := by
  have hsched : (anInit w net (makeListNodes arrs (.arr r)) addedNodes
      addedEdges).schedRef = arrs.length := rfl
  have harrs : (anInit w net (makeListNodes arrs (.arr r)) addedNodes
      addedEdges).arrs = arrs ++ [arrGet arrs r] := rfl
  obtain ⟨h1, h2⟩ := addNodeLoop_sched_preserve ie fuel 0
    (anInit w net (makeListNodes arrs (.arr r)) addedNodes addedEdges)
  have hne : r ≠ (anInit w net (makeListNodes arrs (.arr r)) addedNodes
      addedEdges).schedRef := by
    rw [hsched]
    exact Nat.ne_of_lt hr
  have key := h2 r hne
  rw [harrs] at key
  unfold addNode
  dsimp only
  split
  · rw [key]
    exact arrGet_append_lt arrs _ r hr
  · rw [key]
    exact arrGet_append_lt arrs _ r hr

/-- C10 (witness): a concrete instance — adding node 0 of `linkedPairWorld`
(whose out edge drags in node 1) from a caller array `[0]` leaves the
caller's array equal to `[0]` afterwards. -/
theorem addNode_preserves_caller_array_witness :
    (0 : Nat) < ([[0]] : ArrStore).length
    ∧ arrGet (addNode linkedPairWorld emptyNet [[0]] (.arr 0) none none
        false false 10).arrs 0 = arrGet [[0]] 0
    ∧ (addNode linkedPairWorld emptyNet [[0]] (.arr 0) none none
        false false 10).net.nodes = [0, 1] := by
  refine ⟨by decide, addNode_preserves_caller_array linkedPairWorld emptyNet
    [[0]] 0 (by decide) none none false false 10, by decide⟩

/-- C3 (code evidence): on a network with a single edge (reference 0),
passing that edge twice to one `removeEdge` batch tears the edge down but
reports the second occurrence as an error, and the returned set of removed
edges is empty — the source never adds a removed edge to `removedEdges`, so
a repeat inside the same batch is not recognized as already handled and no
removed edge is ever reported back. -/
theorem removeEdge_batch_repeat_errors :
    (SrcData.removeEdge SrcData.pairWorld SrcData.pairNet [0, 0] none).edges = []
    ∧ (SrcData.removeEdge SrcData.pairWorld SrcData.pairNet [0, 0] none).errors
        = some [0]
    ∧ (SrcData.removeEdge SrcData.pairWorld SrcData.pairNet [0, 0] none).net.edges = []
    ∧ (SrcData.removeEdge SrcData.pairWorld SrcData.pairNet [0, 0] none).net.edgeMap = []
    ∧ ((SrcData.removeEdge SrcData.pairWorld SrcData.pairNet [0, 0] none).w.node 0).outE = []
    ∧ ((SrcData.removeEdge SrcData.pairWorld SrcData.pairNet [0, 0] none).w.node 1).inE = []
    ∧ momGet (SrcData.removeEdge SrcData.pairWorld SrcData.pairNet [0, 0] none).net.atobMap 0 1
        = none := by
  decide

/-! ### fragmentNetwork lemmas (single whole-network partition) -/

/-- One iteration of the fragment `in`-edge loop on an internal edge of the
single whole-network partition, plus the preservation of the clone's `out`
list. -/
theorem fragInEdgeStep_spec (w0 : World) (net : Network) (nc : Nat)
    (fs : FragState) (out : Network) (x : Nat)
    (vn : ValidNet w0 net) (hx : x ∈ net.edges)
    (inv : FragCore w0 net fs out)
    (hnc1 : w0.nodeHeap.length ≤ nc) (hnc2 : nc < fs.w.nodeHeap.length) :
    EdgeLoopDelta w0 net nc fs out [x]
      (fragInEdgeStep [net.nodes] 0 net.nodes nc (fs, out) x).1
      (fragInEdgeStep [net.nodes] 0 net.nodes nc (fs, out) x).2
    ∧ (((fragInEdgeStep [net.nodes] 0 net.nodes nc (fs, out) x).1.w.node
        nc).outE = (fs.w.node nc).outE) := by
  have hxlt : x < w0.edgeHeap.length := vn.edgesLt x hx
  have hxlt2 : x < fs.w.edgeHeap.length := lt_of_lt_of_le hxlt inv.elen
  have hex : fs.w.edge x = w0.edge x := inv.efix x hxlt
  have hIn : setHas net.nodes (fs.w.edge x).inN = true := by
    unfold setHas
    rw [hex]
    exact decide_eq_true (vn.endIn x hx)
  have hOut : setHas net.nodes (fs.w.edge x).outN = true := by
    unfold setHas
    rw [hex]
    exact decide_eq_true (vn.endOut x hx)
  have hkeys : out.edgeMap.map Prod.fst
      = out.edges.map (fun ec => (fs.w.edge ec).id) := by
    rw [inv.em, List.map_map]
    rfl
  unfold fragInEdgeStep
  simp only [hIn, hOut, Bool.not_true, Bool.or_self, Bool.and_self,
    Bool.false_eq_true, if_false, eq_self_iff_true, if_true]
  split
  case h_1 me hm =>
    -- the edge is already cloned: only the clone's `in` list grows
    have hne : ∀ y, y < w0.nodeHeap.length → nc ≠ y :=
      fun y hy => (Nat.ne_of_lt (lt_of_lt_of_le hy hnc1)).symm
    have hmem : ∃ ec ∈ out.edges, (fs.w.edge ec).id = (fs.w.edge x).id := by
      have h1 := mapGet_mem hm
      rw [inv.em] at h1
      rcases List.mem_map.mp h1 with ⟨ec, hec, heq⟩
      exact ⟨ec, hec, congrArg Prod.fst heq⟩
    refine ⟨⟨?_, rfl, rfl, rfl, ?_, ?_, ?_, ?_⟩, ?_⟩
    · exact ⟨by rw [World.length_setNode]; exact inv.nlen, inv.elen,
        fun r hr => by
          rw [World.node_setNode_ne _ _ _ _ (hne r hr)]
          exact inv.nfix r hr,
        inv.efix, inv.bet, inv.cul, inv.err, inv.em, inv.emNodup,
        inv.edgesGe, inv.edgesData⟩
    · intro i
      constructor
      · intro h
        exact Or.inl h
      · rintro (h | ⟨y, hy, hid⟩)
        · exact h
        · rcases List.mem_singleton.mp hy with rfl
          rcases hmem with ⟨ec, hec, heq⟩
          exact ⟨ec, hec, heq.trans (by rw [hex]; exact hid)⟩
    · intro y
      exact World.node_idmeta_setNode _ _ _ _ rfl rfl
    · intro y hy
      exact World.node_setNode_ne _ _ _ _ (fun hh => hy hh.symm)
    · rw [World.length_setNode]
    · rw [World.node_setNode_self _ _ _ hnc2]
  case h_2 hm =>
    -- first encounter: the edge is cloned and registered
    have hne : ∀ y, y < w0.nodeHeap.length → nc ≠ y :=
      fun y hy => (Nat.ne_of_lt (lt_of_lt_of_le hy hnc1)).symm
    have hnotkey : (fs.w.edge x).id ∉ out.edgeMap.map Prod.fst :=
      mapGet_eq_none.mp hm
    have hnotid : (fs.w.edge x).id ∉ out.edges.map (fun ec => (fs.w.edge ec).id) := by
      rw [← hkeys]
      exact hnotkey
    have hold : ∀ ec ∈ out.edges,
        (fs.w.allocEdge (fs.w.edge x)).1.edge ec = fs.w.edge ec := by
      intro ec hec
      exact World.edge_allocEdge_lt _ _ _ (inv.edgesGe ec hec).2
    have hnew : (fs.w.allocEdge (fs.w.edge x)).1.edge fs.w.edgeHeap.length
        = fs.w.edge x := World.edge_allocEdge_self _ _
    have hnew2 : (fs.w.allocEdge (fs.w.edge x)).1.edge
        (fs.w.allocEdge (fs.w.edge x)).2 = fs.w.edge x := hnew
    refine ⟨⟨⟨?_, ?_, ?_, ?_, inv.bet, inv.cul, inv.err, ?_, ?_, ?_, ?_⟩,
      rfl, rfl, rfl, ?_, ?_, ?_, ?_⟩, ?_⟩
    · dsimp only
      rw [World.length_setNode]
      exact inv.nlen
    · dsimp only
      rw [World.edgeHeap_setNode, World.length_allocEdge]
      exact le_trans inv.elen (Nat.le_succ _)
    · intro r hr
      dsimp only
      rw [World.node_setNode_ne _ _ _ _ (hne r hr)]
      exact inv.nfix r hr
    · intro e he
      dsimp only
      rw [World.edge_setNode,
        World.edge_allocEdge_lt _ _ _ (lt_of_lt_of_le he inv.elen)]
      exact inv.efix e he
    · dsimp only
      have hkey2 : ((fs.w.allocEdge (fs.w.edge x)).1.edge x).id
          = (fs.w.edge x).id := by
        rw [World.edge_allocEdge_lt _ _ _ hxlt2]
      rw [hkey2, mapSet_append_of_not_mem _ hnotkey, inv.em, List.map_append]
      congr 1
      · apply List.map_congr_left
        intro ec hec
        rw [World.edge_setNode, hold ec hec]
      · rw [List.map_singleton, World.edge_setNode, hnew2]
    · dsimp only
      have hmapeq : (out.edges ++ [(fs.w.allocEdge (fs.w.edge x)).2]).map
            (fun ec => (((fs.w.allocEdge (fs.w.edge x)).1.setNode nc
              { (fs.w.allocEdge (fs.w.edge x)).1.node nc with
                inE := ((fs.w.allocEdge (fs.w.edge x)).1.node nc).inE
                  ++ [(fs.w.allocEdge (fs.w.edge x)).2] }).edge ec).id)
          = out.edges.map (fun ec => (fs.w.edge ec).id)
            ++ [(fs.w.edge x).id] := by
        rw [List.map_append]
        congr 1
        · apply List.map_congr_left
          intro ec hec
          rw [World.edge_setNode, hold ec hec]
        · rw [List.map_singleton, World.edge_setNode, hnew2]
      rw [hmapeq]
      refine List.Nodup.append inv.emNodup (List.nodup_singleton _) ?_
      intro a ha hb
      rw [List.mem_singleton] at hb
      subst hb
      exact hnotid ha
    · intro ec hec
      dsimp only at hec ⊢
      rcases List.mem_append.mp hec with h | h
      · refine ⟨(inv.edgesGe ec h).1, ?_⟩
        rw [World.edgeHeap_setNode, World.length_allocEdge]
        exact Nat.lt_succ_of_lt (inv.edgesGe ec h).2
      · rw [List.mem_singleton] at h
        subst h
        refine ⟨inv.elen, ?_⟩
        rw [World.edgeHeap_setNode, World.length_allocEdge]
        exact Nat.lt_succ_self _
    · intro ec hec
      dsimp only at hec ⊢
      rcases List.mem_append.mp hec with h | h
      · obtain ⟨e, he, h1, h2⟩ := inv.edgesData ec h
        refine ⟨e, he, ?_, ?_⟩
        · rw [World.edge_setNode, hold ec h]
          exact h1
        · rw [World.edge_setNode, hold ec h]
          exact h2
      · rw [List.mem_singleton] at h
        subst h
        refine ⟨x, hx, ?_, ?_⟩
        · rw [World.edge_setNode, hnew2, hex]
        · rw [World.edge_setNode, hnew2, hex]
    · dsimp only
      intro i
      constructor
      · rintro ⟨ec, hec, hid⟩
        rcases List.mem_append.mp hec with h | h
        · rw [World.edge_setNode, hold ec h] at hid
          exact Or.inl ⟨ec, h, hid⟩
        · rw [List.mem_singleton] at h
          subst h
          rw [World.edge_setNode, hnew2, hex] at hid
          exact Or.inr ⟨x, List.mem_singleton_self x, hid⟩
      · rintro (⟨ec, hec, hid⟩ | ⟨y, hy, hid⟩)
        · refine ⟨ec, List.mem_append.mpr (Or.inl hec), ?_⟩
          rw [World.edge_setNode, hold ec hec]
          exact hid
        · rw [List.mem_singleton.mp hy] at hid
          refine ⟨(fs.w.allocEdge (fs.w.edge x)).2,
            List.mem_append.mpr (Or.inr (List.mem_singleton_self _)), ?_⟩
          rw [World.edge_setNode, hnew2, hex]
          exact hid
    · dsimp only
      intro y
      exact World.node_idmeta_setNode _ _ _ _ rfl rfl
    · dsimp only
      intro y hy
      rw [World.node_setNode_ne _ _ _ _ (fun hh => hy hh.symm)]
      rfl
    · dsimp only
      rw [World.length_setNode]
      exact Nat.le_refl _
    · dsimp only
      rw [World.node_setNode_self ((fs.w.allocEdge (fs.w.edge x)).1) nc _ hnc2]
      rfl

/-- One iteration of the fragment `out`-edge loop on an internal edge of the
single whole-network partition (the already-cloned branch pushes into the
clone's `in` list — the source's C1 slip — but the registration bookkeeping
is the same). -/
theorem fragOutEdgeStep_spec (w0 : World) (net : Network) (nc : Nat)
    (fs : FragState) (out : Network) (x : Nat)
    (vn : ValidNet w0 net) (hx : x ∈ net.edges)
    (inv : FragCore w0 net fs out)
    (hnc1 : w0.nodeHeap.length ≤ nc) (hnc2 : nc < fs.w.nodeHeap.length) :
    EdgeLoopDelta w0 net nc fs out [x]
      (fragOutEdgeStep [net.nodes] 0 net.nodes nc (fs, out) x).1
      (fragOutEdgeStep [net.nodes] 0 net.nodes nc (fs, out) x).2 := by
  have hxlt : x < w0.edgeHeap.length := vn.edgesLt x hx
  have hxlt2 : x < fs.w.edgeHeap.length := lt_of_lt_of_le hxlt inv.elen
  have hex : fs.w.edge x = w0.edge x := inv.efix x hxlt
  have hIn : setHas net.nodes (fs.w.edge x).inN = true := by
    unfold setHas
    rw [hex]
    exact decide_eq_true (vn.endIn x hx)
  have hOut : setHas net.nodes (fs.w.edge x).outN = true := by
    unfold setHas
    rw [hex]
    exact decide_eq_true (vn.endOut x hx)
  have hkeys : out.edgeMap.map Prod.fst
      = out.edges.map (fun ec => (fs.w.edge ec).id) := by
    rw [inv.em, List.map_map]
    rfl
  unfold fragOutEdgeStep
  simp only [hIn, hOut, Bool.not_true, Bool.or_self, Bool.and_self,
    Bool.false_eq_true, if_false, eq_self_iff_true, if_true]
  split
  case h_1 me hm =>
    -- the edge is already cloned: only the clone's `in` list grows
    have hne : ∀ y, y < w0.nodeHeap.length → nc ≠ y :=
      fun y hy => (Nat.ne_of_lt (lt_of_lt_of_le hy hnc1)).symm
    have hmem : ∃ ec ∈ out.edges, (fs.w.edge ec).id = (fs.w.edge x).id := by
      have h1 := mapGet_mem hm
      rw [inv.em] at h1
      rcases List.mem_map.mp h1 with ⟨ec, hec, heq⟩
      exact ⟨ec, hec, congrArg Prod.fst heq⟩
    refine ⟨?_, rfl, rfl, rfl, ?_, ?_, ?_, ?_⟩
    · exact ⟨by rw [World.length_setNode]; exact inv.nlen, inv.elen,
        fun r hr => by
          rw [World.node_setNode_ne _ _ _ _ (hne r hr)]
          exact inv.nfix r hr,
        inv.efix, inv.bet, inv.cul, inv.err, inv.em, inv.emNodup,
        inv.edgesGe, inv.edgesData⟩
    · intro i
      constructor
      · intro h
        exact Or.inl h
      · rintro (h | ⟨y, hy, hid⟩)
        · exact h
        · rcases List.mem_singleton.mp hy with rfl
          rcases hmem with ⟨ec, hec, heq⟩
          exact ⟨ec, hec, heq.trans (by rw [hex]; exact hid)⟩
    · intro y
      exact World.node_idmeta_setNode _ _ _ _ rfl rfl
    · intro y hy
      exact World.node_setNode_ne _ _ _ _ (fun hh => hy hh.symm)
    · rw [World.length_setNode]
  case h_2 hm =>
    -- first encounter: the edge is cloned and registered
    have hne : ∀ y, y < w0.nodeHeap.length → nc ≠ y :=
      fun y hy => (Nat.ne_of_lt (lt_of_lt_of_le hy hnc1)).symm
    have hnotkey : (fs.w.edge x).id ∉ out.edgeMap.map Prod.fst :=
      mapGet_eq_none.mp hm
    have hnotid : (fs.w.edge x).id ∉ out.edges.map (fun ec => (fs.w.edge ec).id) := by
      rw [← hkeys]
      exact hnotkey
    have hold : ∀ ec ∈ out.edges,
        (fs.w.allocEdge (fs.w.edge x)).1.edge ec = fs.w.edge ec := by
      intro ec hec
      exact World.edge_allocEdge_lt _ _ _ (inv.edgesGe ec hec).2
    have hnew : (fs.w.allocEdge (fs.w.edge x)).1.edge fs.w.edgeHeap.length
        = fs.w.edge x := World.edge_allocEdge_self _ _
    have hnew2 : (fs.w.allocEdge (fs.w.edge x)).1.edge
        (fs.w.allocEdge (fs.w.edge x)).2 = fs.w.edge x := hnew
    refine ⟨⟨?_, ?_, ?_, ?_, inv.bet, inv.cul, inv.err, ?_, ?_, ?_, ?_⟩,
      rfl, rfl, rfl, ?_, ?_, ?_, ?_⟩
    · dsimp only
      rw [World.length_setNode]
      exact inv.nlen
    · dsimp only
      rw [World.edgeHeap_setNode, World.length_allocEdge]
      exact le_trans inv.elen (Nat.le_succ _)
    · intro r hr
      dsimp only
      rw [World.node_setNode_ne _ _ _ _ (hne r hr)]
      exact inv.nfix r hr
    · intro e he
      dsimp only
      rw [World.edge_setNode,
        World.edge_allocEdge_lt _ _ _ (lt_of_lt_of_le he inv.elen)]
      exact inv.efix e he
    · dsimp only
      have hkey2 : ((fs.w.allocEdge (fs.w.edge x)).1.edge x).id
          = (fs.w.edge x).id := by
        rw [World.edge_allocEdge_lt _ _ _ hxlt2]
      rw [hkey2, mapSet_append_of_not_mem _ hnotkey, inv.em, List.map_append]
      congr 1
      · apply List.map_congr_left
        intro ec hec
        rw [World.edge_setNode, hold ec hec]
      · rw [List.map_singleton, World.edge_setNode, hnew2]
    · dsimp only
      have hmapeq : (out.edges ++ [(fs.w.allocEdge (fs.w.edge x)).2]).map
            (fun ec => (((fs.w.allocEdge (fs.w.edge x)).1.setNode nc
              { (fs.w.allocEdge (fs.w.edge x)).1.node nc with
                outE := ((fs.w.allocEdge (fs.w.edge x)).1.node nc).outE
                  ++ [(fs.w.allocEdge (fs.w.edge x)).2] }).edge ec).id)
          = out.edges.map (fun ec => (fs.w.edge ec).id)
            ++ [(fs.w.edge x).id] := by
        rw [List.map_append]
        congr 1
        · apply List.map_congr_left
          intro ec hec
          rw [World.edge_setNode, hold ec hec]
        · rw [List.map_singleton, World.edge_setNode, hnew2]
      rw [hmapeq]
      refine List.Nodup.append inv.emNodup (List.nodup_singleton _) ?_
      intro a ha hb
      rw [List.mem_singleton] at hb
      subst hb
      exact hnotid ha
    · intro ec hec
      dsimp only at hec ⊢
      rcases List.mem_append.mp hec with h | h
      · refine ⟨(inv.edgesGe ec h).1, ?_⟩
        rw [World.edgeHeap_setNode, World.length_allocEdge]
        exact Nat.lt_succ_of_lt (inv.edgesGe ec h).2
      · rw [List.mem_singleton] at h
        subst h
        refine ⟨inv.elen, ?_⟩
        rw [World.edgeHeap_setNode, World.length_allocEdge]
        exact Nat.lt_succ_self _
    · intro ec hec
      dsimp only at hec ⊢
      rcases List.mem_append.mp hec with h | h
      · obtain ⟨e, he, h1, h2⟩ := inv.edgesData ec h
        refine ⟨e, he, ?_, ?_⟩
        · rw [World.edge_setNode, hold ec h]
          exact h1
        · rw [World.edge_setNode, hold ec h]
          exact h2
      · rw [List.mem_singleton] at h
        subst h
        refine ⟨x, hx, ?_, ?_⟩
        · rw [World.edge_setNode, hnew2, hex]
        · rw [World.edge_setNode, hnew2, hex]
    · dsimp only
      intro i
      constructor
      · rintro ⟨ec, hec, hid⟩
        rcases List.mem_append.mp hec with h | h
        · rw [World.edge_setNode, hold ec h] at hid
          exact Or.inl ⟨ec, h, hid⟩
        · rw [List.mem_singleton] at h
          subst h
          rw [World.edge_setNode, hnew2, hex] at hid
          exact Or.inr ⟨x, List.mem_singleton_self x, hid⟩
      · rintro (⟨ec, hec, hid⟩ | ⟨y, hy, hid⟩)
        · refine ⟨ec, List.mem_append.mpr (Or.inl hec), ?_⟩
          rw [World.edge_setNode, hold ec hec]
          exact hid
        · rw [List.mem_singleton.mp hy] at hid
          refine ⟨(fs.w.allocEdge (fs.w.edge x)).2,
            List.mem_append.mpr (Or.inr (List.mem_singleton_self _)), ?_⟩
          rw [World.edge_setNode, hnew2, hex]
          exact hid
    · dsimp only
      intro y
      exact World.node_idmeta_setNode _ _ _ _ rfl rfl
    · dsimp only
      intro y hy
      rw [World.node_setNode_ne _ _ _ _ (fun hh => hy hh.symm)]
      rfl
    · dsimp only
      rw [World.length_setNode]
      exact Nat.le_refl _


/-- Edge-loop deltas compose. -/
theorem EdgeLoopDelta.comp {w0 : World} {net : Network} {nc : Nat}
    {fs : FragState} {out : Network} {L1 : List Nat} {fs1 : FragState}
    {out1 : Network} {L2 : List Nat} {fs2 : FragState} {out2 : Network}
    (d1 : EdgeLoopDelta w0 net nc fs out L1 fs1 out1)
    (d2 : EdgeLoopDelta w0 net nc fs1 out1 L2 fs2 out2) :
    EdgeLoopDelta w0 net nc fs out (L1 ++ L2) fs2 out2 := by
  refine ⟨d2.core, d2.nodes.trans d1.nodes, d2.nodeMap.trans d1.nodeMap,
    d2.iom.trans d1.iom, ?_, ?_, ?_, le_trans d1.nlen d2.nlen⟩
  · intro i
    rw [d2.keys i, d1.keys i]
    constructor
    · rintro ((h | ⟨x, hx, hid⟩) | ⟨x, hx, hid⟩)
      · exact Or.inl h
      · exact Or.inr ⟨x, List.mem_append.mpr (Or.inl hx), hid⟩
      · exact Or.inr ⟨x, List.mem_append.mpr (Or.inr hx), hid⟩
    · rintro (h | ⟨x, hx, hid⟩)
      · exact Or.inl (Or.inl h)
      · rcases List.mem_append.mp hx with h2 | h2
        · exact Or.inl (Or.inr ⟨x, h2, hid⟩)
        · exact Or.inr ⟨x, h2, hid⟩
  · intro y
    exact ⟨(d2.nproj y).1.trans (d1.nproj y).1,
      (d2.nproj y).2.trans (d1.nproj y).2⟩
  · intro y hy
    exact (d2.nother y hy).trans (d1.nother y hy)

/-- The empty edge-loop delta. -/
theorem EdgeLoopDelta.nil {w0 : World} {net : Network} {nc : Nat}
    {fs : FragState} {out : Network} (inv : FragCore w0 net fs out) :
    EdgeLoopDelta w0 net nc fs out [] fs out :=
  ⟨inv, rfl, rfl, rfl, fun i => by simp, fun _ => ⟨rfl, rfl⟩,
   fun _ _ => rfl, Nat.le_refl _⟩

/-- The whole fragment `in`-edge loop of one clone satisfies the edge-loop
delta and leaves the clone's `out` list alone. -/
theorem fragInFold_spec (w0 : World) (net : Network) (vn : ValidNet w0 net)
    (nc : Nat) :
    ∀ (L : List Nat) (fs : FragState) (out : Network),
    (∀ x ∈ L, x ∈ net.edges) → FragCore w0 net fs out →
    w0.nodeHeap.length ≤ nc → nc < fs.w.nodeHeap.length →
    EdgeLoopDelta w0 net nc fs out L
      (L.foldl (fragInEdgeStep [net.nodes] 0 net.nodes nc) (fs, out)).1
      (L.foldl (fragInEdgeStep [net.nodes] 0 net.nodes nc) (fs, out)).2
    ∧ ((L.foldl (fragInEdgeStep [net.nodes] 0 net.nodes nc)
        (fs, out)).1.w.node nc).outE = (fs.w.node nc).outE := by
  intro L
  induction L with
  | nil =>
    intro fs out hL inv h1 h2
    exact ⟨EdgeLoopDelta.nil inv, rfl⟩
  | cons x t ih =>
    intro fs out hL inv h1 h2
    rw [List.foldl_cons]
    obtain ⟨d1, ho1⟩ := fragInEdgeStep_spec w0 net nc fs out x vn
      (hL x (List.mem_cons_self x t)) inv h1 h2
    obtain ⟨d2, ho2⟩ := ih
      (fragInEdgeStep [net.nodes] 0 net.nodes nc (fs, out) x).1
      (fragInEdgeStep [net.nodes] 0 net.nodes nc (fs, out) x).2
      (fun y hy => hL y (List.mem_cons_of_mem _ hy)) d1.core h1
      (lt_of_lt_of_le h2 d1.nlen)
    exact ⟨d1.comp d2, ho2.trans ho1⟩

/-- The whole fragment `out`-edge loop of one clone satisfies the edge-loop
delta. -/
theorem fragOutFold_spec (w0 : World) (net : Network) (vn : ValidNet w0 net)
    (nc : Nat) :
    ∀ (L : List Nat) (fs : FragState) (out : Network),
    (∀ x ∈ L, x ∈ net.edges) → FragCore w0 net fs out →
    w0.nodeHeap.length ≤ nc → nc < fs.w.nodeHeap.length →
    EdgeLoopDelta w0 net nc fs out L
      (L.foldl (fragOutEdgeStep [net.nodes] 0 net.nodes nc) (fs, out)).1
      (L.foldl (fragOutEdgeStep [net.nodes] 0 net.nodes nc) (fs, out)).2 := by
  intro L
  induction L with
  | nil =>
    intro fs out hL inv h1 h2
    exact EdgeLoopDelta.nil inv
  | cons x t ih =>
    intro fs out hL inv h1 h2
    rw [List.foldl_cons]
    have d1 := fragOutEdgeStep_spec w0 net nc fs out x vn
      (hL x (List.mem_cons_self x t)) inv h1 h2
    have d2 := ih
      (fragOutEdgeStep [net.nodes] 0 net.nodes nc (fs, out) x).1
      (fragOutEdgeStep [net.nodes] 0 net.nodes nc (fs, out) x).2
      (fun y hy => hL y (List.mem_cons_of_mem _ hy)) d1.core h1
      (lt_of_lt_of_le h2 d1.nlen)
    exact d1.comp d2

/-- The core invariant survives cloning a node (allocation plus an update of
the fresh clone) and arbitrary changes to the node containers. -/
theorem FragCore.cloneStep {w0 : World} {net : Network} {fs : FragState}
    {out : Network} (inv : FragCore w0 net fs out) (o o2 : NodeObj)
    (nodes2 : List Nat) (nodeMap2 : List (Ident × Nat))
    (iom2 : List (Nat × List (Nat × Nat))) :
    FragCore w0 net
      { w := (fs.w.allocNode o).1.setNode (fs.w.allocNode o).2 o2
        between := fs.between, culled := fs.culled, errEdges := fs.errEdges }
      { nodes := nodes2, edges := out.edges, nodeMap := nodeMap2
        edgeMap := out.edgeMap, inToOutMap := iom2 } := by
  refine ⟨?_, inv.elen, ?_, inv.efix, inv.bet, inv.cul, inv.err, inv.em,
    inv.emNodup, inv.edgesGe, inv.edgesData⟩
  · dsimp only
    rw [World.length_setNode, World.length_allocNode]
    exact le_trans inv.nlen (Nat.le_succ _)
  · intro r hr
    dsimp only
    have hne : (fs.w.allocNode o).2 ≠ r :=
      (Nat.ne_of_lt (lt_of_lt_of_le hr inv.nlen)).symm
    rw [World.node_setNode_ne _ _ _ _ hne,
      World.node_allocNode_lt _ _ _ (lt_of_lt_of_le hr inv.nlen)]
    exact inv.nfix r hr

/-- The core invariant survives an in-place update of any node at or beyond
the original heap boundary. -/
theorem FragCore.setAt {w0 : World} {net : Network} {fs : FragState}
    {out : Network} (inv : FragCore w0 net fs out) (nc : Nat)
    (h : w0.nodeHeap.length ≤ nc) (o : NodeObj) :
    FragCore w0 net
      { w := fs.w.setNode nc o
        between := fs.between, culled := fs.culled, errEdges := fs.errEdges }
      out := by
  refine ⟨?_, inv.elen, ?_, inv.efix, inv.bet, inv.cul, inv.err, inv.em,
    inv.emNodup, inv.edgesGe, inv.edgesData⟩
  · dsimp only
    rw [World.length_setNode]
    exact inv.nlen
  · intro r hr
    dsimp only
    rw [World.node_setNode_ne _ _ _ _ (Nat.ne_of_lt (lt_of_lt_of_le hr h)).symm]
    exact inv.nfix r hr

/-- Processing one node of the single whole-network partition: the node is
cloned and registered, its edge lists are rebuilt, and the loop invariant
advances by that node. -/
theorem fragNodeStep_spec (w0 : World) (net : Network) (vn : ValidNet w0 net)
    (ns : List Nat) (fs : FragState) (out : Network) (r : Nat)
    (hr : r ∈ net.nodes)
    (hfresh : (w0.node r).id ∉ ns.map (fun x => (w0.node x).id))
    (inv : FragInv w0 net ns fs out) :
    FragInv w0 net (ns ++ [r])
      (fragNodeStep [net.nodes] 0 net.nodes (fs, out) r).1
      (fragNodeStep [net.nodes] 0 net.nodes (fs, out) r).2 := by
  have hrlt : r < w0.nodeHeap.length := vn.nodesLt r hr
  have hnode : fs.w.node r = w0.node r := inv.core.nfix r hrlt
  have hcl : (fs.w.allocNode (fs.w.node r)).1.node
      (fs.w.allocNode (fs.w.node r)).2 = w0.node r := by
    show (fs.w.allocNode (fs.w.node r)).1.node fs.w.nodeHeap.length = _
    rw [World.node_allocNode_self, hnode]
  have hkf : (w0.node r).id ∉ out.nodeMap.map Prod.fst := by
    rw [inv.nmKeys]
    exact hfresh
  have hhas : mapHas out.nodeMap ((fs.w.allocNode (fs.w.node r)).1.node
      (fs.w.allocNode (fs.w.node r)).2).id = false := by
    rw [hcl]
    unfold mapHas
    rw [mapGet_eq_none.mpr hkf]
    rfl
  unfold fragNodeStep
  simp only [hhas, Bool.false_eq_true, if_false]
  rw [hcl]
  set nc := (fs.w.allocNode (fs.w.node r)).2 with hncdef
  set W1 := (fs.w.allocNode (fs.w.node r)).1 with hW1def
  set o2 : NodeObj := { id := (w0.node r).id, inE := [],
                        outE := (w0.node r).outE, value := (w0.node r).value,
                        meta := (w0.node r).meta } with ho2def
  set fs1 : FragState := { w := W1.setNode nc o2, between := fs.between,
                           culled := fs.culled,
                           errEdges := fs.errEdges } with hfs1def
  set out1 : Network := { nodes := out.nodes ++ [nc], edges := out.edges,
                          nodeMap := mapSet out.nodeMap (w0.node r).id nc,
                          edgeMap := out.edgeMap,
                          inToOutMap := out.inToOutMap } with hout1def
  have hnc1 : w0.nodeHeap.length ≤ nc := inv.core.nlen
  have core1 : FragCore w0 net fs1 out1 :=
    inv.core.cloneStep (fs.w.node r) o2 (out.nodes ++ [nc])
      (mapSet out.nodeMap (w0.node r).id nc) out.inToOutMap
  have hnc2a : nc < fs1.w.nodeHeap.length := by
    show nc < (W1.setNode nc o2).nodeHeap.length
    rw [World.length_setNode]
    show nc < (fs.w.allocNode (fs.w.node r)).1.nodeHeap.length
    rw [World.length_allocNode]
    exact Nat.lt_succ_self _
  obtain ⟨d1, ho1⟩ := fragInFold_spec w0 net vn nc ((w0.node r).inE) fs1 out1
    (vn.adjIn r hr) core1 hnc1 hnc2a
  set p1 := List.foldl (fragInEdgeStep [net.nodes] 0 net.nodes nc) (fs1, out1)
    ((w0.node r).inE) with hp1def
  set q2 : NodeObj := { id := (p1.1.w.node nc).id,
                        inE := (p1.1.w.node nc).inE, outE := [],
                        value := (p1.1.w.node nc).value,
                        meta := (p1.1.w.node nc).meta } with hq2def
  set fs2 : FragState := { w := p1.1.w.setNode nc q2, between := p1.1.between,
                           culled := p1.1.culled,
                           errEdges := p1.1.errEdges } with hfs2def
  have core2 : FragCore w0 net fs2 p1.2 := d1.core.setAt nc hnc1 q2
  have hself1 : fs1.w.node nc = o2 := by
    show (W1.setNode nc o2).node nc = o2
    refine World.node_setNode_self _ _ _ ?_
    show nc < (fs.w.allocNode (fs.w.node r)).1.nodeHeap.length
    rw [World.length_allocNode]
    exact Nat.lt_succ_self _
  have houtE : (p1.1.w.node nc).outE = (w0.node r).outE := by
    rw [ho1, hself1]
  have hnc2b : nc < fs2.w.nodeHeap.length := by
    show nc < (p1.1.w.setNode nc q2).nodeHeap.length
    rw [World.length_setNode]
    exact lt_of_lt_of_le hnc2a d1.nlen
  have d2 := fragOutFold_spec w0 net vn nc ((p1.1.w.node nc).outE) fs2 p1.2
    (by rw [houtE]; exact vn.adjOut r hr) core2 hnc1 hnc2b
  set p2 := List.foldl (fragOutEdgeStep [net.nodes] 0 net.nodes nc) (fs2, p1.2)
    ((p1.1.w.node nc).outE) with hp2def
  -- projection chains from the final world back to the starting one
  have hproj : ∀ y, y < fs.w.nodeHeap.length →
      (p2.1.w.node y).id = (fs.w.node y).id
      ∧ (p2.1.w.node y).meta = (fs.w.node y).meta := by
    intro y hy
    have a1 := d2.nproj y
    have a2 := World.node_idmeta_setNode p1.1.w nc y q2 rfl rfl
    have a3 := d1.nproj y
    have a4 := World.node_idmeta_setNode W1 nc y o2 (by rw [hcl]) (by rw [hcl])
    have a5 : W1.node y = fs.w.node y :=
      World.node_allocNode_lt fs.w (fs.w.node r) y hy
    exact ⟨a1.1.trans (a2.1.trans (a3.1.trans (a4.1.trans
        (congrArg NodeObj.id a5)))),
      a1.2.trans (a2.2.trans (a3.2.trans (a4.2.trans
        (congrArg NodeObj.meta a5))))⟩
  have hncproj : (p2.1.w.node nc).id = (w0.node r).id
      ∧ (p2.1.w.node nc).meta = (w0.node r).meta := by
    have a1 := d2.nproj nc
    have a2 := World.node_idmeta_setNode p1.1.w nc nc q2 rfl rfl
    have a3 := d1.nproj nc
    have a4 : (fs1.w.node nc).id = (w0.node r).id
        ∧ (fs1.w.node nc).meta = (w0.node r).meta := by
      rw [hself1]
      exact ⟨rfl, rfl⟩
    exact ⟨a1.1.trans (a2.1.trans (a3.1.trans a4.1)),
      a1.2.trans (a2.2.trans (a3.2.trans a4.2))⟩
  have l1 : fs.w.nodeHeap.length < fs1.w.nodeHeap.length := by
    show _ < (W1.setNode nc o2).nodeHeap.length
    rw [World.length_setNode]
    show _ < (fs.w.allocNode (fs.w.node r)).1.nodeHeap.length
    rw [World.length_allocNode]
    exact Nat.lt_succ_self _
  have l2 : fs2.w.nodeHeap.length = p1.1.w.nodeHeap.length := by
    show (p1.1.w.setNode nc q2).nodeHeap.length = _
    rw [World.length_setNode]
  have hlen : fs.w.nodeHeap.length < p2.1.w.nodeHeap.length :=
    lt_of_lt_of_le (lt_of_lt_of_le l1 d1.nlen) (l2 ▸ d2.nlen)
  refine ⟨d2.core, ?_, ?_, ?_, ?_, ?_⟩
  · -- nmKeys
    have e1 : p2.2.nodeMap = mapSet out.nodeMap (w0.node r).id nc :=
      d2.nodeMap.trans d1.nodeMap
    rw [e1, mapSet_append_of_not_mem _ hkf, List.map_append, List.map_append,
      inv.nmKeys, List.map_singleton, List.map_singleton]
  · -- nodesData
    have e2 : p2.2.nodes = out.nodes ++ [nc] := d2.nodes.trans d1.nodes
    rw [e2, List.map_append, List.map_append, List.map_singleton,
      List.map_singleton, hncproj.1, hncproj.2]
    congr 1
    refine (List.map_congr_left ?_).trans inv.nodesData
    intro rc hrc
    rw [(hproj rc (inv.nodesGe rc hrc).2).1, (hproj rc (inv.nodesGe rc hrc).2).2]
  · -- nodesGe
    intro rc hrc
    have e2 : p2.2.nodes = out.nodes ++ [nc] := d2.nodes.trans d1.nodes
    rw [e2] at hrc
    rcases List.mem_append.mp hrc with h | h
    · exact ⟨(inv.nodesGe rc h).1, lt_trans (inv.nodesGe rc h).2 hlen⟩
    · rcases List.mem_singleton.mp h with rfl
      exact ⟨hnc1, lt_of_lt_of_le (l2 ▸ lt_of_lt_of_le hnc2a d1.nlen) d2.nlen⟩
  · -- inToOutMap still empty
    exact d2.iom.trans (d1.iom.trans inv.iom)
  · -- keysEnc
    intro i
    have k2 := d2.keys i
    have k1 := d1.keys i
    have k0 : (∃ ec ∈ out1.edges, (fs1.w.edge ec).id = i)
        ↔ ∃ e ∈ net.edges, (w0.edge e).id = i
          ∧ ∃ x ∈ ns, e ∈ (w0.node x).inE ∨ e ∈ (w0.node x).outE :=
      inv.keysEnc i
    rw [houtE] at k2
    constructor
    · intro h
      rcases k2.mp h with hmid | ⟨x, hx, hid⟩
      · rcases k1.mp hmid with hold | ⟨x, hx, hid⟩
        · rcases k0.mp hold with ⟨e, he, hid, x, hxn, hside⟩
          exact ⟨e, he, hid, x, List.mem_append.mpr (Or.inl hxn), hside⟩
        · exact ⟨x, vn.adjIn r hr x hx, hid,
            r, List.mem_append.mpr (Or.inr (List.mem_singleton_self r)),
            Or.inl hx⟩
      · exact ⟨x, vn.adjOut r hr x hx, hid,
          r, List.mem_append.mpr (Or.inr (List.mem_singleton_self r)),
          Or.inr hx⟩
    · rintro ⟨e, he, hid, x, hxn, hside⟩
      rcases List.mem_append.mp hxn with h | h
      · exact k2.mpr (Or.inl (k1.mpr (Or.inl (k0.mpr ⟨e, he, hid, x, h, hside⟩))))
      · rcases List.mem_singleton.mp h with rfl
        rcases hside with hside | hside
        · exact k2.mpr (Or.inl (k1.mpr (Or.inr ⟨e, hside, hid⟩)))
        · exact k2.mpr (Or.inr ⟨e, hside, hid⟩)

/-- The fragment node loop over any suffix of the single partition carries
the invariant forward. -/
theorem fragFold_inv (w0 : World) (net : Network) (vn : ValidNet w0 net) :
    ∀ (suf pre : List Nat) (fs : FragState) (out : Network),
    net.nodes = pre ++ suf → FragInv w0 net pre fs out →
    FragInv w0 net (pre ++ suf)
      (suf.foldl (fragNodeStep [net.nodes] 0 net.nodes) (fs, out)).1
      (suf.foldl (fragNodeStep [net.nodes] 0 net.nodes) (fs, out)).2 := by
  intro suf
  induction suf with
  | nil =>
    intro pre fs out heq inv
    rw [List.append_nil]
    exact inv
  | cons r t ih =>
    intro pre fs out heq inv
    rw [List.foldl_cons]
    have hr : r ∈ net.nodes := by
      rw [heq]
      exact List.mem_append.mpr (Or.inr (List.mem_cons_self r t))
    have hfresh : (w0.node r).id ∉ pre.map (fun x => (w0.node x).id) := by
      have h1 := vn.nodeIds
      rw [heq, List.map_append] at h1
      intro hmem
      exact (List.nodup_append.mp h1).2.2 hmem
        (by rw [List.map_cons]; exact List.mem_cons_self _ _)
    have step := fragNodeStep_spec w0 net vn pre fs out r hr hfresh inv
    have ih2 := ih (pre ++ [r])
      (fragNodeStep [net.nodes] 0 net.nodes (fs, out) r).1
      (fragNodeStep [net.nodes] 0 net.nodes (fs, out) r).2
      (by rw [List.append_assoc]; exact heq) step
    rw [show pre ++ r :: t = (pre ++ [r]) ++ t from
      (List.append_assoc pre [r] t).symm]
    exact ih2

/-- The invariant holds at the start, over the untouched heap and the empty
fragment. -/
theorem fragInv_init (w0 : World) (net : Network) :
    FragInv w0 net []
      { w := w0, between := [], culled := [], errEdges := [] }
      { nodes := [], edges := [], nodeMap := [], edgeMap := []
        inToOutMap := [] } := by
  refine ⟨⟨Nat.le_refl _, Nat.le_refl _, fun _ _ => rfl, fun _ _ => rfl, rfl,
    rfl, rfl, rfl, List.nodup_nil, ?_, ?_⟩, rfl, rfl, ?_, rfl, ?_⟩
  · intro ec h
    exact absurd h (List.not_mem_nil ec)
  · intro ec h
    exact absurd h (List.not_mem_nil ec)
  · intro rc h
    exact absurd h (List.not_mem_nil rc)
  · intro i
    simp

/-- The relink pass touches only the cloned edges' endpoint fields: the node
heap, every edge's id and meta, the original edge region and all the
containers except the `inToOutMap` are untouched. -/
theorem fragRelink_fold (e0 : Nat) :
    ∀ (L : List Nat) (p : FragState × Network),
    (∀ ec ∈ L, e0 ≤ ec) →
    (L.foldl fragRelinkStep p).1.w.nodeHeap = p.1.w.nodeHeap
    ∧ (∀ y, ((L.foldl fragRelinkStep p).1.w.edge y).id = (p.1.w.edge y).id
        ∧ ((L.foldl fragRelinkStep p).1.w.edge y).meta = (p.1.w.edge y).meta)
    ∧ (∀ y, y < e0 → (L.foldl fragRelinkStep p).1.w.edge y = p.1.w.edge y)
    ∧ (L.foldl fragRelinkStep p).1.w.edgeHeap.length = p.1.w.edgeHeap.length
    ∧ (L.foldl fragRelinkStep p).1.between = p.1.between
    ∧ (L.foldl fragRelinkStep p).1.culled = p.1.culled
    ∧ (L.foldl fragRelinkStep p).1.errEdges = p.1.errEdges
    ∧ (L.foldl fragRelinkStep p).2.nodes = p.2.nodes
    ∧ (L.foldl fragRelinkStep p).2.edges = p.2.edges
    ∧ (L.foldl fragRelinkStep p).2.nodeMap = p.2.nodeMap
    ∧ (L.foldl fragRelinkStep p).2.edgeMap = p.2.edgeMap := by
  intro L
  induction L with
  | nil =>
    intro p hL
    exact ⟨rfl, fun _ => ⟨rfl, rfl⟩, fun _ _ => rfl, rfl, rfl, rfl, rfl, rfl,
      rfl, rfl, rfl⟩
  | cons ec t ih =>
    intro p hL
    rw [List.foldl_cons]
    have stepNode : (fragRelinkStep p ec).1.w.nodeHeap = p.1.w.nodeHeap := rfl
    have stepLen : (fragRelinkStep p ec).1.w.edgeHeap.length
        = p.1.w.edgeHeap.length := by
      unfold fragRelinkStep
      dsimp only
      rw [World.length_setEdge, World.length_setEdge]
    have stepProj : ∀ y, ((fragRelinkStep p ec).1.w.edge y).id
        = (p.1.w.edge y).id
        ∧ ((fragRelinkStep p ec).1.w.edge y).meta = (p.1.w.edge y).meta := by
      intro y
      unfold fragRelinkStep
      dsimp only
      constructor
      · refine ((World.edge_idmeta_setEdge _ ec y _ ?_ ?_).1).trans
          ((World.edge_idmeta_setEdge _ ec y _ ?_ ?_).1) <;> rfl
      · refine ((World.edge_idmeta_setEdge _ ec y _ ?_ ?_).2).trans
          ((World.edge_idmeta_setEdge _ ec y _ ?_ ?_).2) <;> rfl
    have stepFix : ∀ y, y < e0 →
        (fragRelinkStep p ec).1.w.edge y = p.1.w.edge y := by
      intro y hy
      unfold fragRelinkStep
      dsimp only
      have hne : ec ≠ y :=
        (Nat.ne_of_lt (lt_of_lt_of_le hy (hL ec (List.mem_cons_self ec t)))).symm
      rw [World.edge_setEdge_ne _ _ _ _ hne, World.edge_setEdge_ne _ _ _ _ hne]
    obtain ⟨b1, b2, b3, b4, b5, b6, b7, b8, b9, b10, b11⟩ :=
      ih (fragRelinkStep p ec) (fun e' he' => hL e' (List.mem_cons_of_mem _ he'))
    exact ⟨b1.trans stepNode,
      fun y => ⟨(b2 y).1.trans (stepProj y).1, (b2 y).2.trans (stepProj y).2⟩,
      fun y hy => (b3 y hy).trans (stepFix y hy),
      b4.trans stepLen, b5, b6, b7, b8, b9, b10, b11⟩

/-- The remap pass touches only the clones' adjacency lists: the edge heap,
every node's id and meta, the original node region and the node-heap length
are untouched. -/
theorem fragRemap_fold (n0 : Nat) (out : Network) :
    ∀ (L : List Nat) (w : World),
    (∀ nr ∈ L, n0 ≤ nr) →
    (L.foldl (fragRemapStep out) w).edgeHeap = w.edgeHeap
    ∧ (∀ y, ((L.foldl (fragRemapStep out) w).node y).id = (w.node y).id
        ∧ ((L.foldl (fragRemapStep out) w).node y).meta = (w.node y).meta)
    ∧ (∀ y, y < n0 → (L.foldl (fragRemapStep out) w).node y = w.node y)
    ∧ (L.foldl (fragRemapStep out) w).nodeHeap.length = w.nodeHeap.length := by
  intro L
  induction L with
  | nil =>
    intro w hL
    exact ⟨rfl, fun _ => ⟨rfl, rfl⟩, fun _ _ => rfl, rfl⟩
  | cons nr t ih =>
    intro w hL
    rw [List.foldl_cons]
    have stepEdge : (fragRemapStep out w nr).edgeHeap = w.edgeHeap := rfl
    have stepLen : (fragRemapStep out w nr).nodeHeap.length
        = w.nodeHeap.length := by
      unfold fragRemapStep
      dsimp only
      rw [World.length_setNode, World.length_setNode]
    have stepProj : ∀ y, ((fragRemapStep out w nr).node y).id = (w.node y).id
        ∧ ((fragRemapStep out w nr).node y).meta = (w.node y).meta := by
      intro y
      unfold fragRemapStep
      dsimp only
      constructor
      · refine ((World.node_idmeta_setNode _ nr y _ ?_ ?_).1).trans
          ((World.node_idmeta_setNode _ nr y _ ?_ ?_).1) <;> rfl
      · refine ((World.node_idmeta_setNode _ nr y _ ?_ ?_).2).trans
          ((World.node_idmeta_setNode _ nr y _ ?_ ?_).2) <;> rfl
    have stepFix : ∀ y, y < n0 → (fragRemapStep out w nr).node y = w.node y := by
      intro y hy
      unfold fragRemapStep
      dsimp only
      have hne : nr ≠ y :=
        (Nat.ne_of_lt (lt_of_lt_of_le hy (hL nr (List.mem_cons_self nr t)))).symm
      rw [World.node_setNode_ne _ _ _ _ hne, World.node_setNode_ne _ _ _ _ hne]
    obtain ⟨b1, b2, b3, b4⟩ :=
      ih (fragRemapStep out w nr) (fun n' hn' => hL n' (List.mem_cons_of_mem _ hn'))
    exact ⟨b1.trans stepEdge,
      fun y => ⟨(b2 y).1.trans (stepProj y).1, (b2 y).2.trans (stepProj y).2⟩,
      fun y hy => (b3 y hy).trans (stepFix y hy),
      b4.trans stepLen⟩

/-- `makeNetwork` with default options over one node row and no edge rows:
exactly one node object is allocated and registered, no edges and no
errors. -/
theorem makeNetwork_single_node (w : World) (row : NodeRow) :
    ∃ ob : NodeObj, makeNetwork w {} [row] []
      = { w := (w.allocNode ob).1
          net := { nodes := [w.nodeHeap.length], edges := []
                   nodeMap := [(ob.id, w.nodeHeap.length)], edgeMap := []
                   inToOutMap := [] }
          errors := [] } := by
  cases hrow : row.idA with
  | some i =>
    refine ⟨{ id := i, inE := [], outE := []
              value := row.valueA.getD (.num 0), meta := row.metaA }, ?_⟩
    unfold makeNetwork nodePhase mnInit nodeRowStep
    simp only [List.foldl_cons, List.foldl_nil, hrow]
    rfl
  | none =>
    refine ⟨{ id := .num 0, inE := [], outE := []
              value := row.valueA.getD (.num 0), meta := row.metaA }, ?_⟩
    unfold makeNetwork nodePhase mnInit nodeRowStep
    simp only [List.foldl_cons, List.foldl_nil, hrow]
    rfl

/-- C7: fragmenting any valid network into the single partition holding all
its nodes yields exactly one fragment structurally equal to the original
(node id/meta rows in order, edge count, duplicate-free edge id set with the
original metas), an empty culled-edge set, no not-processed errors, a parent
network of exactly one node and zero edges, and an unmutated original (every
original node and edge object dereferences unchanged).  Connectivity is not
needed: the claim's conclusions hold for every valid network. -/
theorem fragmentNetwork_roundtrip (w : World) (net : Network) (uidBase : Nat)
    (vn : ValidNet w net) :
    ∀ res, res = fragmentNetwork w [net.nodes] uidBase →
      res.fragments.length = 1
      ∧ (∀ f ∈ res.fragments,
          f.nodes.map (fun rc => ((res.w.node rc).id, (res.w.node rc).meta))
            = net.nodes.map (fun x => ((w.node x).id, (w.node x).meta))
          ∧ f.edges.length = net.edges.length
          ∧ (f.edges.map fun ec => (res.w.edge ec).id).Nodup
          ∧ (∀ ec ∈ f.edges, ∃ e ∈ net.edges,
              (res.w.edge ec).id = (w.edge e).id
              ∧ (res.w.edge ec).meta = (w.edge e).meta)
          ∧ (∀ e ∈ net.edges, ∃ ec ∈ f.edges,
              (res.w.edge ec).id = (w.edge e).id
              ∧ (res.w.edge ec).meta = (w.edge e).meta))
      ∧ res.culled = [] ∧ res.errEdges = [] ∧ res.errorCount = 0
      ∧ res.parent.nodes.length = 1 ∧ res.parent.edges = []
      ∧ (∀ y, y < w.nodeHeap.length → res.w.node y = w.node y)
      ∧ (∀ y, y < w.edgeHeap.length → res.w.edge y = w.edge y) := by
  intro res hres
  subst hres
  set P := List.foldl (fragNodeStep [net.nodes] 0 net.nodes)
    ({ w := w, between := [], culled := [], errEdges := [] },
     { nodes := [], edges := [], nodeMap := [], edgeMap := []
       inToOutMap := [] }) net.nodes with hPdef
  have inv1 : FragInv w net net.nodes P.1 P.2 := by
    have h := fragFold_inv w net vn net.nodes []
      { w := w, between := [], culled := [], errEdges := [] }
      { nodes := [], edges := [], nodeMap := [], edgeMap := []
        inToOutMap := [] }
      (List.nil_append net.nodes).symm (fragInv_init w net)
    rw [List.nil_append] at h
    exact h
  obtain ⟨r1, r2, r3, r4, r5, r6, r7, r8, r9, r10, r11⟩ :=
    fragRelink_fold w.edgeHeap.length P.2.edges P
      (fun ec hec => (inv1.core.edgesGe ec hec).1)
  set Q := List.foldl fragRelinkStep P P.2.edges with hQdef
  obtain ⟨m1, m2, m3, m4⟩ :=
    fragRemap_fold w.nodeHeap.length Q.2 Q.2.nodes Q.1.w
      (fun nr hnr => (inv1.nodesGe nr (by rw [← r8]; exact hnr)).1)
  set W2 := List.foldl (fragRemapStep Q.2) Q.1.w Q.2.nodes with hW2def
  have hbet : Q.1.between = [] := r5.trans inv1.core.bet
  have hcul : Q.1.culled = [] := r6.trans inv1.core.cul
  have herr : Q.1.errEdges = [] := r7.trans inv1.core.err
  have hfrag : fragmentNetwork w [net.nodes] uidBase
      = { w := (makeNetwork W2 {}
              ((List.range [net.nodes].length).map (fun k =>
                ({ idA := if uidBase + k = 0 then none
                     else some (.num (uidBase + k))
                   valueA := none, metaA := some k } : NodeRow)))
              (Q.1.between.foldl (fun rs ab =>
                ab.2.foldl (fun rs2 bl =>
                  rs2 ++ [({ idA := some (.str (toString ab.1 ++ "-"
                               ++ toString bl.1))
                             inA := if ab.1 < [net.nodes].length
                                 ∧ uidBase + ab.1 ≠ 0 then
                                 some (.num (uidBase + ab.1)) else none
                             outA := if bl.1 < [net.nodes].length
                                 ∧ uidBase + bl.1 ≠ 0 then
                                 some (.num (uidBase + bl.1)) else none
                             valuesA := none, metaA := some 0 } : EdgeRow)])
                  rs) [])).net.nodes.enum.foldl
            (fun wacc jp => wacc.setNode jp.2
              { wacc.node jp.2 with
                id := .num (uidBase + [net.nodes].length + jp.1) })
            (makeNetwork W2 {}
              ((List.range [net.nodes].length).map (fun k =>
                ({ idA := if uidBase + k = 0 then none
                     else some (.num (uidBase + k))
                   valueA := none, metaA := some k } : NodeRow)))
              (Q.1.between.foldl (fun rs ab =>
                ab.2.foldl (fun rs2 bl =>
                  rs2 ++ [({ idA := some (.str (toString ab.1 ++ "-"
                               ++ toString bl.1))
                             inA := if ab.1 < [net.nodes].length
                                 ∧ uidBase + ab.1 ≠ 0 then
                                 some (.num (uidBase + ab.1)) else none
                             outA := if bl.1 < [net.nodes].length
                                 ∧ uidBase + bl.1 ≠ 0 then
                                 some (.num (uidBase + bl.1)) else none
                             valuesA := none, metaA := some 0 } : EdgeRow)])
                  rs) [])).w
          fragments := [Q.2]
          parent := (makeNetwork W2 {}
              ((List.range [net.nodes].length).map (fun k =>
                ({ idA := if uidBase + k = 0 then none
                     else some (.num (uidBase + k))
                   valueA := none, metaA := some k } : NodeRow)))
              (Q.1.between.foldl (fun rs ab =>
                ab.2.foldl (fun rs2 bl =>
                  rs2 ++ [({ idA := some (.str (toString ab.1 ++ "-"
                               ++ toString bl.1))
                             inA := if ab.1 < [net.nodes].length
                                 ∧ uidBase + ab.1 ≠ 0 then
                                 some (.num (uidBase + ab.1)) else none
                             outA := if bl.1 < [net.nodes].length
                                 ∧ uidBase + bl.1 ≠ 0 then
                                 some (.num (uidBase + bl.1)) else none
                             valuesA := none, metaA := some 0 } : EdgeRow)])
                  rs) [])).net
          parentErrors := (makeNetwork W2 {}
              ((List.range [net.nodes].length).map (fun k =>
                ({ idA := if uidBase + k = 0 then none
                     else some (.num (uidBase + k))
                   valueA := none, metaA := some k } : NodeRow)))
              (Q.1.between.foldl (fun rs ab =>
                ab.2.foldl (fun rs2 bl =>
                  rs2 ++ [({ idA := some (.str (toString ab.1 ++ "-"
                               ++ toString bl.1))
                             inA := if ab.1 < [net.nodes].length
                                 ∧ uidBase + ab.1 ≠ 0 then
                                 some (.num (uidBase + ab.1)) else none
                             outA := if bl.1 < [net.nodes].length
                                 ∧ uidBase + bl.1 ≠ 0 then
                                 some (.num (uidBase + bl.1)) else none
                             valuesA := none, metaA := some 0 } : EdgeRow)])
                  rs) [])).errors
          culled := Q.1.culled, errEdges := Q.1.errEdges
          errorCount := if Q.1.errEdges.length > 0 then 1 else 0 } := rfl
  rw [hbet] at hfrag
  simp only [List.foldl_nil, List.length_singleton, List.range_succ,
    List.range_zero, List.nil_append, List.map_cons, List.map_nil] at hfrag
  obtain ⟨ob, hmk⟩ := makeNetwork_single_node W2
    { idA := if uidBase + 0 = 0 then none
        else some (.num ((uidBase : Int) + ((0 : Nat) : Int)))
      valueA := none, metaA := some 0 }
  rw [hmk] at hfrag
  dsimp only at hfrag
  simp only [List.enum, List.enumFrom, List.foldl_cons, List.foldl_nil] at hfrag
  rw [hfrag]
  dsimp only
  have hlenEq : W2.nodeHeap.length = P.1.w.nodeHeap.length :=
    m4.trans (congrArg List.length r1)
  have hQPn : ∀ y, Q.1.w.node y = P.1.w.node y := by
    intro y
    unfold World.node
    rw [r1]
  have hWQe : ∀ y, W2.edge y = Q.1.w.edge y := by
    intro y
    unfold World.edge
    rw [m1]
  have hBPe : ∀ y, (W2.edge y).id = (P.1.w.edge y).id
      ∧ (W2.edge y).meta = (P.1.w.edge y).meta := by
    intro y
    exact ⟨(congrArg EdgeObj.id (hWQe y)).trans (r2 y).1,
      (congrArg EdgeObj.meta (hWQe y)).trans (r2 y).2⟩
  have hBn : ∀ y, y < W2.nodeHeap.length →
      ((W2.allocNode ob).1.setNode W2.nodeHeap.length
        { (W2.allocNode ob).1.node W2.nodeHeap.length with
          id := Ident.num (uidBase + 1 + 0) }).node y = W2.node y := by
    intro y hy
    rw [World.node_setNode_ne _ _ _ _ (Nat.ne_of_lt hy).symm]
    exact World.node_allocNode_lt _ _ _ hy
  refine ⟨rfl, ?_, hcul, herr, ?_, rfl, rfl, ?_, ?_⟩
  · intro f hf
    rcases List.mem_singleton.mp hf with rfl
    refine ⟨?_, ?_, ?_, ?_, ?_⟩
    · have ha : List.map (fun rc =>
          ((((W2.allocNode ob).1.setNode W2.nodeHeap.length
            { (W2.allocNode ob).1.node W2.nodeHeap.length with
              id := Ident.num (uidBase + 1 + 0) }).node rc).id,
           (((W2.allocNode ob).1.setNode W2.nodeHeap.length
            { (W2.allocNode ob).1.node W2.nodeHeap.length with
              id := Ident.num (uidBase + 1 + 0) }).node rc).meta)) Q.2.nodes
          = List.map (fun x => ((w.node x).id, (w.node x).meta)) net.nodes := by
        rw [r8]
        refine (List.map_congr_left ?_).trans inv1.nodesData
        intro rc hrc
        have hrcW : rc < W2.nodeHeap.length := by
          rw [hlenEq]
          exact (inv1.nodesGe rc hrc).2
        have hb := hBn rc hrcW
        exact congrArg₂ Prod.mk
          ((congrArg NodeObj.id hb).trans ((m2 rc).1.trans
            (congrArg NodeObj.id (hQPn rc))))
          ((congrArg NodeObj.meta hb).trans ((m2 rc).2.trans
            (congrArg NodeObj.meta (hQPn rc))))
      exact ha
    · have hsub1 : (P.2.edges.map fun ec => (P.1.w.edge ec).id)
          ⊆ (net.edges.map fun e => (w.edge e).id) := by
        intro i hi
        rcases List.mem_map.mp hi with ⟨ec, hec, rfl⟩
        rcases inv1.core.edgesData ec hec with ⟨e, he, hid, _⟩
        exact List.mem_map.mpr ⟨e, he, hid.symm⟩
      have hsub2 : (net.edges.map fun e => (w.edge e).id)
          ⊆ (P.2.edges.map fun ec => (P.1.w.edge ec).id) := by
        intro i hi
        rcases List.mem_map.mp hi with ⟨e, he, rfl⟩
        rcases (inv1.keysEnc ((w.edge e).id)).mpr
          ⟨e, he, rfl, (w.edge e).outN, vn.endOut e he, Or.inl (vn.inAdj e he)⟩
          with ⟨ec, hec, hid⟩
        exact List.mem_map.mpr ⟨ec, hec, hid⟩
      have hlen2 : (P.2.edges.map fun ec => (P.1.w.edge ec).id).length
          = (net.edges.map fun e => (w.edge e).id).length :=
        Nat.le_antisymm
          (List.Subperm.length_le (List.Nodup.subperm inv1.core.emNodup hsub1))
          (List.Subperm.length_le (List.Nodup.subperm vn.edgeIds hsub2))
      rw [List.length_map, List.length_map] at hlen2
      have hq : Q.2.edges.length = net.edges.length := by
        rw [r9]
        exact hlen2
      exact hq
    · have hc : Q.2.edges.map (fun ec => (W2.edge ec).id)
          = P.2.edges.map (fun ec => (P.1.w.edge ec).id) := by
        rw [r9]
        exact List.map_congr_left (fun ec _ => (hBPe ec).1)
      exact (show (Q.2.edges.map (fun ec => (W2.edge ec).id)).Nodup by
        rw [hc]; exact inv1.core.emNodup)
    · intro ec hec
      rw [r9] at hec
      rcases inv1.core.edgesData ec hec with ⟨e, he, hid, hmeta⟩
      exact ⟨e, he, (hBPe ec).1.trans hid, (hBPe ec).2.trans hmeta⟩
    · intro e he
      rcases (inv1.keysEnc ((w.edge e).id)).mpr
        ⟨e, he, rfl, (w.edge e).outN, vn.endOut e he, Or.inl (vn.inAdj e he)⟩
        with ⟨ec, hec, hid⟩
      rcases inv1.core.edgesData ec hec with ⟨e2, he2, hid2, hmeta2⟩
      have he2e : e2 = e := List.inj_on_of_nodup_map vn.edgeIds he2 he
        (hid2.symm.trans hid)
      refine ⟨ec, by rw [r9]; exact hec, (hBPe ec).1.trans hid, ?_⟩
      rw [← he2e]
      exact (hBPe ec).2.trans hmeta2
  · rw [herr]
    rfl
  · intro y hy
    have hyW : y < W2.nodeHeap.length := by
      rw [hlenEq]
      exact lt_of_lt_of_le hy inv1.core.nlen
    exact (hBn y hyW).trans ((m3 y hy).trans
      ((hQPn y).trans (inv1.core.nfix y hy)))
  · intro y hy
    exact (hWQe y).trans ((r3 y hy).trans (inv1.core.efix y hy))

/-- Witness for C7: the connected two-node network A→B (`linkedPairWorld`
with `linkedPairNet`) satisfies the validity invariants, and fragmenting it
into the single partition of all its nodes yields one fragment, no culled
edges, no errors and a one-node, zero-edge parent network. -/
theorem fragmentNetwork_roundtrip_witness :
    ValidNet linkedPairWorld linkedPairNet
    ∧ (fragmentNetwork linkedPairWorld [linkedPairNet.nodes]
        1).fragments.length = 1
    ∧ (fragmentNetwork linkedPairWorld [linkedPairNet.nodes] 1).culled = []
    ∧ (fragmentNetwork linkedPairWorld [linkedPairNet.nodes] 1).errEdges = []
    ∧ (fragmentNetwork linkedPairWorld [linkedPairNet.nodes] 1).errorCount = 0
    ∧ (fragmentNetwork linkedPairWorld [linkedPairNet.nodes]
        1).parent.nodes.length = 1
    ∧ (fragmentNetwork linkedPairWorld [linkedPairNet.nodes] 1).parent.edges
        = [] := by
  have vn : ValidNet linkedPairWorld linkedPairNet :=
    ⟨by decide, by decide, by decide, by decide, by decide, by decide,
     by decide, by decide, by decide, by decide⟩
  have h := fragmentNetwork_roundtrip linkedPairWorld linkedPairNet 1 vn
    (fragmentNetwork linkedPairWorld [linkedPairNet.nodes] 1) rfl
  exact ⟨vn, h.1, h.2.2.1, h.2.2.2.1, h.2.2.2.2.1, h.2.2.2.2.2.1,
    h.2.2.2.2.2.2.1⟩

/-- C1 (code evidence): fragmenting the two-node network A→B (`linkedPairWorld`)
into the single partition `[B, A]` clones B first, so its `in` loop clones
the edge; when A's `out` loop then meets the already-cloned edge, the
source's `node.in.push(mappedEdge)` drops it into A's clone's `in` list.
The resulting fragment has the cloned edge (reference 1) in `edges` with
`in`-endpoint the clone of A (reference 3), yet that clone's `out` list is
empty — the adjacency invariant `e ∈ e.in.out` fails — while the edge sits
wrongly in the clone's `in` list (the `e ∈ e.out.in` half and the
`inToOutMap` entry do hold). -/
theorem fragmentNetwork_breaks_adjacency_invariant :
    (fragmentNetwork linkedPairWorld [[1, 0]] 1).fragments
      = [{ nodes := [2, 3]
           edges := [1]
           nodeMap := [(.num 2, 2), (.num 1, 3)]
           edgeMap := [(.num 10, 1)]
           inToOutMap := [(3, [(2, 1)])] }]
    ∧ ((fragmentNetwork linkedPairWorld [[1, 0]] 1).w.edge 1).inN = 3
    ∧ ((fragmentNetwork linkedPairWorld [[1, 0]] 1).w.edge 1).outN = 2
    ∧ 1 ∉ ((fragmentNetwork linkedPairWorld [[1, 0]] 1).w.node 3).outE
    ∧ ((fragmentNetwork linkedPairWorld [[1, 0]] 1).w.node 3).inE = [1]
    ∧ 1 ∈ ((fragmentNetwork linkedPairWorld [[1, 0]] 1).w.node 2).inE
    ∧ momGet (({ nodes := [2, 3]
                 edges := [1]
                 nodeMap := [(.num 2, 2), (.num 1, 3)]
                 edgeMap := [(.num 10, 1)]
                 inToOutMap := [(3, [(2, 1)])] } : Network)).inToOutMap 3 2
        = some 1 := by
  decide

end NetData
